import Mathlib

/-!
The calendar import of todo-app: `parseICS`, `toRFC3339NoMillis`, `getNextOccurrence`.

Shallow embedding of the calendar-ingestion code of `src/todo-app.js`.

Conventions of the embedding:

* a JavaScript string is a `List Char`;
* a JavaScript `Date` is its time value: `some t` (milliseconds since the
  epoch, an integer) or `none` for an Invalid Date (time value `NaN`);
* a JavaScript number that the code computes is an integer or `NaN`
  (`Option Int`); the values that occur (time values, calendar fields) are
  far below `2^53`, so integer arithmetic is exact;
* the local time zone is a fixed offset `tza` in milliseconds (the
  ECMAScript `LocalTZA`): daylight-saving transitions are outside the model;
* the clock (`new Date()`) is an explicit argument `now`;
* a raised `TypeError` is `Except.error`.
-/

namespace TodoApp

/-! ## ECMAScript date arithmetic (ECMA-262, "Date Objects") -/

def msPerDay : Int := 86400000
def msPerHour : Int := 3600000
def msPerMinute : Int := 60000
def msPerSecond : Int := 1000

/-- ECMA-262 `Day(t)`. -/
def Day (t : Int) : Int := t / msPerDay

/-- ECMA-262 `TimeWithinDay(t)`. -/
def TimeWithinDay (t : Int) : Int := t % msPerDay

/-- ECMA-262 `DayFromYear(y)`. -/
def DayFromYear (y : Int) : Int :=
  365 * (y - 1970) + (y - 1969) / 4 - (y - 1901) / 100 + (y - 1601) / 400

/-- Leap-year test behind ECMA-262 `DaysInYear` and `InLeapYear`. -/
def isLeapYear (y : Int) : Bool :=
  if y % 4 ≠ 0 then false
  else if y % 100 ≠ 0 then true
  else if y % 400 ≠ 0 then false
  else true

/-- ECMA-262 `DaysInYear(y)`. -/
def DaysInYear (y : Int) : Int := if isLeapYear y then 366 else 365

/-- Year of a day number: the largest `y` with `DayFromYear y ≤ d`
(ECMA-262 `YearFromTime`), computed from an estimate that is off by at most
one. -/
def yearFromDay (d : Int) : Int :=
  let y0 := 1970 + (d * 400) / 146097
  if d < DayFromYear y0 then y0 - 1
  else if DayFromYear (y0 + 1) ≤ d then y0 + 1
  else y0

/-- ECMA-262 `YearFromTime(t)`. -/
def YearFromTime (t : Int) : Int := yearFromDay (Day t)

/-- ECMA-262 `InLeapYear(t)`, as 0 or 1. -/
def InLeapYear (t : Int) : Int := if isLeapYear (YearFromTime t) then 1 else 0

/-- ECMA-262 `DayWithinYear(t)`. -/
def DayWithinYear (t : Int) : Int := Day t - DayFromYear (YearFromTime t)

/-- Month (0..11) of the day `dwy` within a year; `leap` is 0 or 1
(the table of ECMA-262 `MonthFromTime`). -/
def monthOfDayInYear (dwy leap : Int) : Int :=
  if dwy < 31 then 0
  else if dwy < 59 + leap then 1
  else if dwy < 90 + leap then 2
  else if dwy < 120 + leap then 3
  else if dwy < 151 + leap then 4
  else if dwy < 181 + leap then 5
  else if dwy < 212 + leap then 6
  else if dwy < 243 + leap then 7
  else if dwy < 273 + leap then 8
  else if dwy < 304 + leap then 9
  else if dwy < 334 + leap then 10
  else 11

/-- Number of days before month `m` (0..11) in a year; `leap` is 0 or 1. -/
def daysBeforeMonth (m leap : Int) : Int :=
  if m = 0 then 0
  else if m = 1 then 31
  else if m = 2 then 59 + leap
  else if m = 3 then 90 + leap
  else if m = 4 then 120 + leap
  else if m = 5 then 151 + leap
  else if m = 6 then 181 + leap
  else if m = 7 then 212 + leap
  else if m = 8 then 243 + leap
  else if m = 9 then 273 + leap
  else if m = 10 then 304 + leap
  else 334 + leap

/-- ECMA-262 `MonthFromTime(t)` (0 = January). -/
def MonthFromTime (t : Int) : Int := monthOfDayInYear (DayWithinYear t) (InLeapYear t)

/-- ECMA-262 `DateFromTime(t)` (day of the month, from 1). -/
def DateFromTime (t : Int) : Int :=
  DayWithinYear t - daysBeforeMonth (MonthFromTime t) (InLeapYear t) + 1

/-- ECMA-262 `HourFromTime(t)`. -/
def HourFromTime (t : Int) : Int := (t / msPerHour) % 24

/-- ECMA-262 `MinFromTime(t)`. -/
def MinFromTime (t : Int) : Int := (t / msPerMinute) % 60

/-- ECMA-262 `SecFromTime(t)`. -/
def SecFromTime (t : Int) : Int := (t / msPerSecond) % 60

/-- ECMA-262 `MakeTime(hour, min, sec, ms)` on integers. -/
def MakeTime (h m s ms : Int) : Int :=
  h * msPerHour + m * msPerMinute + s * msPerSecond + ms

/-- ECMA-262 `MakeDay(year, month, date)` on integers: the month is
normalised into the year (`month` may be negative or exceed 11) and the
date is counted from the first of that month, so it rolls over freely. -/
def MakeDay (year month date : Int) : Int :=
  let ym := year + month / 12
  let mn := month % 12
  DayFromYear ym + daysBeforeMonth mn (if isLeapYear ym then 1 else 0) + date - 1

/-- ECMA-262 `MakeDate(day, time)`. -/
def MakeDate (day time : Int) : Int := day * msPerDay + time

/-- ECMA-262 `TimeClip`: a time value beyond ±8.64e15 ms is `NaN`. -/
def TimeClip (t : Int) : Option Int :=
  if t < -8640000000000000 ∨ 8640000000000000 < t then none else some t

/-- A JavaScript `Date` object: its time value, `none` standing for `NaN`
(an Invalid Date). -/
structure JSDate where
  time : Option Int
  deriving DecidableEq, Repr

/-- ECMA-262 `LocalTime(t)` for the fixed zone offset `tza`. -/
def LocalTime (tza t : Int) : Int := t + tza

/-- ECMA-262 `UTC(t)` for the fixed zone offset `tza`. -/
def UTC (tza t : Int) : Int := t - tza

/-- The constructor `new Date(year, month, date, hours, minutes, seconds)`:
a year from 0 to 99 means 1900 + year, the fields are local time. -/
def newDateFields (tza y m d H M S : Int) : JSDate :=
  let yr := if 0 ≤ y ∧ y ≤ 99 then 1900 + y else y
  let finalDate := MakeDate (MakeDay yr m d) (MakeTime H M S 0)
  ⟨TimeClip (UTC tza finalDate)⟩

/-- Relational `a >= b` on two `Date` objects: both are converted to their
time values, and a comparison with `NaN` is false. -/
def dateGE (a b : JSDate) : Bool :=
  match a.time, b.time with
  | some x, some y => decide (y ≤ x)
  | _, _ => false

/-- Relational `a < b` on two `Date` objects. -/
def dateLT (a b : JSDate) : Bool :=
  match a.time, b.time with
  | some x, some y => decide (x < y)
  | _, _ => false

/-! ## JavaScript strings -/

/-- A JavaScript string, as the list of its characters. -/
abbrev Str := List Char

/-- `String.prototype.startsWith`. -/
def startsWith (s p : Str) : Bool := p.isPrefixOf s

/-- `String.prototype.substring(n)` with one argument. -/
def substringFrom (s : Str) (n : Nat) : Str := s.drop n

/-- `String.prototype.slice(a, b)` for `0 ≤ a ≤ b`. -/
def slice (s : Str) (a b : Nat) : Str := (s.drop a).take (b - a)

/-- White space and line terminators of ECMA-262, the characters that
`trim` strips and `parseInt` skips. -/
def isTrimChar (c : Char) : Bool :=
  let n := c.toNat
  n = 0x09 || n = 0x0A || n = 0x0B || n = 0x0C || n = 0x0D || n = 0x20 || n = 0xA0 ||
  n = 0x1680 || (0x2000 ≤ n && n ≤ 0x200A) || n = 0x2028 || n = 0x2029 || n = 0x202F ||
  n = 0x205F || n = 0x3000 || n = 0xFEFF

/-- `String.prototype.trim`. -/
def trim (s : Str) : Str :=
  ((s.dropWhile isTrimChar).reverse.dropWhile isTrimChar).reverse

/-- Prepend a character to the first piece of a split. -/
def consHead (c : Char) : List Str → List Str
  | [] => [[c]]
  | h :: t => (c :: h) :: t

/-- `String.prototype.split(sep)` for a one-character separator. -/
def splitOn (sep : Char) : Str → List Str
  | [] => [[]]
  | c :: cs => if c = sep then [] :: splitOn sep cs else consHead c (splitOn sep cs)

/-- `text.replace(/\r?\n[ \t]/g, "")`: every line break (LF or CRLF) that is
followed by a space or a tab is removed together with that character. -/
def unfoldLines : Str → Str
  | [] => []
  | [c] => [c]
  | [c, d] => if c = '\n' ∧ (d = ' ' ∨ d = '\t') then [] else [c, d]
  | c :: d :: e :: rest =>
    if c = '\n' ∧ (d = ' ' ∨ d = '\t') then unfoldLines (e :: rest)
    else if c = '\r' ∧ d = '\n' ∧ (e = ' ' ∨ e = '\t') then unfoldLines rest
    else c :: unfoldLines (d :: e :: rest)
termination_by structural s => s

/-- `text.split(/\r?\n/)`. -/
def splitLines : Str → List Str
  | [] => [[]]
  | [c] => if c = '\n' then [[], []] else [[c]]
  | c :: d :: rest =>
    if c = '\n' then [] :: splitLines (d :: rest)
    else if c = '\r' ∧ d = '\n' then [] :: splitLines rest
    else consHead c (splitLines (d :: rest))
termination_by structural s => s

/-- The class `\d` of a regular expression without the `u` flag. -/
def isDigit (c : Char) : Bool := decide (48 ≤ c.toNat) && decide (c.toNat ≤ 57)

/-- Value of a decimal digit. -/
def digitVal (c : Char) : Int := (c.toNat : Int) - 48

/-- `Number(s)` for a string `s` of decimal digits (the only strings the
code converts: slices of a value that matched `\d` at those places). -/
def numberOfDigits (s : Str) : Int := s.foldl (fun a c => 10 * a + digitVal c) 0

/-- `/^\d{8}T\d{6}Z$/.test(v)`. -/
def matchesUTC (v : Str) : Bool :=
  v.length = 16 && (slice v 0 8).all isDigit && slice v 8 9 = ['T'] &&
  (slice v 9 15).all isDigit && slice v 15 16 = ['Z']

/-- `/^\d{8}T\d{6}$/.test(v)`. -/
def matchesFloating (v : Str) : Bool :=
  v.length = 15 && (slice v 0 8).all isDigit && slice v 8 9 = ['T'] &&
  (slice v 9 15).all isDigit

/-- `/^\d{8}$/.test(v)`. -/
def matchesDateOnly (v : Str) : Bool :=
  v.length = 8 && v.all isDigit

/-! ## `new Date(string)` -/

/-- Read exactly `n` decimal digits from the front of `s`. -/
def takeDigits (n : Nat) (s : Str) : Option (Int × Str) :=
  if (s.take n).length = n ∧ (s.take n).all isDigit then
    some (numberOfDigits (s.take n), s.drop n)
  else none

/-- Read the character `c` followed by exactly two digits, if `s` starts
with `c`; otherwise the field is absent and `s` is left as it is. -/
def optField (c : Char) (s : Str) : Option (Option Int × Str) :=
  match s with
  | [] => some (none, [])
  | x :: r =>
    if x = c then (takeDigits 2 r).map (fun p => (some p.1, p.2)) else some (none, s)

/-- Year of the Date Time String Format: `YYYY`, or a sign and six digits
(`-000000` is not allowed). -/
def parseYear (s : Str) : Option (Int × Str) :=
  match s with
  | [] => none
  | x :: r =>
    if x = '+' then takeDigits 6 r
    else if x = '-' then
      (takeDigits 6 r).bind (fun p => if p.1 = 0 then none else some (-p.1, p.2))
    else takeDigits 4 s

/-- UTC offset suffix of the Date Time String Format: nothing, `Z`, or
`±HH:mm`, in milliseconds. The outer `none` is a syntax error. -/
def parseOffset (s : Str) : Option (Option Int) :=
  match s with
  | [] => some none
  | [x] => if x = 'Z' then some (some 0) else none
  | x :: r =>
    if x = '+' ∨ x = '-' then
      (takeDigits 2 r).bind (fun h =>
        (optField ':' h.2).bind (fun m =>
          match m.1, m.2 with
          | some mm, [] =>
            if h.1 ≤ 23 ∧ mm ≤ 59 then
              some (some ((if x = '-' then -1 else 1) * (h.1 * msPerHour + mm * msPerMinute)))
            else none
          | _, _ => none))
    else none

/-- Milliseconds `.sss` of the Date Time String Format, if present. -/
def parseMillis (s : Str) : Option (Int × Str) :=
  match s with
  | [] => some (0, [])
  | x :: r => if x = '.' then takeDigits 3 r else some (0, s)

/-- Days of month `m` (0..11) of year `y`. -/
def daysInMonth (y m : Int) : Int :=
  if m = 1 then (if isLeapYear y then 29 else 28)
  else if m = 3 ∨ m = 5 ∨ m = 8 ∨ m = 10 then 30
  else 31

/-- Time part `HH:mm`, `HH:mm:ss` or `HH:mm:ss.sss` with its offset suffix:
the time within the day and the offset. -/
def parseTimePart (s : Str) : Option (Int × Option Int) :=
  (takeDigits 2 s).bind (fun h =>
    (optField ':' h.2).bind (fun mi =>
      match mi.1 with
      | none => none
      | some mm =>
        (optField ':' mi.2).bind (fun se =>
          (match se.1 with
           | none => some ((0 : Int), se.2)
           | some _ => parseMillis se.2).bind (fun ms =>
            (parseOffset ms.2).bind (fun off =>
              let ss := se.1.getD 0
              if (h.1 ≤ 23 ∧ mm ≤ 59 ∧ ss ≤ 59) ∨ (h.1 = 24 ∧ mm = 0 ∧ ss = 0 ∧ ms.1 = 0) then
                some (MakeTime h.1 mm ss ms.1, off)
              else none)))))

/-- The function `Date.parse` (ECMA-262), which `new Date(string)` applies.
The standard fixes the result for the Date Time String Format
`YYYY-MM-DDTHH:mm:ss.sssZ` and its shortened forms: a date-only form is UTC,
a date-time form without offset is local time, an element out of range gives
`NaN`. For any other string the standard allows implementation-specific
fallbacks and asks for `NaN` when the string is not recognised; the
fallbacks of V8, SpiderMonkey and JavaScriptCore do not recognise a string
that starts with more than six digits followed by a letter, such as the
iCalendar basic form `20250310T090000Z`. This model returns `NaN` for every
string outside the standard format. -/
def dateParse (tza : Int) (s : Str) : Option Int :=
  (parseYear s).bind (fun y =>
    (optField '-' y.2).bind (fun mo =>
      (match mo.1 with
       | none => some ((none : Option Int), mo.2)
       | some _ => optField '-' mo.2).bind (fun da =>
        let m := mo.1.getD 1
        let d := da.1.getD 1
        if 1 ≤ m ∧ m ≤ 12 ∧ 1 ≤ d ∧ d ≤ daysInMonth y.1 (m - 1) then
          let day := MakeDay y.1 (m - 1) d
          match da.2 with
          | [] => TimeClip (MakeDate day 0)
          | x :: r =>
            if x = 'T' then
              (parseTimePart r).bind (fun tm =>
                match tm.2 with
                | some off => TimeClip (MakeDate day tm.1 - off)
                | none => TimeClip (UTC tza (MakeDate day tm.1)))
            else none
        else none)))

/-- The constructor `new Date(v)` for a string `v`. -/
def newDateString (tza : Int) (v : Str) : JSDate := ⟨dateParse tza v⟩

/-! ## `parseICS` -/

/-- An event record of `parseICS`. `summary`, `date` and `rrule` are `null`
(`none`) until a line sets them; `recurrenceInterval` and `recurrenceUnit`
are properties that exist only once the mapping step has set them, and the
interval is then a number, `NaN` (`some none`) included. -/
structure Event where
  summary : Option Str
  date : Option JSDate
  rrule : Option Str
  isAllDay : Bool
  recurrenceInterval : Option (Option Int)
  recurrenceUnit : Option Str
  deriving DecidableEq, Repr

/-- The record `{ summary: null, date: null, rrule: null, isAllDay: false }`. -/
def Event.fresh : Event := ⟨none, none, none, false, none, none⟩

/-- State of the scanning loop: the array `events` and the variable
`current`. -/
structure ScanState where
  events : List Event
  current : Option Event
  deriving DecidableEq, Repr

/-- The date and the all-day flag that a trimmed `DTSTART` value `v` gives:
the three regular-expression branches of the scanning loop. The flag is
`none` when no branch matches, and `isAllDay` then keeps its old value. -/
def classifyValue (tza : Int) (v : Str) : Option JSDate × Option Bool :=
  if matchesUTC v then
    (some (newDateString tza v), some false)
  else if matchesFloating v then
    let y := slice v 0 4
    let m := slice v 4 6
    let d := slice v 6 8
    let H := slice v 9 11
    let M := slice v 11 13
    let S := slice v 13 15
    (some (newDateFields tza (numberOfDigits y) (numberOfDigits m - 1) (numberOfDigits d)
      (numberOfDigits H) (numberOfDigits M) (numberOfDigits S)), some false)
  else if matchesDateOnly v then
    let y := slice v 0 4
    let m := slice v 4 6
    let d := slice v 6 8
    (some (newDateFields tza (numberOfDigits y) (numberOfDigits m - 1) (numberOfDigits d) 0 0 0),
      some true)
  else (none, none)

/-- The `DTSTART` branch of the scanning loop on the open record `cur`:
`value` is the second piece of `line.split(":")`; when it is missing or
empty the line is skipped (`continue`). -/
def scanDtstart (tza : Int) (cur : Event) (line : Str) : Event :=
  match (splitOn ':' line).get? 1 with
  | none => cur
  | some value =>
    if value = [] then cur
    else
      let r := classifyValue tza (trim value)
      ⟨cur.summary, r.1, cur.rrule, r.2.getD cur.isAllDay,
        cur.recurrenceInterval, cur.recurrenceUnit⟩

/-- One iteration of the loop `for (const line of lines)`. -/
def scanLine (tza : Int) (st : ScanState) (line : Str) : ScanState :=
  if startsWith line "BEGIN:VEVENT".toList then
    ⟨st.events, some Event.fresh⟩
  else if startsWith line "END:VEVENT".toList then
    match st.current with
    | some cur => ⟨st.events ++ [cur], none⟩
    | none => ⟨st.events, none⟩
  else
    match st.current with
    | none => st
    | some cur =>
      if startsWith line "SUMMARY:".toList then
        ⟨st.events, some ⟨some (trim (substringFrom line 8)), cur.date, cur.rrule, cur.isAllDay,
          cur.recurrenceInterval, cur.recurrenceUnit⟩⟩
      else if startsWith line "DTSTART".toList then
        ⟨st.events, some (scanDtstart tza cur line)⟩
      else if startsWith line "RRULE:".toList then
        ⟨st.events, some ⟨cur.summary, cur.date, some (trim (substringFrom line 6)), cur.isAllDay,
          cur.recurrenceInterval, cur.recurrenceUnit⟩⟩
      else st

/-- The array `events` after the scanning loop: the closed blocks of the
text, in source order. -/
def scanEvents (tza : Int) (text : Str) : List Event :=
  ((splitLines (unfoldLines text)).foldl (scanLine tza) ⟨[], none⟩).events

/-- Truthiness of a value that is `null` or a string: only a non-empty
string is truthy. -/
def truthyStr : Option Str → Bool
  | none => false
  | some s => !s.isEmpty

/-- The local-time getters `getFullYear`, `getMonth`, `getDate` feeding
`new Date(now.getFullYear(), now.getMonth(), now.getDate())`: local midnight
of the clock reading `now`. -/
def todayOf (tza now : Int) : JSDate :=
  newDateFields tza (YearFromTime (LocalTime tza now)) (MonthFromTime (LocalTime tza now))
    (DateFromTime (LocalTime tza now)) 0 0 0

/-- The callback of `events.filter`. With a non-empty `rrule` or without a
date the event is kept; an all-day date is compared with `today`; otherwise
`ev.summary.startsWith("Lucie")` is evaluated first, which raises a
`TypeError` when `summary` is `null`, and the date is compared with `now`
(the `console.log` has no effect on the result). -/
def filterEvent (now today : JSDate) (ev : Event) : Except Str Bool :=
  if truthyStr ev.rrule then .ok true
  else
    match ev.date with
    | none => .ok true
    | some d =>
      if ev.isAllDay then .ok (dateGE d today)
      else
        match ev.summary with
        | none => .error "TypeError: Cannot read properties of null (reading startsWith)".toList
        | some _ => .ok (dateGE d now)

/-- `Array.prototype.filter` with a callback that may raise: the elements
are visited in order and the first exception ends the call. -/
def filterExcept (p : Event → Except Str Bool) : List Event → Except Str (List Event)
  | [] => .ok []
  | ev :: rest =>
    match p ev with
    | .error e => .error e
    | .ok keep =>
      match filterExcept p rest with
      | .error e => .error e
      | .ok kept => .ok (if keep then ev :: kept else kept)

/-- Upper case of one character, for `String.prototype.toUpperCase`: the
characters whose upper case consists of ASCII letters are mapped as Unicode
maps them (`a`-`z`, dotless i, long s, sharp s and the Latin ligatures);
every other character has an upper case with a non-ASCII character in it
and is kept as it is, which changes no comparison with an ASCII word. -/
def upperChar (c : Char) : Str :=
  let n := c.toNat
  if 97 ≤ n ∧ n ≤ 122 then [Char.ofNat (n - 32)]
  else if n = 0x131 then ['I']
  else if n = 0x17F then ['S']
  else if n = 0xDF then ['S', 'S']
  else if n = 0xFB00 then ['F', 'F']
  else if n = 0xFB01 then ['F', 'I']
  else if n = 0xFB02 then ['F', 'L']
  else if n = 0xFB03 then ['F', 'F', 'I']
  else if n = 0xFB04 then ['F', 'F', 'L']
  else if n = 0xFB05 ∨ n = 0xFB06 then ['S', 'T']
  else [c]

/-- `String.prototype.toUpperCase`. -/
def toUpperCase (s : Str) : Str := s.flatMap upperChar

/-- `parseInt(s, 10)`: leading white space is skipped, a sign is read, and
the longest run of digits is the value; `NaN` when there is no digit. -/
def parseInt10 (s : Str) : Option Int :=
  let s1 := s.dropWhile isTrimChar
  let neg := s1.head? = some '-'
  let s2 := if s1.head? = some '-' ∨ s1.head? = some '+' then s1.drop 1 else s1
  let ds := s2.takeWhile isDigit
  if ds = [] then none
  else some (if neg then -(numberOfDigits ds) else numberOfDigits ds)

/-- Property lookup `parts[key]` on `Object.fromEntries(entries)`: each
entry is the array of a `split("=")`, its first element the key and its
second the value (`undefined` when missing); a later entry with the same key
replaces an earlier one. -/
def lookupPart (entries : List (List Str)) (key : Str) : Option Str :=
  entries.foldl (fun acc e => if e.head? = some key then e.get? 1 else acc) none

/-- `a || b` for a string-or-undefined `a`. -/
def orElseStr (a : Option Str) (b : Str) : Str :=
  match a with
  | none => b
  | some s => if s.isEmpty then b else s

/-- The `switch (freq)` of the mapping step. -/
def unitOfFreq (freq : Str) : Option Str :=
  if freq = "DAILY".toList then some "day".toList
  else if freq = "WEEKLY".toList then some "week".toList
  else if freq = "MONTHLY".toList then some "month".toList
  else if freq = "YEARLY".toList then some "year".toList
  else none

/-- The recurrence fields that the mapping step computes from a non-empty
`rrule`: the parsed `INTERVAL` and the unit, when `FREQ` is recognised. -/
def ruleOf (rrule : Str) : Option (Option Int × Str) :=
  let parts := (splitOn ';' rrule).map (splitOn '=')
  let freq := toUpperCase (orElseStr (lookupPart parts "FREQ".toList) [])
  let interval := parseInt10 (orElseStr (lookupPart parts "INTERVAL".toList) "1".toList)
  match unitOfFreq freq with
  | some unit => some (interval, unit)
  | none => none

/-- The callback of `.map`: an event with a non-empty `rrule` gets
`recurrenceInterval` and `recurrenceUnit` when `FREQ` is recognised. -/
def mapEvent (ev : Event) : Event :=
  match ev.rrule with
  | none => ev
  | some rrule =>
    if rrule.isEmpty then ev
    else
      match ruleOf rrule with
      | some r => ⟨ev.summary, ev.date, ev.rrule, ev.isAllDay, some r.1, some r.2⟩
      | none => ev

/-- The function `parseICS(text)`, with the zone offset `tza` and the clock
reading `now` of `new Date()` as arguments. -/
def parseICS (tza now : Int) (text : Str) : Except Str (List Event) :=
  let events := scanEvents tza text
  let nowDate : JSDate := ⟨some now⟩
  let today := todayOf tza now
  match filterExcept (filterEvent nowDate today) events with
  | .error e => .error e
  | .ok kept => .ok (kept.map mapEvent)

/-! ## `toRFC3339NoMillis` -/

/-- `Number.prototype.toString` (and the string conversion of `number + ""`)
for an integer or `NaN`. -/
def numberToString : Option Int → Str
  | none => "NaN".toList
  | some i => if i < 0 then '-' :: Nat.toDigits 10 i.natAbs else Nat.toDigits 10 i.natAbs

/-- `String.prototype.padStart(2, "0")`. -/
def padStart2 (s : Str) : Str := List.replicate (2 - s.length) '0' ++ s

/-- The helper `pad` of `toRFC3339NoMillis`: `n.toString().padStart(2, "0")`. -/
def pad (n : Option Int) : Str := padStart2 (numberToString n)

def getUTCFullYear (d : JSDate) : Option Int := d.time.map YearFromTime
def getUTCMonth (d : JSDate) : Option Int := d.time.map MonthFromTime
def getUTCDate (d : JSDate) : Option Int := d.time.map DateFromTime
def getUTCHours (d : JSDate) : Option Int := d.time.map HourFromTime
def getUTCMinutes (d : JSDate) : Option Int := d.time.map MinFromTime
def getUTCSeconds (d : JSDate) : Option Int := d.time.map SecFromTime

def getFullYear (tza : Int) (d : JSDate) : Option Int :=
  d.time.map (fun t => YearFromTime (LocalTime tza t))
def getMonth (tza : Int) (d : JSDate) : Option Int :=
  d.time.map (fun t => MonthFromTime (LocalTime tza t))
def getDate (tza : Int) (d : JSDate) : Option Int :=
  d.time.map (fun t => DateFromTime (LocalTime tza t))
def getHours (tza : Int) (d : JSDate) : Option Int :=
  d.time.map (fun t => HourFromTime (LocalTime tza t))
def getMinutes (tza : Int) (d : JSDate) : Option Int :=
  d.time.map (fun t => MinFromTime (LocalTime tza t))
def getSeconds (tza : Int) (d : JSDate) : Option Int :=
  d.time.map (fun t => SecFromTime (LocalTime tza t))

/-- The function `toRFC3339NoMillis(date)`. -/
def toRFC3339NoMillis (date : JSDate) : Str :=
  numberToString (getUTCFullYear date) ++ "-".toList ++
  pad ((getUTCMonth date).map (· + 1)) ++ "-".toList ++
  pad (getUTCDate date) ++ "T".toList ++
  pad (getUTCHours date) ++ ":".toList ++
  pad (getUTCMinutes date) ++ ":".toList ++
  pad (getUTCSeconds date) ++ "Z".toList

/-! ## The calendar import handler -/

/-- `Date.prototype.setUTCDate(dt)`. -/
def setUTCDate (d : JSDate) (dt : Option Int) : JSDate :=
  match d.time, dt with
  | some t, some n =>
    ⟨TimeClip (MakeDate (MakeDay (YearFromTime t) (MonthFromTime t) n) (TimeWithinDay t))⟩
  | _, _ => ⟨none⟩

/-- `Date.prototype.setUTCMonth(m)` with one argument. -/
def setUTCMonth (d : JSDate) (m : Option Int) : JSDate :=
  match d.time, m with
  | some t, some n =>
    ⟨TimeClip (MakeDate (MakeDay (YearFromTime t) n (DateFromTime t)) (TimeWithinDay t))⟩
  | _, _ => ⟨none⟩

/-- `Date.prototype.setUTCFullYear(y)` with one argument: an Invalid Date is
first taken as time value 0. -/
def setUTCFullYear (d : JSDate) (y : Option Int) : JSDate :=
  match y with
  | none => ⟨none⟩
  | some n =>
    let t := d.time.getD 0
    ⟨TimeClip (MakeDate (MakeDay n (MonthFromTime t) (DateFromTime t)) (TimeWithinDay t))⟩

/-- The table `add` of `getNextOccurrence`, looked up at `step`: one advance
of `next` by `inc` units. A key other than the four gives `undefined`; the
keys that an object literal inherits (such as `toString`) are no units that
`parseICS` produces, and are not modelled. -/
def addStep (inc : Int) (step : Str) : Option (JSDate → JSDate) :=
  if step = "day".toList then
    some (fun next => setUTCDate next ((getUTCDate next).map (· + inc)))
  else if step = "week".toList then
    some (fun next => setUTCDate next ((getUTCDate next).map (· + inc * 7)))
  else if step = "month".toList then
    some (fun next => setUTCMonth next ((getUTCMonth next).map (· + inc)))
  else if step = "year".toList then
    some (fun next => setUTCFullYear next ((getUTCFullYear next).map (· + inc)))
  else none

/-- The loop `while (next < nowUTC) add()`, run for at most `fuel`
iterations; `none` when the fuel does not suffice. -/
def advanceLoop (nowUTC : JSDate) (add : JSDate → JSDate) : Nat → JSDate → Option JSDate
  | 0, next => if dateLT next nowUTC then none else some next
  | fuel + 1, next =>
    if dateLT next nowUTC then advanceLoop nowUTC add fuel (add next) else some next

/-- `interval || 1` for an interval that is `undefined`, `NaN` or an
integer. -/
def intervalOrOne (interval : Option (Option Int)) : Int :=
  match interval with
  | some (some n) => if n = 0 then 1 else n
  | _ => 1

/-- The function `getNextOccurrence(start, interval, unit)` of the import
handler, with the clock reading `nowUTC`. The outer `none` says that `fuel`
iterations did not end the loop; the inner value is `null` or a `Date`. -/
def getNextOccurrence (fuel : Nat) (nowUTC : Int) (start : Option JSDate)
    (interval : Option (Option Int)) (unit : Str) : Option (Option JSDate) :=
  match start with
  | none => some none
  | some st =>
    let next : JSDate := ⟨st.time⟩
    let inc := intervalOrOne interval
    match addStep inc unit with
    | none => some (some next)
    | some add => (advanceLoop ⟨some nowUTC⟩ add fuel next).map some

/-- The `due_date` of the record that the import handler builds for the
event `ev`: `null` (inner `none`) without a date, otherwise the formatter
applied to the date or to its next occurrence. The outer `none` says that
`fuel` did not suffice for `getNextOccurrence`. (`getNextOccurrence` returns
`null` only for a `null` start, which the first guard excludes.) -/
def dueDate (fuel : Nat) (nowUTC : Int) (ev : Event) : Option (Option Str) :=
  match ev.date with
  | none => some none
  | some d =>
    if truthyStr ev.recurrenceUnit then
      match getNextOccurrence fuel nowUTC (some d) ev.recurrenceInterval
          (ev.recurrenceUnit.getD []) with
      | none => none
      | some none => some none
      | some (some nextDate) => some (some (toRFC3339NoMillis nextDate))
    else some (some (toRFC3339NoMillis d))

/-! ## Date methods and conversions used by the editing operations -/

/-- `Number(s)` for a string `s` that, once trimmed, is empty (the value is
0) or an optional sign followed by decimal digits; every other string is
given as `NaN`. (A time or date control holds digit groups only; numeric
literals with a fraction, an exponent or a radix prefix, and `Infinity`, are
outside the numbers of this model.) -/
def toNumber (s : Str) : Option Int :=
  let t := trim s
  if t = [] then some 0
  else
    let ds := if t.head? = some '-' ∨ t.head? = some '+' then t.drop 1 else t
    if ds ≠ [] ∧ ds.all isDigit then
      some (if t.head? = some '-' then -(numberOfDigits ds) else numberOfDigits ds)
    else none

/-- Value of a hexadecimal digit. -/
def hexVal (c : Char) : Option Int :=
  let n := c.toNat
  if 48 ≤ n ∧ n ≤ 57 then some ((n : Int) - 48)
  else if 97 ≤ n ∧ n ≤ 102 then some ((n : Int) - 87)
  else if 65 ≤ n ∧ n ≤ 70 then some ((n : Int) - 55)
  else none

/-- `parseInt(s)` without a radix: as `parseInt(s, 10)`, except that after
the sign a prefix `0x` or `0X` selects radix 16. -/
def parseIntAuto (s : Str) : Option Int :=
  let s1 := s.dropWhile isTrimChar
  let s2 := if s1.head? = some '-' ∨ s1.head? = some '+' then s1.drop 1 else s1
  if startsWith s2 "0x".toList ∨ startsWith s2 "0X".toList then
    let hs := (s2.drop 2).takeWhile (fun c => (hexVal c).isSome)
    let v := hs.foldl (fun a c => 16 * a + (hexVal c).getD 0) 0
    if hs = [] then none else some (if s1.head? = some '-' then -v else v)
  else
    let ds := s2.takeWhile isDigit
    if ds = [] then none
    else some (if s1.head? = some '-' then -(numberOfDigits ds) else numberOfDigits ds)

/-- The constructor `new Date(year, month, date, hours, minutes, 0, 0)` with
arguments that may be `NaN`: one `NaN` makes the date invalid. -/
def newDateOpt (tza : Int) (y m d H M : Option Int) : JSDate :=
  match y, m, d, H, M with
  | some y, some m, some d, some H, some M => newDateFields tza y m d H M 0
  | _, _, _, _, _ => ⟨none⟩

/-- `Date.prototype.setHours(hours, minutes, 0, 0)`. -/
def setHours (tza : Int) (d : JSDate) (h m : Option Int) : JSDate :=
  match d.time, h, m with
  | some t, some h, some m =>
    ⟨TimeClip (UTC tza (MakeDate (Day (LocalTime tza t)) (MakeTime h m 0 0)))⟩
  | _, _, _ => ⟨none⟩

/-- `Date.prototype.setFullYear(year, month, date)`: an Invalid Date is
first taken as time value 0, a year from 0 to 99 is not remapped. -/
def setFullYear (tza : Int) (d : JSDate) (y m dt : Option Int) : JSDate :=
  match y, m, dt with
  | some y, some m, some dt =>
    let t := match d.time with
      | none => 0
      | some t => LocalTime tza t
    ⟨TimeClip (UTC tza (MakeDate (MakeDay y m dt) (TimeWithinDay t)))⟩
  | _, _, _ => ⟨none⟩

/-- `Date.prototype.setDate(date)`. -/
def setDate (tza : Int) (d : JSDate) (dt : Option Int) : JSDate :=
  match d.time, dt with
  | some t, some n =>
    ⟨TimeClip (UTC tza (MakeDate
      (MakeDay (YearFromTime (LocalTime tza t)) (MonthFromTime (LocalTime tza t)) n)
      (TimeWithinDay (LocalTime tza t))))⟩
  | _, _ => ⟨none⟩

/-- Relational `a <= b` on two `Date` objects: a comparison with `NaN` is
false. -/
def dateLE (a b : JSDate) : Bool :=
  match a.time, b.time with
  | some x, some y => decide (x ≤ y)
  | _, _ => false

/-- `String.prototype.padStart(n, "0")`. -/
def padStart0 (n : Nat) (s : Str) : Str := List.replicate (n - s.length) '0' ++ s

/-- `Date.prototype.toISOString()`: a `RangeError` for an Invalid Date,
otherwise `YYYY-MM-DDTHH:mm:ss.sssZ`, the year in four digits from 0 to 9999
and as a sign with six digits outside. -/
def toISOString (d : JSDate) : Except Str Str :=
  match d.time with
  | none => .error "RangeError: Invalid time value".toList
  | some t =>
    let y := YearFromTime t
    let year : Str :=
      if 0 ≤ y ∧ y ≤ 9999 then padStart0 4 (Nat.toDigits 10 y.natAbs)
      else (if y < 0 then '-' else '+') :: padStart0 6 (Nat.toDigits 10 y.natAbs)
    .ok (year ++ "-".toList ++ pad (some (MonthFromTime t + 1)) ++ "-".toList ++
      pad (some (DateFromTime t)) ++ "T".toList ++ pad (some (HourFromTime t)) ++ ":".toList ++
      pad (some (MinFromTime t)) ++ ":".toList ++ pad (some (SecFromTime t)) ++ ".".toList ++
      padStart0 3 (Nat.toDigits 10 (t % 1000).natAbs) ++ "Z".toList)

/-! ## The due date of a todo item: rendering and the operations that send it -/

/-- The date control of a todo item as the handlers read it: its `value`
and `dataset.due` (the attribute `data-due`, `undefined` when missing). -/
structure DateInput where
  value : Str
  due : Option Str
  deriving DecidableEq, Repr

/-- The attribute `data-due` that `loadProject` writes: `todo.due_date || ""`. -/
def dataDue (due_date : Option Str) : Str := orElseStr due_date []

/-- The attribute `value` that `loadProject` writes on the date control: the
local date of the stored due date as year, `-`, month and day padded to two
digits, or the empty string without a due date. (The control keeps the text
as its value when it is a date with a year of four digits or more.) -/
def dateInputValue (tza : Int) (due_date : Option Str) : Str :=
  if truthyStr due_date then
    let d := newDateString tza (due_date.getD [])
    numberToString (getFullYear tza d) ++ "-".toList ++
      padStart2 (numberToString ((getMonth tza d).map (· + 1))) ++ "-".toList ++
      padStart2 (numberToString (getDate tza d))
  else []

/-- The attribute `value` that `loadProject` writes on the time control: the
local hours and minutes of the stored due date, each padded to two digits. -/
def timeInputValue (tza : Int) (due_date : Option Str) : Str :=
  if truthyStr due_date then
    let d := newDateString tza (due_date.getD [])
    padStart2 (numberToString (getHours tza d)) ++ ":".toList ++
      padStart2 (numberToString (getMinutes tza d))
  else []

/-- The destructuring `[hours, minutes] = value.split(":").map(Number)`: a
missing second piece is `undefined`, which counts as `NaN`. -/
def hoursMinutes (v : Str) : Option Int × Option Int :=
  let parts := (splitOn ':' v).map toNumber
  ((parts.get? 0).bind id, (parts.get? 1).bind id)

/-- The branch "time is set but no date" of the menu save, of `saveEdit` and
of `toggleTodo`: today's local date of the clock reading `now` with the
hours and minutes of the time control. -/
def dateFromTimeOnly (tza now : Int) (timeValue : Str) : JSDate :=
  let n : JSDate := ⟨some now⟩
  newDateOpt tza (getFullYear tza n) (getMonth tza n) (getDate tza n)
    (hoursMinutes timeValue).1 (hoursMinutes timeValue).2

/-- The branch "date is set" of the menu save, of `saveEdit` and of
`toggleTodo`: the pieces of `value.split("-")` go through `parseInt` into
`new Date(y, m - 1, d)`, then `setHours` sets the time of the time control,
or midnight when that control is missing or empty. -/
def dateFromInputs (tza : Int) (dateValue : Str) (timeInput : Option Str) : JSDate :=
  let parts := splitOn '-' dateValue
  let localDate := newDateOpt tza ((parts.get? 0).bind parseIntAuto)
    (((parts.get? 1).bind parseIntAuto).map (· - 1)) ((parts.get? 2).bind parseIntAuto)
    (some 0) (some 0)
  if truthyStr timeInput then
    setHours tza localDate (hoursMinutes (timeInput.getD [])).1 (hoursMinutes (timeInput.getD [])).2
  else setHours tza localDate (some 0) (some 0)

/-- `String.prototype.endsWith("Z")`. -/
def endsWithZ (s : Str) : Bool := s.getLast? = some 'Z'

/-- The reuse of a stored due date in the menu save and in `saveEdit`: a
string that does not end in `Z` and parses as a valid date is formatted
again. -/
def reformatStored (tza : Int) (due : Str) : Str :=
  if !endsWithZ due then
    if (newDateString tza due).time.isSome then toRFC3339NoMillis (newDateString tza due)
    else due
  else due

/-- `s.replace(/\.\d{3}Z$/, "Z")`. -/
def dropMillis (s : Str) : Str :=
  match s.drop (s.length - 5) with
  | [a, b, c, d, e] =>
    if a = '.' ∧ isDigit b ∧ isDigit c ∧ isDigit d ∧ e = 'Z' then
      s.take (s.length - 5) ++ ['Z']
    else s
  | _ => s

/-- The `dueDate` that the save button of the todo menu sends: `dateInput`
and `timeInput` are the controls found in the item (`none` when
`querySelector` finds none; the time control is given by its value), `now`
is the clock reading. The result `none` is `null`. -/
def menuSaveDueDate (tza now : Int) (dateInput : Option DateInput) (timeInput : Option Str) :
    Option Str :=
  let dateValue : Option Str := dateInput.map (fun di => di.value)
  let stored : Option Str := dateInput.bind (fun di => di.due)
  if dateValue = some [] then some []
  else if truthyStr timeInput ∧ ¬ truthyStr dateValue then
    some (toRFC3339NoMillis (dateFromTimeOnly tza now (timeInput.getD [])))
  else if truthyStr dateValue then
    some (toRFC3339NoMillis (dateFromInputs tza (dateValue.getD []) timeInput))
  else if truthyStr stored ∧ ¬ truthyStr dateValue then
    some (reformatStored tza (stored.getD []))
  else none

/-- The `dueDate` that `saveEdit` sends after a title edit: the branches of
the menu save, and in the reuse branch a final removal of milliseconds. -/
def saveEditDueDate (tza now : Int) (dueInput : Option DateInput) (timeInput : Option Str) :
    Option Str :=
  let dateValue : Option Str := dueInput.map (fun di => di.value)
  let stored : Option Str := dueInput.bind (fun di => di.due)
  if dateValue = some [] then some []
  else if truthyStr timeInput ∧ ¬ truthyStr dateValue then
    some (toRFC3339NoMillis (dateFromTimeOnly tza now (timeInput.getD [])))
  else if truthyStr dateValue then
    some (toRFC3339NoMillis (dateFromInputs tza (dateValue.getD []) timeInput))
  else if truthyStr stored ∧ ¬ truthyStr dateValue then
    let dueDate := reformatStored tza (stored.getD [])
    some (if ¬ dueDate.isEmpty ∧ '.' ∈ dueDate then dropMillis dueDate else dueDate)
  else none

/-- The `dueDate` that the `drop` handler sends when a todo is moved: with a
date in the control, `setFullYear` and `setHours` on the clock reading
`now`; otherwise the stored due date, formatted again when it parses as a
valid date and sent as it is when it does not. -/
def dropDueDate (tza now : Int) (dateInput : Option DateInput) (timeInput : Option Str) :
    Option Str :=
  let dateValue : Option Str := dateInput.map (fun di => di.value)
  let stored : Option Str := dateInput.bind (fun di => di.due)
  if truthyStr dateValue then
    let parts := (splitOn '-' (dateValue.getD [])).map toNumber
    let date := setFullYear tza ⟨some now⟩ ((parts.get? 0).bind id)
      (((parts.get? 1).bind id).map (· - 1)) ((parts.get? 2).bind id)
    let date2 :=
      if truthyStr timeInput then
        setHours tza date (hoursMinutes (timeInput.getD [])).1 (hoursMinutes (timeInput.getD [])).2
      else setHours tza date (some 0) (some 0)
    some (toRFC3339NoMillis date2)
  else if truthyStr stored then
    if (newDateString tza (stored.getD [])).time.isSome then
      some (toRFC3339NoMillis (newDateString tza (stored.getD [])))
    else stored
  else none

/-- The `dueDate` that `toggleTodo` sends: the computed branches end in
`toISOString()`, which raises a `RangeError` on an Invalid Date, and the
stored due date is sent as it is. -/
def toggleDueDate (tza now : Int) (dueInput : Option DateInput) (timeInput : Option Str) :
    Except Str (Option Str) :=
  let dateValue : Option Str := dueInput.map (fun di => di.value)
  let stored : Option Str := dueInput.bind (fun di => di.due)
  if truthyStr timeInput ∧ ¬ truthyStr dateValue then
    (toISOString (dateFromTimeOnly tza now (timeInput.getD []))).map some
  else if truthyStr dateValue then
    (toISOString (dateFromInputs tza (dateValue.getD []) timeInput)).map some
  else if truthyStr stored then .ok stored
  else .ok none

/-- The `due_date` that `importGoogleTasks` sends for a task:
`task.due ? new Date(task.due).toISOString().split("T")[0] : null`. -/
def googleDueDate (tza : Int) (due : Option Str) : Except Str (Option Str) :=
  if truthyStr due then
    (toISOString (newDateString tza (due.getD []))).map (fun s => (splitOn 'T' s).head?)
  else .ok none

/-- The bound `thisWeek` of `loadTodosByProject`: `today` and `thisWeek`
are two readings of the clock, and `thisWeek.setDate(today.getDate() + 6)`. -/
def thisWeekOf (tza today thisWeek : Int) : JSDate :=
  setDate tza ⟨some thisWeek⟩ ((getDate tza ⟨some today⟩).map (· + 6))

/-- The callback that selects the todos of the group "This Week": a todo
without a due date is left out, any other is kept when `due <= thisWeek`. -/
def isUpcoming (tza today thisWeek : Int) (due_date : Option Str) : Bool :=
  if truthyStr due_date then
    dateLE (newDateString tza (due_date.getD [])) (thisWeekOf tza today thisWeek)
  else false

/-! ## Vocabulary of the statements -/

/-- Two decimal digits of a number from 0 to 99. -/
def twoDigits (n : Int) : Str := [Nat.digitChar (n.toNat / 10), Nat.digitChar (n.toNat % 10)]

/-- Four decimal digits of a number from 0 to 9999. -/
def fourDigits (n : Int) : Str :=
  [Nat.digitChar (n.toNat / 1000), Nat.digitChar (n.toNat / 100 % 10),
    Nat.digitChar (n.toNat / 10 % 10), Nat.digitChar (n.toNat % 10)]

/-- The date `y`-`m`-`d` (month from 1) exists in the calendar. -/
def validDate (y m d : Int) : Prop :=
  1 ≤ m ∧ m ≤ 12 ∧ 1 ≤ d ∧ d ≤ daysInMonth y (m - 1)

/-- The time of day `H:M:S` exists. -/
def validTime (H M S : Int) : Prop :=
  0 ≤ H ∧ H ≤ 23 ∧ 0 ≤ M ∧ M ≤ 59 ∧ 0 ≤ S ∧ S ≤ 59

/-- Days that one step of a unit spans for the units of fixed length. -/
def daysPerStep (unit : Str) : Int := if unit = "week".toList then 7 else 1

/-- Least number of days by which one step of a unit advances a date. -/
def minStepDays (unit : Str) : Int :=
  if unit = "week".toList then 7
  else if unit = "month".toList then 28
  else if unit = "year".toList then 365
  else 1

/-- Bound on the advances of the loop of `getNextOccurrence`: the ceiling
of `(now - start) / (n * step)` with the step in milliseconds, and zero when
the start is not before `now` or is an Invalid Date. -/
def advanceBound (now : Int) (start : JSDate) (n : Int) (unit : Str) : Nat :=
  match start.time with
  | none => 0
  | some t =>
    ((now - t + (n * minStepDays unit * msPerDay - 1)) / (n * minStepDays unit * msPerDay)).toNat

/-- The value that the mapping step reads for `FREQ` in a recurrence token:
`parts.FREQ || ""`. -/
def freqValue (rrule : Str) : Str :=
  orElseStr (lookupPart ((splitOn ';' rrule).map (splitOn '=')) "FREQ".toList) []

/-- Upper case of an ASCII letter, other characters unchanged. -/
def asciiUpper (c : Char) : Char :=
  if 97 ≤ c.toNat ∧ c.toNat ≤ 122 then Char.ofNat (c.toNat - 32) else c

/-- The lines that the scanning loop visits: the text unfolded, then split
at line breaks. -/
def linesOf (text : Str) : List Str := splitLines (unfoldLines text)

/-- The scanning loop run over a list of lines from a given state. -/
def scanFrom (tza : Int) (st : ScanState) (lines : List Str) : ScanState :=
  lines.foldl (scanLine tza) st

/-- The strict form `YYYY-MM-DDThh:mm:ssZ`: twenty characters, digits at
the places of the letters. -/
def isStrictForm (s : Str) : Bool :=
  match s with
  | [y1, y2, y3, y4, a, m1, m2, b, d1, d2, c, h1, h2, e, i1, i2, f, s1, s2, z] =>
    isDigit y1 && isDigit y2 && isDigit y3 && isDigit y4 && a = '-' &&
    isDigit m1 && isDigit m2 && b = '-' && isDigit d1 && isDigit d2 && c = 'T' &&
    isDigit h1 && isDigit h2 && e = ':' && isDigit i1 && isDigit i2 && f = ':' &&
    isDigit s1 && isDigit s2 && z = 'Z'
  | _ => false

/-- Count of calendar months of the UTC month of `t`, from year 0. -/
def monthIndex (t : Int) : Int := 12 * YearFromTime t + MonthFromTime t

/-- The instant `i` calendar months after `t` as `setUTCMonth` computes it:
the month of `t` moved by `i`, the day of the month and the time within the
day kept. -/
def addMonths (t i : Int) : Int :=
  MakeDate (MakeDay (YearFromTime t) (MonthFromTime t + i) (DateFromTime t)) (TimeWithinDay t)

/-! ## Lemmas on the date arithmetic -/

theorem DayFromYear_bounds (y : Int) :
    146097 * (y - 1970) - 506 ≤ 400 * DayFromYear y ∧
    400 * DayFromYear y ≤ 146097 * (y - 1970) + 589 := by
  unfold DayFromYear
  omega

/-- The result of `yearFromDay` is the year whose span of days holds `d`:
this is the defining property of ECMA-262 `YearFromTime`. -/
theorem yearFromDay_spec (d : Int) :
    DayFromYear (yearFromDay d) ≤ d ∧ d < DayFromYear (yearFromDay d + 1) := by
  have b0 := DayFromYear_bounds (1970 + d * 400 / 146097 - 1)
  have b3 := DayFromYear_bounds (1970 + d * 400 / 146097 + 1 + 1)
  have e1 : 1970 + d * 400 / 146097 - 1 + 1 = 1970 + d * 400 / 146097 := by ring
  unfold yearFromDay
  simp only []
  split_ifs with h1 h2
  · rw [e1]; exact ⟨by omega, h1⟩
  · exact ⟨h2, by omega⟩
  · exact ⟨by omega, by omega⟩

theorem DayFromYear_succ (y : Int) : DayFromYear (y + 1) = DayFromYear y + DaysInYear y := by
  have h4 : (y + 1 - 1969) / 4 = (y - 1969) / 4 + (if y % 4 = 0 then 1 else 0) := by
    split_ifs <;> omega
  have h100 : (y + 1 - 1901) / 100 = (y - 1901) / 100 + (if y % 100 = 0 then 1 else 0) := by
    split_ifs <;> omega
  have h400 : (y + 1 - 1601) / 400 = (y - 1601) / 400 + (if y % 400 = 0 then 1 else 0) := by
    split_ifs <;> omega
  have i1 : y % 400 = 0 → y % 100 = 0 := by omega
  have i2 : y % 100 = 0 → y % 4 = 0 := by omega
  unfold DayFromYear DaysInYear isLeapYear
  rw [h4, h100, h400]
  by_cases c4 : y % 4 = 0 <;> by_cases c100 : y % 100 = 0 <;> by_cases c400 : y % 400 = 0 <;>
    simp [c4, c100, c400] <;> omega

theorem DaysInYear_cases (y : Int) :
    (isLeapYear y = true ∧ DaysInYear y = 366) ∨ (isLeapYear y = false ∧ DaysInYear y = 365) := by
  unfold DaysInYear
  cases isLeapYear y <;> simp

theorem DayFromYear_strictMono : StrictMono DayFromYear := by
  apply strictMono_int_of_lt_succ
  intro y
  rw [DayFromYear_succ]
  rcases DaysInYear_cases y with ⟨_, h⟩ | ⟨_, h⟩ <;> omega

theorem yearFromDay_unique (d y : Int) (h1 : DayFromYear y ≤ d) (h2 : d < DayFromYear (y + 1)) :
    yearFromDay d = y := by
  obtain ⟨s1, s2⟩ := yearFromDay_spec d
  rcases lt_trichotomy (yearFromDay d) y with h | h | h
  · have : DayFromYear (yearFromDay d + 1) ≤ DayFromYear y :=
      DayFromYear_strictMono.monotone (by omega)
    omega
  · exact h
  · have : DayFromYear (y + 1) ≤ DayFromYear (yearFromDay d) :=
      DayFromYear_strictMono.monotone (by omega)
    omega

theorem DayWithinYear_bounds (t : Int) :
    0 ≤ DayWithinYear t ∧ DayWithinYear t < DaysInYear (YearFromTime t) := by
  have h := yearFromDay_spec (Day t)
  rw [DayFromYear_succ] at h
  unfold DayWithinYear YearFromTime
  omega

theorem month_bounds (dwy leap : Int) :
    0 ≤ monthOfDayInYear dwy leap ∧ monthOfDayInYear dwy leap ≤ 11 := by
  unfold monthOfDayInYear
  omega

/-- Building a day number from the calendar fields of `t` gives back the
day of `t`. -/
theorem MakeDay_fields (t : Int) :
    MakeDay (YearFromTime t) (MonthFromTime t) (DateFromTime t) = Day t := by
  have hm : 0 ≤ MonthFromTime t ∧ MonthFromTime t ≤ 11 := month_bounds _ _
  have e1 : MonthFromTime t / 12 = 0 := by omega
  have e2 : MonthFromTime t % 12 = MonthFromTime t := by omega
  unfold MakeDay
  simp only [e1, e2, add_zero]
  unfold DateFromTime
  have : (if isLeapYear (YearFromTime t) = true then (1 : Int) else 0) = InLeapYear t := rfl
  rw [this]
  unfold DayWithinYear
  omega

theorem month_of_daysBefore (m d leap : Int) (hm : 0 ≤ m ∧ m ≤ 11) (hl : leap = 0 ∨ leap = 1)
    (hd : 1 ≤ d)
    (hd2 : d ≤ if m = 1 then 28 + leap else if m = 3 ∨ m = 5 ∨ m = 8 ∨ m = 10 then 30 else 31) :
    monthOfDayInYear (daysBeforeMonth m leap + d - 1) leap = m ∧
    0 ≤ daysBeforeMonth m leap + d - 1 ∧ daysBeforeMonth m leap + d - 1 < 365 + leap := by
  unfold monthOfDayInYear daysBeforeMonth
  omega

theorem daysInMonth_leap (y m : Int) :
    daysInMonth y m = if m = 1 then 28 + (if isLeapYear y = true then 1 else 0)
      else if m = 3 ∨ m = 5 ∨ m = 8 ∨ m = 10 then 30 else 31 := by
  unfold daysInMonth
  cases isLeapYear y <;> simp

/-- The calendar fields of a day built by `MakeDay` from a valid date are
that date. -/
theorem fields_of_MakeDay (y m d t : Int) (hm : 0 ≤ m ∧ m ≤ 11)
    (hd : 1 ≤ d ∧ d ≤ daysInMonth y m) (ht : Day t = MakeDay y m d) :
    YearFromTime t = y ∧ MonthFromTime t = m ∧ DateFromTime t = d := by
  have e1 : m / 12 = 0 := by omega
  have e2 : m % 12 = m := by omega
  unfold MakeDay at ht
  simp only [e1, e2, add_zero] at ht
  rw [daysInMonth_leap] at hd
  have hleap : (if isLeapYear y = true then (1 : Int) else 0) = 0 ∨
      (if isLeapYear y = true then (1 : Int) else 0) = 1 := by
    cases isLeapYear y <;> simp
  have hdy : DaysInYear y = 365 + (if isLeapYear y = true then (1 : Int) else 0) := by
    unfold DaysInYear; cases isLeapYear y <;> simp
  generalize hL : (if isLeapYear y = true then (1 : Int) else 0) = leap at *
  obtain ⟨k1, k2, k3⟩ := month_of_daysBefore m d leap hm hleap hd.1 hd.2
  have hy : YearFromTime t = y := by
    unfold YearFromTime
    apply yearFromDay_unique
    · omega
    · rw [DayFromYear_succ]; omega
  have hl : InLeapYear t = leap := by
    unfold InLeapYear; rw [hy]; exact hL
  have hw : DayWithinYear t = daysBeforeMonth m leap + d - 1 := by
    unfold DayWithinYear; rw [hy, ht]; omega
  have hmo : MonthFromTime t = m := by
    unfold MonthFromTime; rw [hw, hl]; exact k1
  refine ⟨hy, hmo, ?_⟩
  unfold DateFromTime
  rw [hmo, hw, hl]
  omega

theorem time_fields (day H M S : Int) (hH : 0 ≤ H ∧ H ≤ 23) (hM : 0 ≤ M ∧ M ≤ 59)
    (hS : 0 ≤ S ∧ S ≤ 59) :
    Day (MakeDate day (MakeTime H M S 0)) = day ∧
    HourFromTime (MakeDate day (MakeTime H M S 0)) = H ∧
    MinFromTime (MakeDate day (MakeTime H M S 0)) = M ∧
    SecFromTime (MakeDate day (MakeTime H M S 0)) = S := by
  unfold Day HourFromTime MinFromTime SecFromTime MakeDate MakeTime msPerDay msPerHour
    msPerMinute msPerSecond
  refine ⟨?_, ?_, ?_, ?_⟩ <;> omega

/-! ## Lemmas on number formatting -/

theorem toDigitsCore_step (f n : Nat) (ds : List Char) :
    Nat.toDigitsCore 10 (f + 1) n ds =
      if n / 10 = 0 then Nat.digitChar (n % 10) :: ds
      else Nat.toDigitsCore 10 f (n / 10) (Nat.digitChar (n % 10) :: ds) := rfl

theorem toDigits_two (n : Nat) (h : n < 100) :
    List.replicate (2 - (Nat.toDigits 10 n).length) '0' ++ Nat.toDigits 10 n =
      [Nat.digitChar (n / 10), Nat.digitChar (n % 10)] := by
  unfold Nat.toDigits
  by_cases h1 : n / 10 = 0
  · rw [toDigitsCore_step, if_pos h1, h1]; rfl
  · obtain ⟨k, rfl⟩ : ∃ k, n = k + 1 := ⟨n - 1, by omega⟩
    rw [toDigitsCore_step, if_neg h1, toDigitsCore_step, if_pos (by omega)]
    have : (k + 1) / 10 % 10 = (k + 1) / 10 := by omega
    rw [this]; rfl

theorem toDigits_four (n : Nat) (h1 : 1000 ≤ n) (h2 : n < 10000) :
    Nat.toDigits 10 n =
      [Nat.digitChar (n / 1000), Nat.digitChar (n / 100 % 10), Nat.digitChar (n / 10 % 10),
        Nat.digitChar (n % 10)] := by
  unfold Nat.toDigits
  obtain ⟨k, rfl⟩ : ∃ k, n = k + 3 := ⟨n - 3, by omega⟩
  rw [toDigitsCore_step, if_neg (by omega), toDigitsCore_step, if_neg (by omega),
    toDigitsCore_step, if_neg (by omega), toDigitsCore_step, if_pos (by omega)]
  have e1 : (k + 3) / 10 / 10 / 10 % 10 = (k + 3) / 1000 := by omega
  have e2 : (k + 3) / 10 / 10 % 10 = (k + 3) / 100 % 10 := by omega
  rw [e1, e2]

theorem pad_eq (n : Int) (h0 : 0 ≤ n) (h1 : n ≤ 99) : pad (some n) = twoDigits n := by
  simp only [pad, padStart2, numberToString, twoDigits]
  rw [if_neg (by omega)]
  have : n.natAbs = n.toNat := by omega
  rw [this]
  exact toDigits_two _ (by omega)

theorem numberToString_four (n : Int) (h0 : 1000 ≤ n) (h1 : n ≤ 9999) :
    numberToString (some n) = fourDigits n := by
  simp only [numberToString, fourDigits]
  rw [if_neg (by omega)]
  have : n.natAbs = n.toNat := by omega
  rw [this]
  exact toDigits_four _ (by omega) (by omega)

theorem DateFromTime_bounds (t : Int) : 1 ≤ DateFromTime t ∧ DateFromTime t ≤ 31 := by
  have hb := DayWithinYear_bounds t
  have hl : InLeapYear t = 0 ∨ InLeapYear t = 1 := by
    unfold InLeapYear; cases isLeapYear (YearFromTime t) <;> simp
  have hd : DaysInYear (YearFromTime t) = 365 + InLeapYear t := by
    unfold DaysInYear InLeapYear; cases isLeapYear (YearFromTime t) <;> simp
  unfold DateFromTime MonthFromTime
  generalize DayWithinYear t = dwy at *
  generalize InLeapYear t = leap at *
  unfold monthOfDayInYear daysBeforeMonth
  omega

theorem toRFC3339NoMillis_valid (t : Int) (h0 : 1000 ≤ YearFromTime t)
    (h1 : YearFromTime t ≤ 9999) :
    toRFC3339NoMillis ⟨some t⟩ =
      fourDigits (YearFromTime t) ++ '-' :: twoDigits (MonthFromTime t + 1) ++
      '-' :: twoDigits (DateFromTime t) ++ 'T' :: twoDigits (HourFromTime t) ++
      ':' :: twoDigits (MinFromTime t) ++ ':' :: twoDigits (SecFromTime t) ++ ['Z'] := by
  have hm := month_bounds (DayWithinYear t) (InLeapYear t)
  have hd := DateFromTime_bounds t
  have hH : 0 ≤ HourFromTime t ∧ HourFromTime t ≤ 23 := by unfold HourFromTime; omega
  have hM : 0 ≤ MinFromTime t ∧ MinFromTime t ≤ 59 := by unfold MinFromTime; omega
  have hS : 0 ≤ SecFromTime t ∧ SecFromTime t ≤ 59 := by unfold SecFromTime; omega
  have hm2 : 0 ≤ MonthFromTime t ∧ MonthFromTime t ≤ 11 := hm
  simp only [toRFC3339NoMillis, getUTCFullYear, getUTCMonth, getUTCDate, getUTCHours,
    getUTCMinutes, getUTCSeconds, Option.map_some']
  rw [numberToString_four _ h0 h1, pad_eq _ (by omega) (by omega), pad_eq _ (by omega) (by omega),
    pad_eq _ hH.1 (by omega), pad_eq _ hM.1 (by omega), pad_eq _ hS.1 (by omega)]
  simp [twoDigits, fourDigits]

/-! ## Claims on `parseICS` raising and on UTC tokens -/

/-- A string that starts with five digits is outside the Date Time String
Format, so `Date.parse` gives `NaN` for it. -/
theorem dateParse_five_digits (tza : Int) (c0 c1 c2 c3 c4 : Char) (rest : Str)
    (h0 : isDigit c0 = true) (h1 : isDigit c1 = true) (h2 : isDigit c2 = true)
    (h3 : isDigit c3 = true) (h4 : isDigit c4 = true) :
    dateParse tza (c0 :: c1 :: c2 :: c3 :: c4 :: rest) = none := by
  have n0 : c0 ≠ '+' ∧ c0 ≠ '-' := by
    constructor <;> rintro rfl <;> revert h0 <;> decide
  have n4 : c4 ≠ '-' ∧ c4 ≠ 'T' := by
    constructor <;> rintro rfl <;> revert h4 <;> decide
  simp [dateParse, parseYear, takeDigits, optField, n0, n4, h0, h1, h2, h3, daysInMonth]

/-- Every value that matches `/^\d{8}T\d{6}Z$/` makes `new Date(v)` an
Invalid Date. -/
theorem newDateString_of_matchesUTC (tza : Int) (v : Str) (h : matchesUTC v = true) :
    newDateString tza v = ⟨none⟩ := by
  unfold matchesUTC at h
  simp only [Bool.and_eq_true, decide_eq_true_eq] at h
  obtain ⟨⟨⟨⟨hl, hd⟩, -⟩, -⟩, -⟩ := h
  rcases v with _ | ⟨c0, _ | ⟨c1, _ | ⟨c2, _ | ⟨c3, _ | ⟨c4, _ | ⟨c5, _ | ⟨c6, _ | ⟨c7, rest⟩⟩⟩⟩⟩⟩⟩⟩ <;>
    simp at hl
  simp [slice] at hd
  unfold newDateString
  rw [dateParse_five_digits tza c0 c1 c2 c3 c4 _ hd.1 hd.2.1 hd.2.2.1 hd.2.2.2.1 hd.2.2.2.2.1]

/-- Claim C1: a feed whose only block has a timed `DTSTART` but no `SUMMARY`
and no `RRULE` makes `parseICS` raise a `TypeError`, for every zone offset
and every clock reading: the filter callback reads `ev.summary.startsWith`
on `null`. -/
theorem parseICS_raises_without_summary (tza now : Int) :
    parseICS tza now "BEGIN:VEVENT\nDTSTART:20250310T090000\nEND:VEVENT".toList =
      .error "TypeError: Cannot read properties of null (reading startsWith)".toList := rfl

/-- Claim C2: the date that `parseICS` builds for `DTSTART:20250310T090000Z`
is an Invalid Date for every zone offset, and `toRFC3339NoMillis` renders it
as `NaN-NaN-NaNTNaN:NaN:NaNZ`, not as `2025-03-10T09:00:00Z`. -/
theorem utc_token_gives_invalid_date (tza : Int) :
    (scanEvents tza "BEGIN:VEVENT\nSUMMARY:Sync\nDTSTART:20250310T090000Z\nEND:VEVENT".toList).map
        (fun ev => ev.date.map toRFC3339NoMillis) =
      [some "NaN-NaN-NaNTNaN:NaN:NaNZ".toList] := rfl

/-! ## Claims on the formatter and on the filter -/

/-- Claim C4, as stated, fails: the valid instant 10000-01-01T00:00:00 UTC is
rendered with a five-digit year, 21 characters long. -/
theorem toRFC3339NoMillis_year_10000 :
    toRFC3339NoMillis ⟨some 253402300800000⟩ = "10000-01-01T00:00:00Z".toList ∧
    (toRFC3339NoMillis ⟨some 253402300800000⟩).length = 21 := by
  constructor <;> decide

/-- Claim C4, amended: for every instant whose UTC year has four digits
(1000 to 9999), `toRFC3339NoMillis` returns the year in four digits, then
month, day, hour, minute and second of the UTC fields in two zero-padded
digits each, separated as `YYYY-MM-DDThh:mm:ssZ`, 20 characters long. -/
theorem toRFC3339NoMillis_shape (t : Int) (h0 : 1000 ≤ YearFromTime t)
    (h1 : YearFromTime t ≤ 9999) :
    toRFC3339NoMillis ⟨some t⟩ =
      fourDigits (YearFromTime t) ++ '-' :: twoDigits (MonthFromTime t + 1) ++
      '-' :: twoDigits (DateFromTime t) ++ 'T' :: twoDigits (HourFromTime t) ++
      ':' :: twoDigits (MinFromTime t) ++ ':' :: twoDigits (SecFromTime t) ++ ['Z'] ∧
    (toRFC3339NoMillis ⟨some t⟩).length = 20 := by
  have h := toRFC3339NoMillis_valid t h0 h1
  refine ⟨h, ?_⟩
  rw [h]
  simp [twoDigits, fourDigits]

theorem toRFC3339NoMillis_shape_witness :
    toRFC3339NoMillis ⟨some 1741597200000⟩ = "2025-03-10T09:00:00Z".toList ∧
    (toRFC3339NoMillis ⟨some 1741597200000⟩).length = 20 :=
  toRFC3339NoMillis_shape 1741597200000 (by decide) (by decide)

/-- The filter callback keeps every event with a non-empty `rrule`. -/
theorem filterEvent_of_rrule (now today : JSDate) (ev : Event) (h : truthyStr ev.rrule = true) :
    filterEvent now today ev = .ok true := by
  unfold filterEvent
  rw [if_pos h]

/-- Claim C7, as stated, fails: an event at 09:00:00.000 is dropped when the
clock reads 09:00:00.500 of the same second. -/
theorem filterEvent_same_second_dropped :
    filterEvent ⟨some 1741597200500⟩ (todayOf 0 1741597200500)
        ⟨some "Sync".toList, some ⟨some 1741597200000⟩, none, false, none, none⟩ = .ok false ∧
    (1741597200000 : Int) / 1000 = 1741597200500 / 1000 :=
  ⟨rfl, by decide⟩

/-- Claim C7, amended: for an event with a summary, no recurrence token and
a timed date, the filter keeps the event exactly when the date is valid and
its time value in milliseconds is not below that of `now`. -/
theorem filterEvent_timed (now : Int) (today d : JSDate) (ev : Event)
    (hs : ev.summary ≠ none) (hr : truthyStr ev.rrule = false) (hd : ev.date = some d)
    (ha : ev.isAllDay = false) :
    filterEvent ⟨some now⟩ today ev =
      .ok (match d.time with
           | some t => decide (now ≤ t)
           | none => false) := by
  unfold filterEvent
  rw [hr, hd, ha]
  cases hsum : ev.summary with
  | none => exact absurd hsum hs
  | some s =>
    simp only [dateGE]
    cases d.time <;> simp

theorem filterEvent_timed_witness :
    filterEvent ⟨some 1741597200000⟩ (todayOf 0 1741597200000)
        ⟨some "Sync".toList, some ⟨some 1741597200000⟩, none, false, none, none⟩ =
      .ok (decide ((1741597200000 : Int) ≤ 1741597200000)) :=
  filterEvent_timed 1741597200000 (todayOf 0 1741597200000) ⟨some 1741597200000⟩
    ⟨some "Sync".toList, some ⟨some 1741597200000⟩, none, false, none, none⟩
    (by decide) (by decide) rfl rfl

/-- Claim C9: in a feed that holds a recurring block and, after it, a block
with a timed `DTSTART` and no `SUMMARY`, `parseICS` raises a `TypeError` for
every clock reading, so the recurring block is in no result. -/
theorem parseICS_recurring_block_lost (tza now : Int) :
    parseICS tza now
        ("BEGIN:VEVENT\nSUMMARY:Standup\nDTSTART:20200101T090000\nRRULE:FREQ=DAILY\nEND:VEVENT\n" ++
          "BEGIN:VEVENT\nDTSTART:20250310T090000\nEND:VEVENT").toList =
      .error "TypeError: Cannot read properties of null (reading startsWith)".toList := rfl

/-- Claim C10, as stated, fails: a block with `RRULE:FREQ=HOURLY` and an
all-day date long before today gets no recurrence unit and is kept. -/
theorem parseICS_keeps_unrecognized_freq :
    parseICS 0 1741597200000
        "BEGIN:VEVENT\nSUMMARY:Old\nDTSTART:20200101\nRRULE:FREQ=HOURLY\nEND:VEVENT".toList =
      .ok [⟨some "Old".toList, some ⟨some 1577836800000⟩, some "FREQ=HOURLY".toList, true,
        none, none⟩] := rfl

/-- Claim C10, amended: an event whose recurrence token yields no rule
(missing or unrecognised `FREQ`) keeps `recurrenceInterval` and
`recurrenceUnit` unset; with an all-day date before today, or a timed
instant before now and a summary, the filter keeps it exactly when the
token is a non-empty string, and drops it only when the token is absent or
empty. -/
theorem filterEvent_without_rule (now today d : JSDate) (ev : Event)
    (hrule : ∀ r, ev.rrule = some r → ruleOf r = none) (hd : ev.date = some d)
    (hpast : if ev.isAllDay = true then dateLT d today = true
      else dateLT d now = true ∧ ev.summary ≠ none) :
    mapEvent ev = ev ∧ filterEvent now today ev = .ok (truthyStr ev.rrule) := by
  constructor
  · unfold mapEvent
    cases hr : ev.rrule with
    | none => rfl
    | some r => simp [hrule r hr]
  · by_cases hr : truthyStr ev.rrule = true
    · rw [filterEvent_of_rrule now today ev hr, hr]
    · have hr2 : truthyStr ev.rrule = false := by simpa using hr
      have key : ∀ a b : JSDate, dateLT a b = true → dateGE a b = false := by
        intro a b
        unfold dateLT dateGE
        cases a.time <;> cases b.time <;> simp
      unfold filterEvent
      rw [hr2, hd]
      cases ha : ev.isAllDay with
      | true =>
        rw [ha] at hpast
        simp only [if_true] at hpast
        simp [key d today hpast]
      | false =>
        rw [ha] at hpast
        obtain ⟨hp, hs⟩ : dateLT d now = true ∧ ev.summary ≠ none := by simpa using hpast
        cases hsum : ev.summary with
        | none => exact absurd hsum hs
        | some s => simp [key d now hp]

theorem filterEvent_without_rule_witness :
    mapEvent ⟨some "Old".toList, some ⟨some 1577836800000⟩, some "FREQ=HOURLY".toList, true,
        none, none⟩ =
      ⟨some "Old".toList, some ⟨some 1577836800000⟩, some "FREQ=HOURLY".toList, true,
        none, none⟩ ∧
    filterEvent ⟨some 1741597200000⟩ (todayOf 0 1741597200000)
        ⟨some "Old".toList, some ⟨some 1577836800000⟩, some "FREQ=HOURLY".toList, true,
          none, none⟩ = .ok true :=
  filterEvent_without_rule ⟨some 1741597200000⟩ (todayOf 0 1741597200000)
    ⟨some 1577836800000⟩
    ⟨some "Old".toList, some ⟨some 1577836800000⟩, some "FREQ=HOURLY".toList, true, none, none⟩
    (by intro r hr; cases hr; decide) rfl (by decide)

/-! ## Lemmas on the `Date` constructor and on `DTSTART` values -/

theorem MakeDay_valid (y m d : Int) (hm : 0 ≤ m ∧ m ≤ 11) :
    MakeDay y m d =
      DayFromYear y + daysBeforeMonth m (if isLeapYear y = true then 1 else 0) + d - 1 := by
  have e1 : m / 12 = 0 := by omega
  have e2 : m % 12 = m := by omega
  unfold MakeDay
  simp only [e1, e2, add_zero]

theorem daysBeforeMonth_bounds (m leap : Int) (hl : leap = 0 ∨ leap = 1) :
    0 ≤ daysBeforeMonth m leap ∧ daysBeforeMonth m leap ≤ 335 := by
  unfold daysBeforeMonth
  omega

theorem daysInMonth_le (y m : Int) : daysInMonth y m ≤ 31 := by
  rw [daysInMonth_leap]
  cases isLeapYear y <;> simp <;> omega

/-- The constructor `new Date(y, m - 1, d, H, M, S)` on a valid date and
time with a year from 100 to 9999: the result is a valid `Date` whose local
fields are the arguments. -/
theorem newDateFields_local (tza y m d H M S : Int)
    (htz : -86400000 < tza ∧ tza < 86400000) (hy : 100 ≤ y ∧ y ≤ 9999)
    (hd : validDate y m d) (ht : validTime H M S) :
    ∃ t, newDateFields tza y (m - 1) d H M S = ⟨some t⟩ ∧
      t = MakeDate (MakeDay y (m - 1) d) (MakeTime H M S 0) - tza ∧
      YearFromTime (LocalTime tza t) = y ∧ MonthFromTime (LocalTime tza t) = m - 1 ∧
      DateFromTime (LocalTime tza t) = d ∧ HourFromTime (LocalTime tza t) = H ∧
      MinFromTime (LocalTime tza t) = M ∧ SecFromTime (LocalTime tza t) = S ∧
      TimeWithinDay (LocalTime tza t) = MakeTime H M S 0 := by
  obtain ⟨hm1, hm2, hd1, hd2⟩ := hd
  obtain ⟨hH1, hH2, hM1, hM2, hS1, hS2⟩ := ht
  have hm : 0 ≤ m - 1 ∧ m - 1 ≤ 11 := by omega
  refine ⟨MakeDate (MakeDay y (m - 1) d) (MakeTime H M S 0) - tza, ?_, rfl, ?_⟩
  · unfold newDateFields
    rw [if_neg (by omega)]
    simp only [UTC]
    have hb := DayFromYear_bounds y
    have hl : (if isLeapYear y = true then (1 : Int) else 0) = 0 ∨
        (if isLeapYear y = true then (1 : Int) else 0) = 1 := by
      cases isLeapYear y <;> simp
    have hdb := daysBeforeMonth_bounds (m - 1) _ hl
    have hdm := daysInMonth_le y (m - 1)
    rw [MakeDay_valid y (m - 1) d hm]
    generalize daysBeforeMonth (m - 1) (if isLeapYear y = true then 1 else 0) = dbm at *
    generalize DayFromYear y = dfy at *
    unfold TimeClip MakeDate MakeTime msPerDay msPerHour msPerMinute msPerSecond
    rw [if_neg (by omega)]
  · have hloc : LocalTime tza (MakeDate (MakeDay y (m - 1) d) (MakeTime H M S 0) - tza) =
        MakeDate (MakeDay y (m - 1) d) (MakeTime H M S 0) := by
      unfold LocalTime; omega
    rw [hloc]
    obtain ⟨k1, k2, k3, k4⟩ := time_fields (MakeDay y (m - 1) d) H M S ⟨hH1, hH2⟩ ⟨hM1, hM2⟩
      ⟨hS1, hS2⟩
    obtain ⟨f1, f2, f3⟩ := fields_of_MakeDay y (m - 1) d _ hm ⟨hd1, hd2⟩ k1
    refine ⟨f1, f2, f3, k2, k3, k4, ?_⟩
    unfold TimeWithinDay MakeDate MakeTime msPerDay msPerHour msPerMinute msPerSecond
    omega

theorem isDigit_facts (c : Char) (h : isDigit c = true) :
    c ≠ ':' ∧ c ≠ 'T' ∧ isTrimChar c = false ∧ 0 ≤ digitVal c ∧ digitVal c ≤ 9 := by
  unfold isDigit at h
  simp only [Bool.and_eq_true, decide_eq_true_eq] at h
  refine ⟨?_, ?_, ?_, ?_, ?_⟩
  · rintro rfl; revert h; decide
  · rintro rfl; revert h; decide
  · unfold isTrimChar
    simp only [Bool.or_eq_false_iff, Bool.and_eq_false_iff, decide_eq_false_iff_not]
    omega
  · unfold digitVal; omega
  · unfold digitVal; omega

theorem matchesDateOnly_cases (v : Str) (h : matchesDateOnly v = true) :
    ∃ c0 c1 c2 c3 c4 c5 c6 c7, v = [c0, c1, c2, c3, c4, c5, c6, c7] ∧
      isDigit c0 = true ∧ isDigit c1 = true ∧ isDigit c2 = true ∧ isDigit c3 = true ∧
      isDigit c4 = true ∧ isDigit c5 = true ∧ isDigit c6 = true ∧ isDigit c7 = true := by
  unfold matchesDateOnly at h
  simp only [Bool.and_eq_true, decide_eq_true_eq] at h
  obtain ⟨hl, hd⟩ := h
  rcases v with _ | ⟨c0, _ | ⟨c1, _ | ⟨c2, _ | ⟨c3, _ | ⟨c4, _ | ⟨c5, _ | ⟨c6, _ | ⟨c7, _ | ⟨c8, r⟩⟩⟩⟩⟩⟩⟩⟩⟩ <;>
    simp at hl
  simp at hd
  exact ⟨c0, c1, c2, c3, c4, c5, c6, c7, rfl, hd⟩


theorem numberOfDigits_two (a b : Char) :
    numberOfDigits [a, b] = 10 * digitVal a + digitVal b := by
  simp [numberOfDigits]

theorem numberOfDigits_four (a b c d : Char) :
    numberOfDigits [a, b, c, d] =
      1000 * digitVal a + 100 * digitVal b + 10 * digitVal c + digitVal d := by
  simp [numberOfDigits]; ring

/-- The `DTSTART` branch on the line `DTSTART:` followed by eight digits:
the value reaches the date-only branch unchanged. -/
theorem scanDtstart_dateOnly (tza : Int) (cur : Event) (c0 c1 c2 c3 c4 c5 c6 c7 : Char)
    (h0 : isDigit c0 = true) (h1 : isDigit c1 = true) (h2 : isDigit c2 = true)
    (h3 : isDigit c3 = true) (h4 : isDigit c4 = true) (h5 : isDigit c5 = true)
    (h6 : isDigit c6 = true) (h7 : isDigit c7 = true) :
    scanDtstart tza cur ("DTSTART:".toList ++ [c0, c1, c2, c3, c4, c5, c6, c7]) =
      ⟨cur.summary,
        some (newDateFields tza (numberOfDigits [c0, c1, c2, c3]) (numberOfDigits [c4, c5] - 1)
          (numberOfDigits [c6, c7]) 0 0 0),
        cur.rrule, true, cur.recurrenceInterval, cur.recurrenceUnit⟩ := by
  obtain ⟨a0, -, t0, -, -⟩ := isDigit_facts c0 h0
  obtain ⟨a1, -, t1, -, -⟩ := isDigit_facts c1 h1
  obtain ⟨a2, -, t2, -, -⟩ := isDigit_facts c2 h2
  obtain ⟨a3, -, t3, -, -⟩ := isDigit_facts c3 h3
  obtain ⟨a4, -, t4, -, -⟩ := isDigit_facts c4 h4
  obtain ⟨a5, -, t5, -, -⟩ := isDigit_facts c5 h5
  obtain ⟨a6, -, t6, -, -⟩ := isDigit_facts c6 h6
  obtain ⟨a7, -, t7, -, -⟩ := isDigit_facts c7 h7
  have hs : splitOn ':' ("DTSTART:".toList ++ [c0, c1, c2, c3, c4, c5, c6, c7]) =
      ["DTSTART".toList, [c0, c1, c2, c3, c4, c5, c6, c7]] := by
    simp [splitOn, consHead, a0, a1, a2, a3, a4, a5, a6, a7]
  have ht : trim [c0, c1, c2, c3, c4, c5, c6, c7] = [c0, c1, c2, c3, c4, c5, c6, c7] := by
    simp [trim, List.dropWhile, t0, t7]
  have hc : classifyValue tza [c0, c1, c2, c3, c4, c5, c6, c7] =
      (some (newDateFields tza (numberOfDigits [c0, c1, c2, c3]) (numberOfDigits [c4, c5] - 1)
          (numberOfDigits [c6, c7]) 0 0 0), some true) := by
    simp [classifyValue, matchesUTC, matchesFloating, matchesDateOnly, slice, h0, h1, h2, h3,
      h4, h5, h6, h7]
  unfold scanDtstart
  rw [hs]
  simp only [List.get?, ht, hc]
  simp

/-! ## Claims on all-day and floating tokens -/

/-- Claim C5, as stated, fails: the token `00500101` names 1 January of the
year 50, and its event is dated 1 January 1950. -/
theorem allDay_year_50_becomes_1950 :
    scanDtstart 0 Event.fresh "DTSTART:00500101".toList =
      ⟨none, some ⟨some (-631152000000)⟩, none, true, none, none⟩ ∧
    getFullYear 0 ⟨some (-631152000000)⟩ = some 1950 := by
  constructor <;> decide

/-- Claim C5, amended: for every 8-digit token that names a valid calendar
date with a year from 0100 to 9999, a `DTSTART` line with that value sets
the all-day flag and a valid date whose local year, month and day are those
of the token, at local midnight. -/
theorem dtstart_allDay (tza : Int) (cur : Event) (v : Str)
    (htz : -86400000 < tza ∧ tza < 86400000) (hv : matchesDateOnly v = true)
    (hy : 100 ≤ numberOfDigits (slice v 0 4))
    (hd : validDate (numberOfDigits (slice v 0 4)) (numberOfDigits (slice v 4 6))
      (numberOfDigits (slice v 6 8))) :
    ∃ t, scanDtstart tza cur ("DTSTART:".toList ++ v) =
        ⟨cur.summary, some ⟨some t⟩, cur.rrule, true, cur.recurrenceInterval,
          cur.recurrenceUnit⟩ ∧
      getFullYear tza ⟨some t⟩ = some (numberOfDigits (slice v 0 4)) ∧
      getMonth tza ⟨some t⟩ = some (numberOfDigits (slice v 4 6) - 1) ∧
      getDate tza ⟨some t⟩ = some (numberOfDigits (slice v 6 8)) ∧
      TimeWithinDay (LocalTime tza t) = 0 := by
  obtain ⟨c0, c1, c2, c3, c4, c5, c6, c7, rfl, h0, h1, h2, h3, h4, h5, h6, h7⟩ :=
    matchesDateOnly_cases v hv
  have s1 : slice [c0, c1, c2, c3, c4, c5, c6, c7] 0 4 = [c0, c1, c2, c3] := by simp [slice]
  have s2 : slice [c0, c1, c2, c3, c4, c5, c6, c7] 4 6 = [c4, c5] := by simp [slice]
  have s3 : slice [c0, c1, c2, c3, c4, c5, c6, c7] 6 8 = [c6, c7] := by simp [slice]
  simp only [s1, s2, s3] at hy hd ⊢
  have hy2 : numberOfDigits [c0, c1, c2, c3] ≤ 9999 := by
    rw [numberOfDigits_four]
    have := isDigit_facts c0 h0
    have := isDigit_facts c1 h1
    have := isDigit_facts c2 h2
    have := isDigit_facts c3 h3
    omega
  obtain ⟨t, e1, -, f1, f2, f3, -, -, -, f7⟩ :=
    newDateFields_local tza _ _ _ 0 0 0 htz ⟨hy, hy2⟩ hd (by unfold validTime; omega)
  refine ⟨t, ?_, ?_, ?_, ?_, ?_⟩
  · rw [scanDtstart_dateOnly tza cur c0 c1 c2 c3 c4 c5 c6 c7 h0 h1 h2 h3 h4 h5 h6 h7, e1]
  · simp [getFullYear, f1]
  · simp [getMonth, f2]
  · simp [getDate, f3]
  · rw [f7]; rfl

theorem dtstart_allDay_witness :
    ∃ t, scanDtstart 3600000 Event.fresh ("DTSTART:".toList ++ "20250310".toList) =
        ⟨none, some ⟨some t⟩, none, true, none, none⟩ ∧
      getFullYear 3600000 ⟨some t⟩ = some (numberOfDigits (slice "20250310".toList 0 4)) ∧
      getMonth 3600000 ⟨some t⟩ = some (numberOfDigits (slice "20250310".toList 4 6) - 1) ∧
      getDate 3600000 ⟨some t⟩ = some (numberOfDigits (slice "20250310".toList 6 8)) ∧
      TimeWithinDay (LocalTime 3600000 t) = 0 :=
  dtstart_allDay 3600000 Event.fresh "20250310".toList (by decide) (by decide) (by decide)
    (by unfold validDate; decide)

theorem matchesFloating_cases (v : Str) (h : matchesFloating v = true) :
    ∃ c0 c1 c2 c3 c4 c5 c6 c7 c9 c10 c11 c12 c13 c14,
      v = [c0, c1, c2, c3, c4, c5, c6, c7, 'T', c9, c10, c11, c12, c13, c14] ∧
      (isDigit c0 = true ∧ isDigit c1 = true ∧ isDigit c2 = true ∧ isDigit c3 = true ∧
        isDigit c4 = true ∧ isDigit c5 = true ∧ isDigit c6 = true ∧ isDigit c7 = true) ∧
      (isDigit c9 = true ∧ isDigit c10 = true ∧ isDigit c11 = true ∧ isDigit c12 = true ∧
        isDigit c13 = true ∧ isDigit c14 = true) := by
  unfold matchesFloating at h
  simp only [Bool.and_eq_true, decide_eq_true_eq] at h
  obtain ⟨⟨⟨hl, hd⟩, hT⟩, hd2⟩ := h
  rcases v with _ | ⟨c0, _ | ⟨c1, _ | ⟨c2, _ | ⟨c3, _ | ⟨c4, _ | ⟨c5, _ | ⟨c6, _ | ⟨c7,
    _ | ⟨c8, _ | ⟨c9, _ | ⟨c10, _ | ⟨c11, _ | ⟨c12, _ | ⟨c13, _ | ⟨c14, _ | ⟨c15, r⟩⟩⟩⟩⟩⟩⟩⟩⟩⟩⟩⟩⟩⟩⟩⟩ <;>
    simp at hl
  simp [slice] at hd hT hd2
  subst hT
  exact ⟨c0, c1, c2, c3, c4, c5, c6, c7, c9, c10, c11, c12, c13, c14, rfl, hd, hd2⟩

/-- The `DTSTART` branch on the line `DTSTART:` followed by a floating
token: the value reaches the floating branch unchanged, and hour, minute and
second are the characters at offsets 9-11, 11-13 and 13-15. -/
theorem scanDtstart_floating (tza : Int) (cur : Event)
    (c0 c1 c2 c3 c4 c5 c6 c7 c9 c10 c11 c12 c13 c14 : Char)
    (hd : isDigit c0 = true ∧ isDigit c1 = true ∧ isDigit c2 = true ∧ isDigit c3 = true ∧
        isDigit c4 = true ∧ isDigit c5 = true ∧ isDigit c6 = true ∧ isDigit c7 = true)
    (ht : isDigit c9 = true ∧ isDigit c10 = true ∧ isDigit c11 = true ∧ isDigit c12 = true ∧
        isDigit c13 = true ∧ isDigit c14 = true) :
    scanDtstart tza cur
        ("DTSTART:".toList ++ [c0, c1, c2, c3, c4, c5, c6, c7, 'T', c9, c10, c11, c12, c13, c14]) =
      ⟨cur.summary,
        some (newDateFields tza (numberOfDigits [c0, c1, c2, c3]) (numberOfDigits [c4, c5] - 1)
          (numberOfDigits [c6, c7]) (numberOfDigits [c9, c10]) (numberOfDigits [c11, c12])
          (numberOfDigits [c13, c14])),
        cur.rrule, false, cur.recurrenceInterval, cur.recurrenceUnit⟩ := by
  obtain ⟨h0, h1, h2, h3, h4, h5, h6, h7⟩ := hd
  obtain ⟨h9, h10, h11, h12, h13, h14⟩ := ht
  obtain ⟨a0, -, t0, -, -⟩ := isDigit_facts c0 h0
  obtain ⟨a1, -, -, -, -⟩ := isDigit_facts c1 h1
  obtain ⟨a2, -, -, -, -⟩ := isDigit_facts c2 h2
  obtain ⟨a3, -, -, -, -⟩ := isDigit_facts c3 h3
  obtain ⟨a4, -, -, -, -⟩ := isDigit_facts c4 h4
  obtain ⟨a5, -, -, -, -⟩ := isDigit_facts c5 h5
  obtain ⟨a6, -, -, -, -⟩ := isDigit_facts c6 h6
  obtain ⟨a7, -, -, -, -⟩ := isDigit_facts c7 h7
  obtain ⟨a9, -, -, -, -⟩ := isDigit_facts c9 h9
  obtain ⟨a10, -, -, -, -⟩ := isDigit_facts c10 h10
  obtain ⟨a11, -, -, -, -⟩ := isDigit_facts c11 h11
  obtain ⟨a12, -, -, -, -⟩ := isDigit_facts c12 h12
  obtain ⟨a13, -, -, -, -⟩ := isDigit_facts c13 h13
  obtain ⟨a14, -, t14, -, -⟩ := isDigit_facts c14 h14
  have hs : splitOn ':'
      ("DTSTART:".toList ++ [c0, c1, c2, c3, c4, c5, c6, c7, 'T', c9, c10, c11, c12, c13, c14]) =
      ["DTSTART".toList, [c0, c1, c2, c3, c4, c5, c6, c7, 'T', c9, c10, c11, c12, c13, c14]] := by
    simp [splitOn, consHead, a0, a1, a2, a3, a4, a5, a6, a7, a9, a10, a11, a12, a13, a14]
  have htr : trim [c0, c1, c2, c3, c4, c5, c6, c7, 'T', c9, c10, c11, c12, c13, c14] =
      [c0, c1, c2, c3, c4, c5, c6, c7, 'T', c9, c10, c11, c12, c13, c14] := by
    simp [trim, List.dropWhile, t0, t14]
  have hc : classifyValue tza [c0, c1, c2, c3, c4, c5, c6, c7, 'T', c9, c10, c11, c12, c13, c14] =
      (some (newDateFields tza (numberOfDigits [c0, c1, c2, c3]) (numberOfDigits [c4, c5] - 1)
          (numberOfDigits [c6, c7]) (numberOfDigits [c9, c10]) (numberOfDigits [c11, c12])
          (numberOfDigits [c13, c14])), some false) := by
    simp [classifyValue, matchesUTC, matchesFloating, slice, h0, h1, h2, h3,
      h4, h5, h6, h7, h9, h10, h11, h12, h13, h14]
  unfold scanDtstart
  rw [hs]
  simp only [List.get?, htr, hc]
  simp

/-- Claim C6, as stated, fails: the token `00500101T000000` names midnight
of 1 January of the year 50, and its event is dated 1 January 1950. -/
theorem floating_year_50_becomes_1950 :
    scanDtstart 0 Event.fresh "DTSTART:00500101T000000".toList =
      ⟨none, some ⟨some (-631152000000)⟩, none, false, none, none⟩ ∧
    getFullYear 0 ⟨some (-631152000000)⟩ = some 1950 := by
  constructor <;> decide

/-- Claim C6, amended: for every token `YYYYMMDDThhmmss` that names a valid
date and time with a year from 0100 to 9999, a `DTSTART` line with that
value clears the all-day flag and sets a valid date whose local year, month,
day, hour, minute and second are the token's digits, hour, minute and
second being the characters at offsets 9-11, 11-13 and 13-15. -/
theorem dtstart_floating (tza : Int) (cur : Event) (v : Str)
    (htz : -86400000 < tza ∧ tza < 86400000) (hv : matchesFloating v = true)
    (hy : 100 ≤ numberOfDigits (slice v 0 4))
    (hd : validDate (numberOfDigits (slice v 0 4)) (numberOfDigits (slice v 4 6))
      (numberOfDigits (slice v 6 8)))
    (ht : validTime (numberOfDigits (slice v 9 11)) (numberOfDigits (slice v 11 13))
      (numberOfDigits (slice v 13 15))) :
    ∃ t, scanDtstart tza cur ("DTSTART:".toList ++ v) =
        ⟨cur.summary, some ⟨some t⟩, cur.rrule, false, cur.recurrenceInterval,
          cur.recurrenceUnit⟩ ∧
      getFullYear tza ⟨some t⟩ = some (numberOfDigits (slice v 0 4)) ∧
      getMonth tza ⟨some t⟩ = some (numberOfDigits (slice v 4 6) - 1) ∧
      getDate tza ⟨some t⟩ = some (numberOfDigits (slice v 6 8)) ∧
      getHours tza ⟨some t⟩ = some (numberOfDigits (slice v 9 11)) ∧
      getMinutes tza ⟨some t⟩ = some (numberOfDigits (slice v 11 13)) ∧
      getSeconds tza ⟨some t⟩ = some (numberOfDigits (slice v 13 15)) := by
  obtain ⟨c0, c1, c2, c3, c4, c5, c6, c7, c9, c10, c11, c12, c13, c14, rfl, hdg, htg⟩ :=
    matchesFloating_cases v hv
  simp only [slice, List.drop, List.take, Nat.sub_zero, Nat.reduceSub] at hy hd ht ⊢
  have hy2 : numberOfDigits [c0, c1, c2, c3] ≤ 9999 := by
    rw [numberOfDigits_four]
    have := isDigit_facts c0 hdg.1
    have := isDigit_facts c1 hdg.2.1
    have := isDigit_facts c2 hdg.2.2.1
    have := isDigit_facts c3 hdg.2.2.2.1
    omega
  obtain ⟨t, e1, -, f1, f2, f3, f4, f5, f6, -⟩ :=
    newDateFields_local tza _ _ _ _ _ _ htz ⟨hy, hy2⟩ hd ht
  refine ⟨t, ?_, ?_, ?_, ?_, ?_, ?_, ?_⟩
  · rw [scanDtstart_floating tza cur c0 c1 c2 c3 c4 c5 c6 c7 c9 c10 c11 c12 c13 c14 hdg htg, e1]
  · simp [getFullYear, f1]
  · simp [getMonth, f2]
  · simp [getDate, f3]
  · simp [getHours, f4]
  · simp [getMinutes, f5]
  · simp [getSeconds, f6]

theorem dtstart_floating_witness :
    ∃ t, scanDtstart (-18000000) Event.fresh ("DTSTART:".toList ++ "20250310T090000".toList) =
        ⟨none, some ⟨some t⟩, none, false, none, none⟩ ∧
      getFullYear (-18000000) ⟨some t⟩ = some (numberOfDigits (slice "20250310T090000".toList 0 4)) ∧
      getMonth (-18000000) ⟨some t⟩ =
        some (numberOfDigits (slice "20250310T090000".toList 4 6) - 1) ∧
      getDate (-18000000) ⟨some t⟩ = some (numberOfDigits (slice "20250310T090000".toList 6 8)) ∧
      getHours (-18000000) ⟨some t⟩ = some (numberOfDigits (slice "20250310T090000".toList 9 11)) ∧
      getMinutes (-18000000) ⟨some t⟩ =
        some (numberOfDigits (slice "20250310T090000".toList 11 13)) ∧
      getSeconds (-18000000) ⟨some t⟩ =
        some (numberOfDigits (slice "20250310T090000".toList 13 15)) :=
  dtstart_floating (-18000000) Event.fresh "20250310T090000".toList (by decide) (by decide)
    (by decide) (by unfold validDate; decide) (by unfold validTime; decide)

/-! ## Claims on the emitted due date and on all-day filtering -/

/-- Claim C3, as stated, fails: with the local zone at UTC-5 the floating
token `20250310T090000` is emitted as `2025-03-10T14:00:00Z`, five hours off
the token's digits. -/
theorem dueDate_shifted_by_offset :
    (match parseICS (-18000000) 1735689600000
        "BEGIN:VEVENT\nSUMMARY:Sync\nDTSTART:20250310T090000\nEND:VEVENT".toList with
      | .ok evs => evs.map (dueDate 0 1735689600000)
      | .error _ => []) = [some (some "2025-03-10T14:00:00Z".toList)] := by
  decide

/-- Claim C3, amended: for a block without recurrence whose `DTSTART` is a
floating or an all-day token naming a valid date and time with a year from
0100 to 9999, the emitted `due_date` is the formatter's UTC rendering of the
instant whose local date and time are the token's digits (00:00:00 for
all-day): the token's date and time minus the local UTC offset. -/
theorem dueDate_of_local_token (tza : Int) (fuel : Nat) (nowUTC : Int) (cur : Event) (v : Str)
    (htz : -86400000 < tza ∧ tza < 86400000)
    (hv : matchesFloating v = true ∨ matchesDateOnly v = true)
    (hy : 100 ≤ numberOfDigits (slice v 0 4))
    (hd : validDate (numberOfDigits (slice v 0 4)) (numberOfDigits (slice v 4 6))
      (numberOfDigits (slice v 6 8)))
    (ht : validTime (numberOfDigits (slice v 9 11)) (numberOfDigits (slice v 11 13))
      (numberOfDigits (slice v 13 15)))
    (hr : cur.rrule = none) (hu : cur.recurrenceUnit = none) :
    ∃ t, dueDate fuel nowUTC (mapEvent (scanDtstart tza cur ("DTSTART:".toList ++ v))) =
        some (some (toRFC3339NoMillis ⟨some t⟩)) ∧
      t = MakeDate (MakeDay (numberOfDigits (slice v 0 4)) (numberOfDigits (slice v 4 6) - 1)
            (numberOfDigits (slice v 6 8)))
          (MakeTime (numberOfDigits (slice v 9 11)) (numberOfDigits (slice v 11 13))
            (numberOfDigits (slice v 13 15)) 0) - tza ∧
      getFullYear tza ⟨some t⟩ = some (numberOfDigits (slice v 0 4)) ∧
      getMonth tza ⟨some t⟩ = some (numberOfDigits (slice v 4 6) - 1) ∧
      getDate tza ⟨some t⟩ = some (numberOfDigits (slice v 6 8)) ∧
      getHours tza ⟨some t⟩ = some (numberOfDigits (slice v 9 11)) ∧
      getMinutes tza ⟨some t⟩ = some (numberOfDigits (slice v 11 13)) ∧
      getSeconds tza ⟨some t⟩ = some (numberOfDigits (slice v 13 15)) := by
  have hy2 : numberOfDigits (slice v 0 4) ≤ 9999 := by
    rcases hv with hv | hv
    · obtain ⟨c0, c1, c2, c3, c4, c5, c6, c7, c9, c10, c11, c12, c13, c14, rfl, hdg, -⟩ :=
        matchesFloating_cases v hv
      simp only [slice, List.drop, List.take, Nat.sub_zero]
      rw [numberOfDigits_four]
      have := isDigit_facts c0 hdg.1
      have := isDigit_facts c1 hdg.2.1
      have := isDigit_facts c2 hdg.2.2.1
      have := isDigit_facts c3 hdg.2.2.2.1
      omega
    · obtain ⟨c0, c1, c2, c3, c4, c5, c6, c7, rfl, h0, h1, h2, h3, -⟩ :=
        matchesDateOnly_cases v hv
      simp only [slice, List.drop, List.take, Nat.sub_zero]
      rw [numberOfDigits_four]
      have := isDigit_facts c0 h0
      have := isDigit_facts c1 h1
      have := isDigit_facts c2 h2
      have := isDigit_facts c3 h3
      omega
  obtain ⟨t, e1, e2, f1, f2, f3, f4, f5, f6, -⟩ :=
    newDateFields_local tza _ _ _ _ _ _ htz ⟨hy, hy2⟩ hd ht
  have hscan : ∃ b, scanDtstart tza cur ("DTSTART:".toList ++ v) =
      ⟨cur.summary, some ⟨some t⟩, cur.rrule, b, cur.recurrenceInterval, cur.recurrenceUnit⟩ := by
    rcases hv with hv | hv
    · obtain ⟨c0, c1, c2, c3, c4, c5, c6, c7, c9, c10, c11, c12, c13, c14, rfl, hdg, htg⟩ :=
        matchesFloating_cases v hv
      refine ⟨false, ?_⟩
      rw [scanDtstart_floating tza cur c0 c1 c2 c3 c4 c5 c6 c7 c9 c10 c11 c12 c13 c14 hdg htg]
      simp only [slice, List.drop, List.take, Nat.sub_zero, Nat.reduceSub] at e1
      rw [e1]
    · obtain ⟨c0, c1, c2, c3, c4, c5, c6, c7, rfl, h0, h1, h2, h3, h4, h5, h6, h7⟩ :=
        matchesDateOnly_cases v hv
      refine ⟨true, ?_⟩
      rw [scanDtstart_dateOnly tza cur c0 c1 c2 c3 c4 c5 c6 c7 h0 h1 h2 h3 h4 h5 h6 h7]
      simp only [slice, List.drop, List.take, Nat.sub_zero, Nat.reduceSub, numberOfDigits,
        List.foldl] at e1
      rw [← e1]
      simp [numberOfDigits]
  obtain ⟨b, hb⟩ := hscan
  refine ⟨t, ?_, e2, ?_, ?_, ?_, ?_, ?_, ?_⟩
  · rw [hb]
    simp [mapEvent, dueDate, hr, hu, truthyStr]
  · simp [getFullYear, f1]
  · simp [getMonth, f2]
  · simp [getDate, f3]
  · simp [getHours, f4]
  · simp [getMinutes, f5]
  · simp [getSeconds, f6]


theorem dueDate_of_local_token_witness :
    ∃ t, dueDate 0 1735689600000 (mapEvent (scanDtstart (-18000000) Event.fresh
          ("DTSTART:".toList ++ "20250310T090000".toList))) =
        some (some (toRFC3339NoMillis ⟨some t⟩)) ∧
      t = 1741615200000 ∧ getHours (-18000000) ⟨some t⟩ = some 9 := by
  obtain ⟨t, h1, h2, -, -, -, h3, -, -⟩ :=
    dueDate_of_local_token (-18000000) 0 1735689600000 Event.fresh "20250310T090000".toList
      (by decide) (by decide) (by decide) (by unfold validDate; decide)
      (by unfold validTime; decide) rfl rfl
  exact ⟨t, h1, h2.trans (by decide), h3.trans (by decide)⟩

/-- Local midnight of the clock reading, as `parseICS` computes `today`, for
a clock that reads a local year from 100 on. -/
theorem todayOf_eq (tza now : Int) (htz : -86400000 < tza ∧ tza < 86400000)
    (hn : now ≤ 8640000000000000) (hy : 100 ≤ YearFromTime (LocalTime tza now)) :
    todayOf tza now = ⟨some (Day (LocalTime tza now) * msPerDay - tza)⟩ := by
  have hlow : DayFromYear 100 ≤ Day (LocalTime tza now) :=
    le_trans (DayFromYear_strictMono.monotone hy) (yearFromDay_spec _).1
  have h100 : DayFromYear 100 = -683003 := by decide
  rw [h100] at hlow
  unfold todayOf newDateFields
  rw [if_neg (by omega)]
  simp only []
  rw [MakeDay_fields]
  have hfloor : Day (LocalTime tza now) * 86400000 ≤ now + tza := by
    unfold Day LocalTime msPerDay; omega
  simp only [UTC, MakeDate, MakeTime, msPerDay, msPerHour, msPerMinute, msPerSecond, TimeClip]
  rw [if_neg (by omega)]
  simp

/-- Claim C8: for an event with no recurrence token and an all-day date, the
filter of `parseICS` keeps the event exactly when the local calendar day of
its date is on or after the local calendar day of `now`, whatever the time
of day of `now` (the clock reads a local year from 100 on). -/
theorem filterEvent_allDay (tza now t : Int) (ev : Event)
    (htz : -86400000 < tza ∧ tza < 86400000) (hn : now ≤ 8640000000000000)
    (hy : 100 ≤ YearFromTime (LocalTime tza now))
    (hr : truthyStr ev.rrule = false) (hd : ev.date = some ⟨some t⟩) (ha : ev.isAllDay = true) :
    filterEvent ⟨some now⟩ (todayOf tza now) ev =
      .ok (decide (Day (LocalTime tza now) ≤ Day (LocalTime tza t))) := by
  unfold filterEvent
  rw [hr, hd, ha, todayOf_eq tza now htz hn hy]
  simp only [dateGE, Bool.false_eq_true, if_false, if_true]
  congr 1
  rw [decide_eq_decide]
  unfold Day LocalTime msPerDay
  omega

theorem filterEvent_allDay_witness :
    filterEvent ⟨some 1741651199999⟩ (todayOf 0 1741651199999)
        ⟨none, some ⟨some 1741564800000⟩, none, true, none, none⟩ =
      .ok (decide (Day (LocalTime 0 1741651199999) ≤ Day (LocalTime 0 1741564800000))) :=
  filterEvent_allDay 0 1741651199999 1741564800000
    ⟨none, some ⟨some 1741564800000⟩, none, true, none, none⟩
    (by decide) (by decide) (by decide) rfl rfl rfl

/-! ## Lemmas on `getNextOccurrence` -/

theorem MakeDay_add_date (y m d i : Int) : MakeDay y m (d + i) = MakeDay y m d + i := by
  unfold MakeDay
  simp only []
  omega

/-- One advance by `i` days: `setUTCDate(getUTCDate() + i)` adds `i` days to
the time value, before `TimeClip`. -/
theorem setUTCDate_add (t i : Int) :
    setUTCDate ⟨some t⟩ ((getUTCDate ⟨some t⟩).map (· + i)) = ⟨TimeClip (t + i * msPerDay)⟩ := by
  have h : setUTCDate ⟨some t⟩ ((getUTCDate ⟨some t⟩).map (· + i)) =
      ⟨TimeClip (MakeDate (MakeDay (YearFromTime t) (MonthFromTime t) (DateFromTime t + i))
        (TimeWithinDay t))⟩ := rfl
  rw [h, MakeDay_add_date, MakeDay_fields]
  have e : MakeDate (Day t + i) (TimeWithinDay t) = t + i * msPerDay := by
    unfold MakeDate Day TimeWithinDay msPerDay
    omega
  rw [e]

theorem MakeDay_succ_month (y k d : Int) : MakeDay y k d + 28 ≤ MakeDay y (k + 1) d := by
  unfold MakeDay
  simp only []
  by_cases h : k % 12 = 11
  · have e1 : (k + 1) / 12 = k / 12 + 1 := by omega
    have e2 : (k + 1) % 12 = 0 := by omega
    rw [e1, e2, h, ← add_assoc, DayFromYear_succ]
    rcases DaysInYear_cases (y + k / 12) with ⟨hl, hd⟩ | ⟨hl, hd⟩ <;>
      rw [hd, hl] <;> simp [daysBeforeMonth] <;> omega
  · have e1 : (k + 1) / 12 = k / 12 := by omega
    have e2 : (k + 1) % 12 = k % 12 + 1 := by omega
    rw [e1, e2]
    have hr : 0 ≤ k % 12 ∧ k % 12 < 11 := by omega
    generalize k % 12 = r at *
    have hl : (if isLeapYear (y + k / 12) = true then (1 : Int) else 0) = 0 ∨
        (if isLeapYear (y + k / 12) = true then (1 : Int) else 0) = 1 := by
      cases isLeapYear (y + k / 12) <;> simp
    generalize (if isLeapYear (y + k / 12) = true then (1 : Int) else 0) = l at *
    unfold daysBeforeMonth
    omega

theorem MakeDay_add_month (y m d : Int) (n : Nat) :
    MakeDay y m d + 28 * n ≤ MakeDay y (m + n) d := by
  induction n with
  | zero => simp
  | succ n ih =>
    have := MakeDay_succ_month y (m + n) d
    have e : m + ((n + 1 : Nat) : Int) = m + n + 1 := by push_cast; ring
    rw [e]
    push_cast
    omega

theorem MakeDay_succ_year (y m d : Int) (hm : 0 ≤ m ∧ m ≤ 11) :
    MakeDay y m d + 365 ≤ MakeDay (y + 1) m d := by
  rw [MakeDay_valid y m d hm, MakeDay_valid (y + 1) m d hm, DayFromYear_succ]
  have hl : (if isLeapYear (y + 1) = true then (1 : Int) else 0) = 0 ∨
      (if isLeapYear (y + 1) = true then (1 : Int) else 0) = 1 := by
    cases isLeapYear (y + 1) <;> simp
  generalize (if isLeapYear (y + 1) = true then (1 : Int) else 0) = l2 at *
  rcases DaysInYear_cases y with ⟨hl1, hd⟩ | ⟨hl1, hd⟩ <;>
    rw [hd, hl1] <;> simp only [if_true, Bool.false_eq_true, if_false] <;>
    unfold daysBeforeMonth <;> omega

theorem MakeDay_add_year (y m d : Int) (hm : 0 ≤ m ∧ m ≤ 11) (n : Nat) :
    MakeDay y m d + 365 * n ≤ MakeDay (y + n) m d := by
  induction n with
  | zero => simp
  | succ n ih =>
    have := MakeDay_succ_year (y + n) m d hm
    have e : y + ((n + 1 : Nat) : Int) = y + n + 1 := by push_cast; ring
    rw [e]
    push_cast
    omega

theorem setUTCMonth_add (t : Int) (n : Nat) :
    ∃ u, setUTCMonth ⟨some t⟩ ((getUTCMonth ⟨some t⟩).map (· + (n : Int))) = ⟨TimeClip u⟩ ∧
      t + (n : Int) * 28 * msPerDay ≤ u := by
  refine ⟨MakeDate (MakeDay (YearFromTime t) (MonthFromTime t + n) (DateFromTime t))
    (TimeWithinDay t), rfl, ?_⟩
  have h1 := MakeDay_add_month (YearFromTime t) (MonthFromTime t) (DateFromTime t) n
  rw [MakeDay_fields] at h1
  generalize MakeDay (YearFromTime t) (MonthFromTime t + n) (DateFromTime t) = day at *
  unfold MakeDate Day TimeWithinDay msPerDay at *
  omega

theorem setUTCFullYear_add (t : Int) (n : Nat) :
    ∃ u, setUTCFullYear ⟨some t⟩ ((getUTCFullYear ⟨some t⟩).map (· + (n : Int))) = ⟨TimeClip u⟩ ∧
      t + (n : Int) * 365 * msPerDay ≤ u := by
  refine ⟨MakeDate (MakeDay (YearFromTime t + n) (MonthFromTime t) (DateFromTime t))
    (TimeWithinDay t), rfl, ?_⟩
  have h1 := MakeDay_add_year (YearFromTime t) (MonthFromTime t) (DateFromTime t)
    (month_bounds _ _) n
  rw [MakeDay_fields] at h1
  generalize MakeDay (YearFromTime t + n) (MonthFromTime t) (DateFromTime t) = day at *
  unfold MakeDate Day TimeWithinDay msPerDay at *
  omega

/-- Every recognised unit has an entry in the table `add`, and one advance
by a positive interval `n` moves a time value forward by at least
`n * minStepDays unit` days, before `TimeClip`. -/
theorem addStep_progress (n : Int) (hn : 0 < n) (unit : Str)
    (hu : unit = "day".toList ∨ unit = "week".toList ∨ unit = "month".toList ∨
      unit = "year".toList) :
    ∃ add, addStep n unit = some add ∧
      ∀ t, ∃ u, add ⟨some t⟩ = ⟨TimeClip u⟩ ∧ t + n * minStepDays unit * msPerDay ≤ u := by
  obtain ⟨k, rfl⟩ : ∃ k : Nat, n = k := ⟨n.toNat, by omega⟩
  rcases hu with rfl | rfl | rfl | rfl
  · refine ⟨_, rfl, fun t => ⟨t + (k : Int) * msPerDay, setUTCDate_add t k, ?_⟩⟩
    have : minStepDays "day".toList = 1 := by decide
    rw [this, mul_one]
  · refine ⟨_, rfl, fun t => ⟨t + (k : Int) * 7 * msPerDay, setUTCDate_add t (k * 7), ?_⟩⟩
    have : minStepDays "week".toList = 7 := by decide
    rw [this]
  · refine ⟨_, rfl, fun t => ?_⟩
    have : minStepDays "month".toList = 28 := by decide
    rw [this]
    exact setUTCMonth_add t k
  · refine ⟨_, rfl, fun t => ?_⟩
    have : minStepDays "year".toList = 365 := by decide
    rw [this]
    exact setUTCFullYear_add t k

theorem advanceLoop_done (now : JSDate) (add : JSDate → JSDate) (fuel : Nat) (s : JSDate)
    (h : dateLT s now = false) : advanceLoop now add fuel s = some s := by
  cases fuel <;> simp [advanceLoop, h]

theorem dateLT_none (now : JSDate) : dateLT ⟨none⟩ now = false := rfl

theorem dateLT_TimeClip_none (u : Int) (now : JSDate) (h : TimeClip u = none) :
    dateLT ⟨TimeClip u⟩ now = false := by
  rw [h]; rfl

/-- The loop ends within `k` advances when each advance moves the time
value forward by at least `δ` and `k * δ` covers the distance to `now`; the
value it ends with is not before `now`, and more fuel does not change it. -/
theorem advanceLoop_terminates (now δ : Int) (add : JSDate → JSDate)
    (hp : ∀ t, ∃ u, add ⟨some t⟩ = ⟨TimeClip u⟩ ∧ t + δ ≤ u) :
    ∀ (k : Nat) (s : JSDate), (∀ t, s.time = some t → now - t ≤ k * δ) →
      ∃ r, dateLT r ⟨some now⟩ = false ∧
        ∀ fuel, k ≤ fuel → advanceLoop ⟨some now⟩ add fuel s = some r := by
  intro k
  induction k with
  | zero =>
    intro s hs
    have hlt : dateLT s ⟨some now⟩ = false := by
      rcases s with ⟨_ | t⟩
      · rfl
      · have := hs t rfl
        simp only [dateLT, decide_eq_false_iff_not]
        simp at this
        omega
    exact ⟨s, hlt, fun fuel _ => advanceLoop_done _ _ _ _ hlt⟩
  | succ k ih =>
    intro s hs
    by_cases hlt : dateLT s ⟨some now⟩ = false
    · exact ⟨s, hlt, fun fuel _ => advanceLoop_done _ _ _ _ hlt⟩
    · have hlt2 : dateLT s ⟨some now⟩ = true := by simpa using hlt
      rcases s with ⟨_ | t⟩
      · exact absurd rfl hlt
      · obtain ⟨u, hu, hle⟩ := hp t
        have hk := hs t rfl
        have hnext : ∀ v, (add ⟨some t⟩).time = some v → now - v ≤ k * δ := by
          intro v hv
          rw [hu] at hv
          have huv : u = v := by
            unfold TimeClip at hv
            split_ifs at hv
            exact Option.some.inj hv
          subst huv
          push_cast at hk
          nlinarith
        obtain ⟨r, hr, hfuel⟩ := ih (add ⟨some t⟩) hnext
        refine ⟨r, hr, fun fuel hf => ?_⟩
        obtain ⟨f, rfl⟩ : ∃ f, fuel = f + 1 := ⟨fuel - 1, by omega⟩
        simp only [advanceLoop, hlt2, if_true]
        exact hfuel f (by omega)

theorem ceil_bound (x δ : Int) (hδ : 0 < δ) :
    x ≤ (((x + (δ - 1)) / δ).toNat : Int) * δ := by
  have h1 := Int.lt_ediv_add_one_mul_self (x + (δ - 1)) hδ
  have h2 : (x + (δ - 1)) / δ ≤ (((x + (δ - 1)) / δ).toNat : Int) := Int.self_le_toNat _
  nlinarith

theorem advanceLoop_exact (now δ : Int) (add : JSDate → JSDate) (hδ : 0 < δ)
    (hadd : ∀ t, -8640000000000000 ≤ t → t < now → add ⟨some t⟩ = ⟨some (t + δ)⟩) :
    ∀ (k : Nat) (start : Int), -8640000000000000 ≤ start → now ≤ start + k * δ →
      (∀ j : Nat, j < k → start + j * δ < now) →
      ∀ fuel, k ≤ fuel →
        advanceLoop ⟨some now⟩ add fuel ⟨some start⟩ = some ⟨some (start + k * δ)⟩ := by
  intro k
  induction k with
  | zero =>
    intro start _ h _ fuel _
    have hlt : dateLT ⟨some start⟩ ⟨some now⟩ = false := by
      simp only [dateLT, decide_eq_false_iff_not]
      simp at h
      omega
    rw [advanceLoop_done _ _ _ _ hlt]
    simp
  | succ k ih =>
    intro start hs h hmin fuel hf
    have h0 : start < now := by simpa using hmin 0 (by omega)
    have hlt : dateLT ⟨some start⟩ ⟨some now⟩ = true := by
      simp only [dateLT, decide_eq_true_eq]
      exact h0
    obtain ⟨f, rfl⟩ : ∃ f, fuel = f + 1 := ⟨fuel - 1, by omega⟩
    simp only [advanceLoop, hlt, if_true]
    rw [hadd start hs h0]
    have e : start + ((k + 1 : Nat) : Int) * δ = start + δ + k * δ := by push_cast; ring
    rw [e]
    apply ih (start + δ) (by omega) (by rw [← e]; exact h) _ f (by omega)
    intro j hj
    have := hmin (j + 1) (by omega)
    have e2 : start + ((j + 1 : Nat) : Int) * δ = start + δ + j * δ := by push_cast; ring
    rw [e2] at this
    exact this

theorem exists_reach (now start δ : Int) (hδ : 0 < δ) : ∃ k : Nat, now ≤ start + k * δ := by
  refine ⟨(now - start).toNat, ?_⟩
  have h1 : now - start ≤ ((now - start).toNat : Int) := Int.self_le_toNat _
  have h2 : (0 : Int) ≤ ((now - start).toNat : Int) := Int.ofNat_nonneg _
  nlinarith

/-- Claim C11, as stated, fails: with the positive interval 100000000000 and
unit day the first advance leaves the range of time values, and
`getNextOccurrence` returns an Invalid Date instead of the start advanced by
that many days. -/
theorem getNextOccurrence_huge_interval :
    getNextOccurrence 1 1743465600000 (some ⟨some 1741597200000⟩) (some (some 100000000000))
      "day".toList = some (some ⟨none⟩) := by
  decide

/-- Claim C11, amended: for unit day or week, a positive interval `n`, a
valid start and a `now` such that one step past `now` is still a valid time
value, `getNextOccurrence` returns the start advanced by exactly `k * n`
days (day) or `k * n * 7` days (week), where `k` is the least natural number
for which the result is not earlier than `now` (`k = 0` when the start is
not earlier than `now`); `k` advances of the loop suffice. -/
theorem getNextOccurrence_day_week (now start n : Int) (unit : Str)
    (hu : unit = "day".toList ∨ unit = "week".toList) (hn : 0 < n)
    (hs : -8640000000000000 ≤ start)
    (hrange : now + n * daysPerStep unit * 86400000 ≤ 8640000000000000) :
    ∃ k : Nat,
      (∀ fuel, k ≤ fuel →
        getNextOccurrence fuel now (some ⟨some start⟩) (some (some n)) unit =
          some (some ⟨some (start + k * (n * daysPerStep unit * 86400000))⟩)) ∧
      now ≤ start + k * (n * daysPerStep unit * 86400000) ∧
      ∀ j : Nat, j < k → start + j * (n * daysPerStep unit * 86400000) < now := by
  have hstep : 0 < daysPerStep unit := by
    rcases hu with rfl | rfl <;> decide
  have hδ : 0 < n * daysPerStep unit * 86400000 := by positivity
  have hadd : ∃ add, addStep n unit = some add ∧
      ∀ t, add ⟨some t⟩ = ⟨TimeClip (t + n * daysPerStep unit * 86400000)⟩ := by
    rcases hu with rfl | rfl
    · refine ⟨_, rfl, fun t => ?_⟩
      have e : daysPerStep "day".toList = 1 := by decide
      rw [e, mul_one]
      exact setUTCDate_add t n
    · refine ⟨_, rfl, fun t => ?_⟩
      have e : daysPerStep "week".toList = 7 := by decide
      rw [e]
      exact setUTCDate_add t (n * 7)
  obtain ⟨add, hadd1, hadd2⟩ := hadd
  generalize n * daysPerStep unit * 86400000 = δ at *
  have hex := exists_reach now start δ hδ
  refine ⟨Nat.find hex, ?_, Nat.find_spec hex, ?_⟩
  · intro fuel hf
    have hn0 : intervalOrOne (some (some n)) = n := by
      simp only [intervalOrOne]
      rw [if_neg (by omega)]
    simp only [getNextOccurrence, hn0, hadd1]
    rw [advanceLoop_exact now δ add hδ _ (Nat.find hex) start hs (Nat.find_spec hex) _ fuel hf]
    · rfl
    · intro t ht1 ht2
      rw [hadd2]
      unfold TimeClip
      rw [if_neg (by omega)]
    · intro j hj
      have := Nat.find_min hex hj
      omega
  · intro j hj
    have := Nat.find_min hex hj
    omega

theorem getNextOccurrence_day_week_witness :
    getNextOccurrence 2 1743465600000 (some ⟨some 1741597200000⟩) (some (some 2))
      "week".toList = some (some ⟨some 1744016400000⟩) := by
  obtain ⟨k, h1, h2, h3⟩ :=
    getNextOccurrence_day_week 1743465600000 1741597200000 2 "week".toList (Or.inr rfl)
      (by decide) (by decide) (by decide)
  have e : daysPerStep "week".toList = 7 := by decide
  rw [e] at h1 h2 h3
  have hk : k = 2 := by
    by_contra hne
    have hlt : 2 < k := by omega
    have := h3 2 hlt
    omega
  subst hk
  simpa using h1 2 le_rfl

/-- Claim C12: for every start, every positive interval and every unit
(day, week, month, year), `getNextOccurrence` returns a result once the fuel
covers `advanceBound`, and applied to that result with the same interval,
unit and `now` it returns the same instant, with any fuel. -/
theorem getNextOccurrence_idempotent (now : Int) (start : JSDate) (n : Int) (unit : Str)
    (hn : 0 < n)
    (hu : unit = "day".toList ∨ unit = "week".toList ∨ unit = "month".toList ∨
      unit = "year".toList) :
    ∃ r,
      (∀ fuel, advanceBound now start n unit ≤ fuel →
        getNextOccurrence fuel now (some start) (some (some n)) unit = some (some r)) ∧
      ∀ fuel, getNextOccurrence fuel now (some r) (some (some n)) unit = some (some r) := by
  obtain ⟨add, hadd, hp⟩ := addStep_progress n hn unit hu
  have hmin : 0 < minStepDays unit := by
    rcases hu with rfl | rfl | rfl | rfl <;> decide
  have hδ : 0 < n * minStepDays unit * msPerDay := by
    have : (0 : Int) < msPerDay := by decide
    positivity
  have hn0 : intervalOrOne (some (some n)) = n := by
    simp only [intervalOrOne]
    rw [if_neg (by omega)]
  obtain ⟨r, hr, hfuel⟩ := advanceLoop_terminates now _ add hp (advanceBound now start n unit)
    start (by
      intro t ht
      simp only [advanceBound, ht]
      exact ceil_bound _ _ hδ)
  refine ⟨r, fun fuel hf => ?_, fun fuel => ?_⟩
  · simp only [getNextOccurrence, hn0, hadd]
    rw [hfuel fuel hf]
    rfl
  · simp only [getNextOccurrence, hn0, hadd]
    rw [advanceLoop_done _ _ _ _ hr]
    rfl

theorem getNextOccurrence_idempotent_witness :
    ∃ r,
      (∀ fuel, advanceBound 1743465600000 ⟨some 1741597200000⟩ 1 "month".toList ≤ fuel →
        getNextOccurrence fuel 1743465600000 (some ⟨some 1741597200000⟩) (some (some 1))
          "month".toList = some (some r)) ∧
      ∀ fuel, getNextOccurrence fuel 1743465600000 (some r) (some (some 1)) "month".toList =
        some (some r) :=
  getNextOccurrence_idempotent 1743465600000 ⟨some 1741597200000⟩ 1 "month".toList (by decide)
    (Or.inr (Or.inr (Or.inl rfl)))

/-- Claim C13, as stated, fails: with `INTERVAL=0` and a start before `now`
no error is raised; `getNextOccurrence` returns the instant it computes
with interval 1. -/
theorem getNextOccurrence_zero_interval :
    ruleOf "FREQ=DAILY;INTERVAL=0".toList = some (some 0, "day".toList) ∧
    getNextOccurrence 30 1743465600000 (some ⟨some 1741597200000⟩) (some (some 0))
      "day".toList = some (some ⟨some 1743498000000⟩) ∧
    getNextOccurrence 30 1743465600000 (some ⟨some 1741597200000⟩) (some (some 1))
      "day".toList = some (some ⟨some 1743498000000⟩) := by
  refine ⟨by decide, by decide, by decide⟩

/-- Claim C13, amended: an interval that is zero, `NaN` or missing is
replaced by 1 (`interval || 1`): `getNextOccurrence` raises no error and
returns what it returns for interval 1, for every start, unit and `now`. -/
theorem getNextOccurrence_falsy_interval (fuel : Nat) (now : Int) (start : Option JSDate)
    (unit : Str) :
    getNextOccurrence fuel now start (some (some 0)) unit =
      getNextOccurrence fuel now start (some (some 1)) unit ∧
    getNextOccurrence fuel now start (some none) unit =
      getNextOccurrence fuel now start (some (some 1)) unit ∧
    getNextOccurrence fuel now start none unit =
      getNextOccurrence fuel now start (some (some 1)) unit :=
  ⟨rfl, rfl, rfl⟩

/-- Claim C14: for every start, every `now`, every positive interval `n` and
every recognised unit, the loop of `getNextOccurrence` ends: `advanceBound`
advances suffice, which for unit day or week is the ceiling of
`(now - start) / (n * step)` and is zero when the start is not before
`now`; more fuel gives the same result. -/
theorem getNextOccurrence_terminates (now : Int) (start : JSDate) (n : Int) (unit : Str)
    (hn : 0 < n)
    (hu : unit = "day".toList ∨ unit = "week".toList ∨ unit = "month".toList ∨
      unit = "year".toList) :
    (∃ r, ∀ fuel, advanceBound now start n unit ≤ fuel →
      getNextOccurrence fuel now (some start) (some (some n)) unit = some (some r)) ∧
    (∀ t, start.time = some t → now ≤ t → advanceBound now start n unit = 0) ∧
    (∀ t, start.time = some t → advanceBound now start n unit =
      ((now - t + (n * minStepDays unit * 86400000 - 1)) /
        (n * minStepDays unit * 86400000)).toNat) := by
  obtain ⟨add, hadd, hp⟩ := addStep_progress n hn unit hu
  have hmin : 0 < minStepDays unit := by
    rcases hu with rfl | rfl | rfl | rfl <;> decide
  have hδ : 0 < n * minStepDays unit * msPerDay := by
    have : (0 : Int) < msPerDay := by decide
    positivity
  have hn0 : intervalOrOne (some (some n)) = n := by
    simp only [intervalOrOne]
    rw [if_neg (by omega)]
  refine ⟨?_, ?_, ?_⟩
  · obtain ⟨r, -, hfuel⟩ := advanceLoop_terminates now _ add hp (advanceBound now start n unit)
      start (by
        intro t ht
        simp only [advanceBound, ht]
        exact ceil_bound _ _ hδ)
    refine ⟨r, fun fuel hf => ?_⟩
    simp only [getNextOccurrence, hn0, hadd]
    rw [hfuel fuel hf]
    rfl
  · intro t ht hle
    simp only [advanceBound, ht]
    generalize n * minStepDays unit * msPerDay = δ at *
    have h1 : now - t + (δ - 1) < δ := by omega
    have h2 : (now - t + (δ - 1)) / δ < 1 := Int.ediv_lt_of_lt_mul hδ (by omega)
    omega
  · intro t ht
    simp only [advanceBound, ht]
    rfl

theorem getNextOccurrence_terminates_witness :
    (∃ r, ∀ fuel, advanceBound 1743465600000 ⟨some 1741597200000⟩ 2 "week".toList ≤ fuel →
      getNextOccurrence fuel 1743465600000 (some ⟨some 1741597200000⟩) (some (some 2))
        "week".toList = some (some r)) ∧
    advanceBound 1743465600000 ⟨some 1741597200000⟩ 2 "week".toList = 2 :=
  ⟨(getNextOccurrence_terminates 1743465600000 ⟨some 1741597200000⟩ 2 "week".toList
      (by decide) (Or.inr (Or.inl rfl))).1, by decide⟩

/-! ## Claims on the recurrence fields -/

theorem upperChar_ascii (c : Char) (h : c.toNat < 128) : upperChar c = [asciiUpper c] := by
  unfold upperChar asciiUpper
  simp only []
  by_cases h1 : 97 ≤ c.toNat ∧ c.toNat ≤ 122
  · rw [if_pos h1, if_pos h1]
  · rw [if_neg h1, if_neg h1, if_neg (by omega), if_neg (by omega), if_neg (by omega),
      if_neg (by omega), if_neg (by omega), if_neg (by omega), if_neg (by omega),
      if_neg (by omega), if_neg (by omega)]

/-- On a string of ASCII characters `toUpperCase` is the upper-casing of the
ASCII letters. -/
theorem toUpperCase_ascii (s : Str) (h : ∀ c ∈ s, c.toNat < 128) :
    toUpperCase s = s.map asciiUpper := by
  induction s with
  | nil => rfl
  | cons c s ih =>
    have hc := upperChar_ascii c (h c (List.mem_cons_self _ _))
    have hs := ih (fun d hd => h d (List.mem_cons_of_mem _ hd))
    unfold toUpperCase at hs ⊢
    simp only [List.flatMap_cons, List.map_cons, hc, hs]
    rfl

theorem ruleOf_eq (r : Str) :
    ruleOf r =
      match unitOfFreq (toUpperCase (freqValue r)) with
      | some unit => some (parseInt10 (orElseStr
          (lookupPart ((splitOn ';' r).map (splitOn '=')) "INTERVAL".toList) "1".toList), unit)
      | none => none := rfl

theorem unitOfFreq_cases (f : Str) :
    (f = "DAILY".toList ∧ unitOfFreq f = some "day".toList) ∨
    (f = "WEEKLY".toList ∧ unitOfFreq f = some "week".toList) ∨
    (f = "MONTHLY".toList ∧ unitOfFreq f = some "month".toList) ∨
    (f = "YEARLY".toList ∧ unitOfFreq f = some "year".toList) ∨
    (f ≠ "DAILY".toList ∧ f ≠ "WEEKLY".toList ∧ f ≠ "MONTHLY".toList ∧ f ≠ "YEARLY".toList ∧
      unitOfFreq f = none) := by
  unfold unitOfFreq
  by_cases h1 : f = "DAILY".toList
  · left; exact ⟨h1, by rw [if_pos h1]⟩
  by_cases h2 : f = "WEEKLY".toList
  · right; left; exact ⟨h2, by rw [if_neg h1, if_pos h2]⟩
  by_cases h3 : f = "MONTHLY".toList
  · right; right; left; exact ⟨h3, by rw [if_neg h1, if_neg h2, if_pos h3]⟩
  by_cases h4 : f = "YEARLY".toList
  · right; right; right; left
    exact ⟨h4, by rw [if_neg h1, if_neg h2, if_neg h3, if_pos h4]⟩
  · right; right; right; right
    exact ⟨h1, h2, h3, h4, by rw [if_neg h1, if_neg h2, if_neg h3, if_neg h4]⟩

theorem mapEvent_eq (ev : Event) (r : Str) (hr : ev.rrule = some r) :
    mapEvent ev =
      match ruleOf r with
      | some p => ⟨ev.summary, ev.date, ev.rrule, ev.isAllDay, some p.1, some p.2⟩
      | none => ev := by
  unfold mapEvent
  rw [hr]
  simp only []
  by_cases he : r.isEmpty = true
  · rw [if_pos he]
    have : r = [] := by simpa using he
    subst this
    rfl
  · rw [if_neg he]

/-- Claim C15: for an event with a recurrence token, the mapping step of
`parseICS` sets `recurrenceUnit` to `day`, `week`, `month` or `year` exactly
when the upper-cased `FREQ` value of the token is `DAILY`, `WEEKLY`,
`MONTHLY` or `YEARLY` respectively, leaves it unset for any other or missing
`FREQ`, and sets `recurrenceInterval` exactly when it sets the unit; on
ASCII values the upper-casing is that of the ASCII letters. -/
theorem mapEvent_recurrence (ev : Event) (r : Str) (hr : ev.rrule = some r)
    (hu : ev.recurrenceUnit = none) (hi : ev.recurrenceInterval = none) :
    ((mapEvent ev).recurrenceUnit = some "day".toList ↔
      toUpperCase (freqValue r) = "DAILY".toList) ∧
    ((mapEvent ev).recurrenceUnit = some "week".toList ↔
      toUpperCase (freqValue r) = "WEEKLY".toList) ∧
    ((mapEvent ev).recurrenceUnit = some "month".toList ↔
      toUpperCase (freqValue r) = "MONTHLY".toList) ∧
    ((mapEvent ev).recurrenceUnit = some "year".toList ↔
      toUpperCase (freqValue r) = "YEARLY".toList) ∧
    ((mapEvent ev).recurrenceUnit = none ↔
      toUpperCase (freqValue r) ∉
        ["DAILY".toList, "WEEKLY".toList, "MONTHLY".toList, "YEARLY".toList]) ∧
    ((mapEvent ev).recurrenceInterval = none ↔ (mapEvent ev).recurrenceUnit = none) ∧
    ((∀ c ∈ freqValue r, c.toNat < 128) →
      toUpperCase (freqValue r) = (freqValue r).map asciiUpper) := by
  rw [mapEvent_eq ev r hr, ruleOf_eq]
  have hlast := toUpperCase_ascii (freqValue r)
  generalize toUpperCase (freqValue r) = f at *
  rcases unitOfFreq_cases f with ⟨rfl, e⟩ | ⟨rfl, e⟩ | ⟨rfl, e⟩ | ⟨rfl, e⟩ | ⟨h1, h2, h3, h4, e⟩
  · simp only [e]
    exact ⟨by simp, by simp, by simp, by simp, by simp, by simp, hlast⟩
  · simp only [e]
    exact ⟨by simp, by simp, by simp, by simp, by simp, by simp, hlast⟩
  · simp only [e]
    exact ⟨by simp, by simp, by simp, by simp, by simp, by simp, hlast⟩
  · simp only [e]
    exact ⟨by simp, by simp, by simp, by simp, by simp, by simp, hlast⟩
  · simp only [e, hu, hi]
    refine ⟨⟨nofun, fun h => absurd h h1⟩, ⟨nofun, fun h => absurd h h2⟩,
      ⟨nofun, fun h => absurd h h3⟩, ⟨nofun, fun h => absurd h h4⟩, ⟨fun _ hm => ?_, fun _ => trivial⟩,
      trivial, hlast⟩
    simp only [List.mem_cons, List.mem_singleton, List.not_mem_nil, or_false] at hm
    rcases hm with h | h | h | h
    · exact h1 h
    · exact h2 h
    · exact h3 h
    · exact h4 h

theorem mapEvent_recurrence_witness :
    ((mapEvent ⟨none, none, some "FREQ=weekly;INTERVAL=2".toList, false, none, none⟩).recurrenceUnit
        = some "week".toList ↔
      toUpperCase (freqValue "FREQ=weekly;INTERVAL=2".toList) = "WEEKLY".toList) ∧
    toUpperCase (freqValue "FREQ=weekly;INTERVAL=2".toList) = "WEEKLY".toList :=
  ⟨(mapEvent_recurrence ⟨none, none, some "FREQ=weekly;INTERVAL=2".toList, false, none, none⟩
      "FREQ=weekly;INTERVAL=2".toList rfl rfl rfl).2.1, by decide⟩

/-- Claim C16: for the token `FREQ=DAILY;INTERVAL=abc` the interval that
`parseICS` stores is `NaN`, not 1, while a token without `INTERVAL` stores
1. -/
theorem parseICS_interval_not_numeric (tza now : Int) :
    parseICS tza now
        "BEGIN:VEVENT\nSUMMARY:Run\nRRULE:FREQ=DAILY;INTERVAL=abc\nEND:VEVENT".toList =
      .ok [⟨some "Run".toList, none, some "FREQ=DAILY;INTERVAL=abc".toList, false, some none,
        some "day".toList⟩] ∧
    ruleOf "FREQ=DAILY".toList = some (some 1, "day".toList) :=
  ⟨rfl, by decide⟩

/-! ## Claims on the scanning loop -/

theorem scanEvents_eq (tza : Int) (text : Str) :
    scanEvents tza text = (scanFrom tza ⟨[], none⟩ (linesOf text)).events := rfl

theorem parseICS_congr (tza now : Int) (a b : Str) (h : scanEvents tza a = scanEvents tza b) :
    parseICS tza now a = parseICS tza now b := by
  unfold parseICS
  rw [h]

theorem scanFrom_append (tza : Int) (st : ScanState) (xs ys : List Str) :
    scanFrom tza st (xs ++ ys) = scanFrom tza (scanFrom tza st xs) ys := by
  unfold scanFrom
  rw [List.foldl_append]

theorem scanFrom_cons (tza : Int) (st : ScanState) (x : Str) (xs : List Str) :
    scanFrom tza st (x :: xs) = scanFrom tza (scanLine tza st x) xs := rfl

/-- A line that does not start with `END:VEVENT` leaves the array `events`
as it is. -/
theorem scanLine_events (tza : Int) (st : ScanState) (line : Str)
    (h : startsWith line "END:VEVENT".toList = false) :
    (scanLine tza st line).events = st.events := by
  rcases st with ⟨evs, cur⟩
  unfold scanLine
  rw [h]
  simp only [Bool.false_eq_true, if_false]
  cases cur with
  | none => split_ifs <;> rfl
  | some c =>
    simp only []
    split_ifs <;> rfl

theorem scanFrom_events (tza : Int) (lines : List Str)
    (h : ∀ l ∈ lines, startsWith l "END:VEVENT".toList = false) (st : ScanState) :
    (scanFrom tza st lines).events = st.events := by
  induction lines generalizing st with
  | nil => rfl
  | cons l ls ih =>
    rw [scanFrom_cons, ih (fun x hx => h x (List.mem_cons_of_mem _ hx)),
      scanLine_events tza st l (h l (List.mem_cons_self _ _))]

/-- Claim C18: when the lines of a feed are the lines of a text `T`, then a
line `BEGIN:VEVENT`, then lines of which none starts with `END:VEVENT`, the
events scanned and the result of `parseICS` are those of `T` alone; and a
feed without any line starting with `END:VEVENT` yields no event. -/
theorem unclosed_block_discarded (tza now : Int) (T text : Str) (L : List Str)
    (hl : linesOf text = linesOf T ++ "BEGIN:VEVENT".toList :: L)
    (hL : ∀ l ∈ L, startsWith l "END:VEVENT".toList = false) :
    scanEvents tza text = scanEvents tza T ∧ parseICS tza now text = parseICS tza now T ∧
    (∀ feed : Str, (∀ l ∈ linesOf feed, startsWith l "END:VEVENT".toList = false) →
      scanEvents tza feed = [] ∧ parseICS tza now feed = .ok []) := by
  have h1 : scanEvents tza text = scanEvents tza T := by
    rw [scanEvents_eq, scanEvents_eq, hl, scanFrom_append, scanFrom_cons,
      scanFrom_events tza L hL]
    exact scanLine_events tza _ _ (by decide)
  refine ⟨h1, parseICS_congr tza now _ _ h1, fun feed hf => ?_⟩
  have h2 : scanEvents tza feed = [] := by
    rw [scanEvents_eq, scanFrom_events tza _ hf]
  refine ⟨h2, ?_⟩
  unfold parseICS
  rw [h2]
  rfl

theorem unclosed_block_discarded_witness :
    scanEvents 0 "BEGIN:VEVENT\nSUMMARY:a\nEND:VEVENT\nBEGIN:VEVENT\nSUMMARY:b".toList =
      scanEvents 0 "BEGIN:VEVENT\nSUMMARY:a\nEND:VEVENT".toList ∧
    scanEvents 0 "BEGIN:VEVENT\nSUMMARY:a\nEND:VEVENT".toList =
      [⟨some "a".toList, none, none, false, none, none⟩] ∧
    scanEvents 0 "BEGIN:VEVENT\nSUMMARY:b\nDTSTART:20250310".toList = [] :=
  have h := unclosed_block_discarded 0 0 "BEGIN:VEVENT\nSUMMARY:a\nEND:VEVENT".toList
    "BEGIN:VEVENT\nSUMMARY:a\nEND:VEVENT\nBEGIN:VEVENT\nSUMMARY:b".toList ["SUMMARY:b".toList]
    (by decide) (by decide)
  ⟨h.1, by decide, (h.2.2 "BEGIN:VEVENT\nSUMMARY:b\nDTSTART:20250310".toList (by decide)).1⟩

/-- Claim C19, as stated, fails: the line `BEGIN:VEVENTS` opens a block and
the line `END:VEVENT2` closes it, so the feed yields an event. -/
theorem marker_prefix_opens_and_closes :
    scanEvents 0 "BEGIN:VEVENTS\nSUMMARY:a\nEND:VEVENT2".toList =
      [⟨some "a".toList, none, none, false, none, none⟩] := by
  decide

/-- Claim C19, amended: every line that starts with `BEGIN:VEVENT` opens a
new record, whatever follows the marker; every other line that starts with
`END:VEVENT` finalises the current record, if any, and leaves no record
open; every other line leaves the array `events` as it is and opens or
closes nothing. -/
theorem scanLine_markers (tza : Int) (st : ScanState) (line : Str) :
    if startsWith line "BEGIN:VEVENT".toList = true then
      scanLine tza st line = ⟨st.events, some Event.fresh⟩
    else if startsWith line "END:VEVENT".toList = true then
      scanLine tza st line = ⟨st.events ++ st.current.toList, none⟩
    else
      (scanLine tza st line).events = st.events ∧
      (scanLine tza st line).current.isSome = st.current.isSome := by
  rcases st with ⟨evs, cur⟩
  unfold scanLine
  by_cases hb : startsWith line "BEGIN:VEVENT".toList = true
  · rw [if_pos hb, if_pos hb]
  · rw [if_neg hb, if_neg hb]
    by_cases he : startsWith line "END:VEVENT".toList = true
    · rw [if_pos he, if_pos he]
      cases cur <;> simp
    · rw [if_neg he, if_neg he]
      cases cur with
      | none => exact ⟨rfl, rfl⟩
      | some c =>
        simp only []
        split_ifs <;> exact ⟨rfl, rfl⟩

/-- Outside a block the scanning loop ignores every line that does not
start with `BEGIN:VEVENT`. -/
theorem scanLine_outside (tza : Int) (st : ScanState) (line : Str) (hc : st.current = none)
    (hb : startsWith line "BEGIN:VEVENT".toList = false) : scanLine tza st line = st := by
  unfold scanLine
  rw [hb, hc]
  simp only [Bool.false_eq_true, if_false]
  rcases st with ⟨evs, cur⟩
  simp only at hc
  subst hc
  split_ifs <;> rfl

theorem scanFrom_outside (tza : Int) (ls : List Str)
    (hb : ∀ l ∈ ls, startsWith l "BEGIN:VEVENT".toList = false) (st : ScanState)
    (hc : st.current = none) : scanFrom tza st ls = st := by
  induction ls with
  | nil => rfl
  | cons l ls ih =>
    rw [scanFrom_cons, scanLine_outside tza st l hc (hb l (List.mem_cons_self _ _))]
    exact ih (fun x hx => hb x (List.mem_cons_of_mem _ hx))

/-- Claim C20: lines added where no block is open (before the first block,
between a block close and the next block open, after the last block close)
that do not start with `BEGIN:VEVENT` leave the scanned events and the
result of `parseICS` unchanged. -/
theorem lines_outside_blocks_ignored (tza now : Int) (text text2 : Str) (pre ls post : List Str)
    (h1 : linesOf text = pre ++ post) (h2 : linesOf text2 = pre ++ ls ++ post)
    (hc : (scanFrom tza ⟨[], none⟩ pre).current = none)
    (hb : ∀ l ∈ ls, startsWith l "BEGIN:VEVENT".toList = false) :
    scanEvents tza text2 = scanEvents tza text ∧ parseICS tza now text2 = parseICS tza now text := by
  have h : scanEvents tza text2 = scanEvents tza text := by
    rw [scanEvents_eq, scanEvents_eq, h1, h2, scanFrom_append, scanFrom_append, scanFrom_append,
      scanFrom_outside tza ls hb _ hc]
  exact ⟨h, parseICS_congr tza now _ _ h⟩

theorem lines_outside_blocks_ignored_witness :
    scanEvents 0
        ("BEGIN:VTIMEZONE\nDTSTART:19700101T000000\nRRULE:FREQ=YEARLY\nEND:VTIMEZONE\n" ++
          "BEGIN:VEVENT\nSUMMARY:a\nEND:VEVENT").toList =
      scanEvents 0 "BEGIN:VTIMEZONE\nEND:VTIMEZONE\nBEGIN:VEVENT\nSUMMARY:a\nEND:VEVENT".toList ∧
    parseICS 0 0
        ("BEGIN:VTIMEZONE\nDTSTART:19700101T000000\nRRULE:FREQ=YEARLY\nEND:VTIMEZONE\n" ++
          "BEGIN:VEVENT\nSUMMARY:a\nEND:VEVENT").toList =
      parseICS 0 0 "BEGIN:VTIMEZONE\nEND:VTIMEZONE\nBEGIN:VEVENT\nSUMMARY:a\nEND:VEVENT".toList :=
  lines_outside_blocks_ignored 0 0
    "BEGIN:VTIMEZONE\nEND:VTIMEZONE\nBEGIN:VEVENT\nSUMMARY:a\nEND:VEVENT".toList
    ("BEGIN:VTIMEZONE\nDTSTART:19700101T000000\nRRULE:FREQ=YEARLY\nEND:VTIMEZONE\n" ++
      "BEGIN:VEVENT\nSUMMARY:a\nEND:VEVENT").toList
    ["BEGIN:VTIMEZONE".toList]
    ["DTSTART:19700101T000000".toList, "RRULE:FREQ=YEARLY".toList]
    ["END:VTIMEZONE".toList, "BEGIN:VEVENT".toList, "SUMMARY:a".toList, "END:VEVENT".toList]
    (by decide) (by decide) (by decide) (by decide)

/-! ## Claims on line unfolding -/

theorem unfoldLines_three (c d e : Char) (rest : Str) :
    unfoldLines (c :: d :: e :: rest) =
      if c = '\n' ∧ (d = ' ' ∨ d = '\t') then unfoldLines (e :: rest)
      else if c = '\r' ∧ d = '\n' ∧ (e = ' ' ∨ e = '\t') then unfoldLines rest
      else c :: unfoldLines (d :: e :: rest) := by
  rw [unfoldLines]

theorem unfoldLines_two (c d : Char) :
    unfoldLines [c, d] = if c = '\n' ∧ (d = ' ' ∨ d = '\t') then [] else [c, d] := by
  rw [unfoldLines]

theorem unfoldLines_one (c : Char) : unfoldLines [c] = [c] := by
  rw [unfoldLines]

theorem unfoldLines_nil : unfoldLines [] = [] := by
  rw [unfoldLines]

/-- A character that is neither CR nor LF is copied by the unfolding, which
then goes on with the rest. -/
theorem unfoldLines_cons_plain (c : Char) (x : Str) (h1 : c ≠ '\r') (h2 : c ≠ '\n') :
    unfoldLines (c :: x) = c :: unfoldLines x := by
  rcases x with _ | ⟨d, _ | ⟨e, rest⟩⟩
  · rw [unfoldLines_one, unfoldLines_nil]
  · rw [unfoldLines_two, unfoldLines_one, if_neg (by simp [h2])]
  · rw [unfoldLines_three, if_neg (by simp [h2]), if_neg (by simp [h1])]

/-- Unfolding distributes over a concatenation whose first part does not
end with CR or LF: no match of `\r?\n[ \t]` can straddle the joint. -/
theorem unfoldLines_append (n : Nat) :
    ∀ a : Str, a.length ≤ n → (∀ c, a.getLast? = some c → c ≠ '\r' ∧ c ≠ '\n') →
      ∀ x, unfoldLines (a ++ x) = unfoldLines a ++ unfoldLines x := by
  induction n with
  | zero =>
    intro a ha _ x
    have : a = [] := List.eq_nil_of_length_eq_zero (by omega)
    subst this
    simp [unfoldLines_nil]
  | succ n ih =>
    intro a ha hlast x
    rcases a with _ | ⟨c, _ | ⟨d, _ | ⟨e, rest⟩⟩⟩
    · simp [unfoldLines_nil]
    · have hc := hlast c rfl
      rw [List.singleton_append, unfoldLines_cons_plain c x hc.1 hc.2, unfoldLines_one]
      rfl
    · have hd := hlast d rfl
      have hdx : unfoldLines (d :: x) = d :: unfoldLines x :=
        unfoldLines_cons_plain d x hd.1 hd.2
      rw [unfoldLines_two]
      rcases x with _ | ⟨e, rest⟩
      · simp [unfoldLines_two, unfoldLines_nil]
      · show unfoldLines (c :: d :: e :: rest) = _
        rw [unfoldLines_three]
        by_cases h1 : c = '\n' ∧ (d = ' ' ∨ d = '\t')
        · rw [if_pos h1, if_pos h1]; rfl
        · rw [if_neg h1, if_neg h1, if_neg (by simp [hd.2]), hdx]
          rfl
    · have hl1 : ∀ z, (e :: rest).getLast? = some z → z ≠ '\r' ∧ z ≠ '\n' := by
        intro z hz
        exact hlast z (by simpa [List.getLast?_cons_cons] using hz)
      have hl2 : ∀ z, (d :: e :: rest).getLast? = some z → z ≠ '\r' ∧ z ≠ '\n' := by
        intro z hz
        exact hlast z (by simpa [List.getLast?_cons_cons] using hz)
      have hl3 : ∀ z, rest.getLast? = some z → z ≠ '\r' ∧ z ≠ '\n' := by
        intro z hz
        rcases rest with _ | ⟨r, rs⟩
        · simp at hz
        · exact hlast z (by simpa [List.getLast?_cons_cons] using hz)
      simp only [List.length_cons] at ha
      show unfoldLines (c :: d :: e :: (rest ++ x)) = _
      rw [unfoldLines_three, unfoldLines_three]
      by_cases h1 : c = '\n' ∧ (d = ' ' ∨ d = '\t')
      · rw [if_pos h1, if_pos h1]
        exact ih (e :: rest) (by simp; omega) hl1 x
      · rw [if_neg h1, if_neg h1]
        by_cases h2 : c = '\r' ∧ d = '\n' ∧ (e = ' ' ∨ e = '\t')
        · rw [if_pos h2, if_pos h2]
          exact ih rest (by omega) hl3 x
        · rw [if_neg h2, if_neg h2]
          have := ih (d :: e :: rest) (by simp; omega) hl2 x
          simp only [List.cons_append] at this
          rw [this]
          rfl

theorem unfoldLines_fold (br : Str) (ws : Char) (b : Str)
    (hbr : br = ['\n'] ∨ br = ['\r', '\n']) (hws : ws = ' ' ∨ ws = '\t') :
    unfoldLines (br ++ ws :: b) = unfoldLines b := by
  rcases hbr with rfl | rfl
  · rcases b with _ | ⟨e, rest⟩
    · show unfoldLines ['\n', ws] = _
      rw [unfoldLines_two, if_pos ⟨rfl, hws⟩, unfoldLines_nil]
    · show unfoldLines ('\n' :: ws :: e :: rest) = _
      rw [unfoldLines_three, if_pos ⟨rfl, hws⟩]
  · show unfoldLines ('\r' :: '\n' :: ws :: b) = _
    rw [unfoldLines_three, if_neg (by decide), if_pos ⟨rfl, rfl, hws⟩]

/-- Claim C17, as stated, fails: an LF and a space inserted directly after
a lone CR inside a line form a CRLF fold, and the unfolding removes the CR
with it: the summary `a\rb` becomes `ab`. -/
theorem fold_after_carriage_return :
    (scanEvents 0 "BEGIN:VEVENT\nSUMMARY:a\rb\nEND:VEVENT".toList).map (·.summary) =
      [some "a\rb".toList] ∧
    (scanEvents 0 "BEGIN:VEVENT\nSUMMARY:a\r\n b\nEND:VEVENT".toList).map (·.summary) =
      [some "ab".toList] := by
  constructor <;> decide

/-- Claim C17, amended: inserting a line break (LF or CRLF) followed by one
space or tab at the start of the text or directly after a character that is
neither CR nor LF leaves the unfolded text, the scanned events and the
result of `parseICS` unchanged. -/
theorem fold_inserted_in_line (tza now : Int) (a b br : Str) (ws : Char)
    (hbr : br = ['\n'] ∨ br = ['\r', '\n']) (hws : ws = ' ' ∨ ws = '\t')
    (ha : ∀ c, a.getLast? = some c → c ≠ '\r' ∧ c ≠ '\n') :
    unfoldLines (a ++ br ++ ws :: b) = unfoldLines (a ++ b) ∧
    scanEvents tza (a ++ br ++ ws :: b) = scanEvents tza (a ++ b) ∧
    parseICS tza now (a ++ br ++ ws :: b) = parseICS tza now (a ++ b) := by
  have h : unfoldLines (a ++ br ++ ws :: b) = unfoldLines (a ++ b) := by
    rw [List.append_assoc, unfoldLines_append a.length a le_rfl ha,
      unfoldLines_append a.length a le_rfl ha, unfoldLines_fold br ws b hbr hws]
  have h2 : scanEvents tza (a ++ br ++ ws :: b) = scanEvents tza (a ++ b) := by
    unfold scanEvents
    rw [h]
  exact ⟨h, h2, parseICS_congr tza now _ _ h2⟩

theorem fold_inserted_in_line_witness :
    unfoldLines ("BEGIN:VEVENT\nSUMMARY:Hel".toList ++ ['\n'] ++ ' ' :: "lo\nEND:VEVENT".toList) =
      unfoldLines ("BEGIN:VEVENT\nSUMMARY:Hel".toList ++ "lo\nEND:VEVENT".toList) ∧
    scanEvents 0 "BEGIN:VEVENT\nSUMMARY:Hel\n lo\nEND:VEVENT".toList =
      [⟨some "Hello".toList, none, none, false, none, none⟩] :=
  ⟨(fold_inserted_in_line 0 0 "BEGIN:VEVENT\nSUMMARY:Hel".toList "lo\nEND:VEVENT".toList ['\n'] ' '
      (Or.inl rfl) (Or.inl rfl) (by decide)).1, by decide⟩

/-! ## Claims on the `DTSTART` value, on order and on restarted blocks -/

theorem splitOn_no_sep (sep : Char) (v : Str) (h : sep ∉ v) : splitOn sep v = [v] := by
  induction v with
  | nil => rfl
  | cons c cs ih =>
    have hc : c ≠ sep := fun e => h (e ▸ List.mem_cons_self _ _)
    have hcs : sep ∉ cs := fun m => h (List.mem_cons_of_mem _ m)
    simp [splitOn, hc, ih hcs, consHead]

theorem splitOn_append_sep (sep : Char) (pre rest : Str) (h : sep ∉ pre) :
    splitOn sep (pre ++ sep :: rest) = pre :: splitOn sep rest := by
  induction pre with
  | nil => simp [splitOn]
  | cons c cs ih =>
    have hc : c ≠ sep := fun e => h (e ▸ List.mem_cons_self _ _)
    have hcs : sep ∉ cs := fun m => h (List.mem_cons_of_mem _ m)
    simp [splitOn, hc, ih hcs, consHead]

/-- Claim C21, as stated, fails: on the line `DTSTART:20250101:junk` the
value that is classified is `20250101`, and the record gets the all-day date
1 January 2025. -/
theorem dtstart_second_colon_cuts_value :
    scanDtstart 0 Event.fresh "DTSTART:20250101:junk".toList =
      ⟨none, some ⟨some 1735689600000⟩, none, true, none, none⟩ ∧
    (splitOn ':' "DTSTART:20250101:junk".toList).get? 1 = some "20250101".toList := by
  constructor <;> decide

/-- Claim C21, amended: for a line with a first colon, the value that is
classified is the text between the first and the second colon (all the text
after the first colon when there is no second), trimmed; what follows a
second colon is ignored, and an empty value leaves the record as it is. -/
theorem scanDtstart_value (tza : Int) (cur : Event) (pre v rest : Str)
    (hpre : ':' ∉ pre) (hv : ':' ∉ v) :
    scanDtstart tza cur (pre ++ ':' :: v) =
      (if v = [] then cur
       else ⟨cur.summary, (classifyValue tza (trim v)).1, cur.rrule,
        (classifyValue tza (trim v)).2.getD cur.isAllDay, cur.recurrenceInterval,
        cur.recurrenceUnit⟩) ∧
    scanDtstart tza cur (pre ++ ':' :: v ++ ':' :: rest) = scanDtstart tza cur (pre ++ ':' :: v) := by
  have h1 : (splitOn ':' (pre ++ ':' :: v)).get? 1 = some v := by
    rw [splitOn_append_sep ':' pre v hpre, splitOn_no_sep ':' v hv]
    rfl
  have h2 : (splitOn ':' (pre ++ ':' :: v ++ ':' :: rest)).get? 1 = some v := by
    rw [List.append_assoc, List.cons_append, splitOn_append_sep ':' pre _ hpre,
      splitOn_append_sep ':' v rest hv]
    rfl
  constructor
  · unfold scanDtstart
    rw [h1]
  · unfold scanDtstart
    rw [h1, h2]

theorem scanDtstart_value_witness :
    scanDtstart 0 Event.fresh ("DTSTART;VALUE=DATE".toList ++ ':' :: "20250310".toList) =
      (if "20250310".toList = [] then Event.fresh
       else ⟨none, (classifyValue 0 (trim "20250310".toList)).1, none,
        (classifyValue 0 (trim "20250310".toList)).2.getD false, none, none⟩) ∧
    scanDtstart 0 Event.fresh
        ("DTSTART;VALUE=DATE".toList ++ ':' :: "20250310".toList ++ ':' :: "junk".toList) =
      scanDtstart 0 Event.fresh ("DTSTART;VALUE=DATE".toList ++ ':' :: "20250310".toList) :=
  scanDtstart_value 0 Event.fresh "DTSTART;VALUE=DATE".toList "20250310".toList "junk".toList
    (by decide) (by decide)

theorem scanDtstart_congr (tza : Int) (cur : Event) (a b : Str)
    (h : (splitOn ':' a).get? 1 = (splitOn ':' b).get? 1) :
    scanDtstart tza cur a = scanDtstart tza cur b := by
  unfold scanDtstart
  rw [h]

/-- Claim C22: for every parameter text `p` without a colon and every value
`v`, the line `DTSTART;p:v` has the same effect on the scanning state as the
line `DTSTART:v`: same date, same all-day flag. -/
theorem dtstart_parameters_ignored (tza : Int) (st : ScanState) (p v : Str) (hp : ':' ∉ p) :
    scanLine tza st ("DTSTART;".toList ++ p ++ ':' :: v) =
      scanLine tza st ("DTSTART:".toList ++ v) := by
  have h1 : (splitOn ':' ("DTSTART;".toList ++ p ++ ':' :: v)).get? 1 =
      (splitOn ':' ("DTSTART:".toList ++ v)).get? 1 := by
    have hp2 : ':' ∉ "DTSTART;".toList ++ p := by
      intro hm
      rcases List.mem_append.mp hm with h | h
      · revert h; decide
      · exact hp h
    rw [splitOn_append_sep ':' _ v hp2]
    have : "DTSTART:".toList ++ v = "DTSTART".toList ++ ':' :: v := by simp
    rw [this, splitOn_append_sep ':' _ v (by decide)]
    rfl
  have hd := scanDtstart_congr tza
  rcases st with ⟨evs, cur⟩
  cases cur with
  | none => simp [scanLine, startsWith]
  | some c =>
    have := hd c _ _ h1
    simp [scanLine, startsWith] at this ⊢
    exact this

theorem dtstart_parameters_ignored_witness :
    scanLine 0 ⟨[], some Event.fresh⟩ ("DTSTART;".toList ++ "VALUE=DATE".toList ++
        ':' :: "20250310".toList) =
      scanLine 0 ⟨[], some Event.fresh⟩ ("DTSTART:".toList ++ "20250310".toList) :=
  dtstart_parameters_ignored 0 ⟨[], some Event.fresh⟩ "VALUE=DATE".toList "20250310".toList
    (by decide)

theorem filterExcept_sublist (p : Event → Except Str Bool) :
    ∀ (l kept : List Event), filterExcept p l = .ok kept → kept.Sublist l := by
  intro l
  induction l with
  | nil =>
    intro kept h
    simp [filterExcept] at h
    subst h
    exact List.Sublist.slnil
  | cons ev rest ih =>
    intro kept h
    unfold filterExcept at h
    cases hp : p ev with
    | error e => rw [hp] at h; simp at h
    | ok keep =>
      rw [hp] at h
      cases hr : filterExcept p rest with
      | error e => rw [hr] at h; simp at h
      | ok k2 =>
        rw [hr] at h
        simp only [Except.ok.injEq] at h
        subst h
        have := ih k2 hr
        cases keep
        · simpa using this.cons ev
        · simpa using this.cons₂ ev

/-- The events returned by `parseICS` are the mapped images of a sublist of
the scanned events. -/
theorem parseICS_kept (tza now : Int) (text : Str) (evs : List Event)
    (h : parseICS tza now text = .ok evs) :
    ∃ kept : List Event, kept.Sublist (scanEvents tza text) ∧ evs = kept.map mapEvent := by
  unfold parseICS at h
  simp only [] at h
  cases hf : filterExcept (filterEvent ⟨some now⟩ (todayOf tza now)) (scanEvents tza text) with
  | error e => rw [hf] at h; simp at h
  | ok kept =>
    rw [hf] at h
    simp only [Except.ok.injEq] at h
    exact ⟨kept, filterExcept_sublist _ _ _ hf, h.symm⟩

theorem scanLine_begin (tza : Int) (st : ScanState) (line : Str)
    (h : startsWith line "BEGIN:VEVENT".toList = true) :
    scanLine tza st line = ⟨st.events, some Event.fresh⟩ := by
  unfold scanLine
  rw [if_pos h]

theorem scanLine_end (tza : Int) (st : ScanState) (line : Str)
    (hb : startsWith line "BEGIN:VEVENT".toList = false)
    (he : startsWith line "END:VEVENT".toList = true) :
    scanLine tza st line = ⟨st.events ++ st.current.toList, none⟩ := by
  rcases st with ⟨evs, cur⟩
  unfold scanLine
  rw [hb, if_pos he]
  cases cur <;> simp

theorem scanLine_events_grow (tza : Int) (st : ScanState) (line : Str) :
    st.events <+: (scanLine tza st line).events := by
  by_cases hb : startsWith line "BEGIN:VEVENT".toList = true
  · rw [scanLine_begin tza st line hb]
  · have hb2 : startsWith line "BEGIN:VEVENT".toList = false := by simpa using hb
    by_cases he : startsWith line "END:VEVENT".toList = true
    · rw [scanLine_end tza st line hb2 he]
      exact List.prefix_append _ _
    · rw [scanLine_events tza st line (by simpa using he)]

theorem scanFrom_events_grow (tza : Int) (ls : List Str) (st : ScanState) :
    st.events <+: (scanFrom tza st ls).events := by
  induction ls generalizing st with
  | nil => exact List.prefix_refl _
  | cons l ls ih =>
    rw [scanFrom_cons]
    exact (scanLine_events_grow tza st l).trans (ih _)

/-- Claim C23: whenever `parseICS` returns events, they are the mapped
images of a sublist of the closed blocks, kept in their order, each block
used at most once; and the closed blocks are in source order: the events
scanned from any leading part of the lines are a prefix of the events of the
whole text. -/
theorem parseICS_keeps_order (tza now : Int) (text : Str) (evs : List Event)
    (h : parseICS tza now text = .ok evs) :
    evs.Sublist ((scanEvents tza text).map mapEvent) ∧
    (∃ kept : List Event, kept.Sublist (scanEvents tza text) ∧ evs = kept.map mapEvent) ∧
    (∀ pre post, linesOf text = pre ++ post →
      (scanFrom tza ⟨[], none⟩ pre).events <+: scanEvents tza text) := by
  obtain ⟨kept, hs, rfl⟩ := parseICS_kept tza now text evs h
  refine ⟨hs.map mapEvent, ⟨kept, hs, rfl⟩, fun pre post hl => ?_⟩
  rw [scanEvents_eq, hl, scanFrom_append]
  exact scanFrom_events_grow tza post _

theorem parseICS_keeps_order_witness :
    [(⟨some "b".toList, none, none, false, none, none⟩ : Event)].Sublist
      ((scanEvents 0 ("BEGIN:VEVENT\nSUMMARY:a\nDTSTART:20200101\nEND:VEVENT\n" ++
        "BEGIN:VEVENT\nSUMMARY:b\nEND:VEVENT").toList).map mapEvent) :=
  (parseICS_keeps_order 0 1741597200000
    ("BEGIN:VEVENT\nSUMMARY:a\nDTSTART:20200101\nEND:VEVENT\n" ++
      "BEGIN:VEVENT\nSUMMARY:b\nEND:VEVENT").toList
    [⟨some "b".toList, none, none, false, none, none⟩] rfl).1

theorem startsWith_end_not_begin (l : Str) (h : startsWith l "END:VEVENT".toList = true) :
    startsWith l "BEGIN:VEVENT".toList = false := by
  rcases l with _ | ⟨c, cs⟩
  · revert h; decide
  · by_cases hc : c = 'E'
    · subst hc
      simp [startsWith, List.isPrefixOf]
    · exfalso
      apply hc
      simp [startsWith] at h
      exact h.1.symm

/-- Inside an open record, lines that start with neither marker change only
the record, and the record they lead to does not depend on the events
emitted so far. -/
theorem scanFrom_body (tza : Int) (body : List Str)
    (hb : ∀ l ∈ body, startsWith l "BEGIN:VEVENT".toList = false ∧
      startsWith l "END:VEVENT".toList = false) :
    ∀ c : Event, ∃ c2 : Event, ∀ evs, scanFrom tza ⟨evs, some c⟩ body = ⟨evs, some c2⟩ := by
  induction body with
  | nil => exact fun c => ⟨c, fun _ => rfl⟩
  | cons l ls ih =>
    intro c
    obtain ⟨h1, h2⟩ := hb l (List.mem_cons_self _ _)
    have hstep : ∃ c1 : Event, ∀ evs, scanLine tza ⟨evs, some c⟩ l = ⟨evs, some c1⟩ := by
      unfold scanLine
      rw [h1, h2]
      simp only [Bool.false_eq_true, if_false]
      split_ifs
      · exact ⟨_, fun _ => rfl⟩
      · exact ⟨_, fun _ => rfl⟩
      · exact ⟨_, fun _ => rfl⟩
      · exact ⟨c, fun _ => rfl⟩
    obtain ⟨c1, hc1⟩ := hstep
    obtain ⟨c2, hc2⟩ := ih (fun x hx => hb x (List.mem_cons_of_mem _ hx)) c1
    exact ⟨c2, fun evs => by rw [scanFrom_cons, hc1, hc2]⟩

theorem scanLine_events_length (tza : Int) (st : ScanState) (line : Str) :
    (scanLine tza st line).events.length ≤
      st.events.length + (if startsWith line "END:VEVENT".toList = true then 1 else 0) := by
  by_cases hb : startsWith line "BEGIN:VEVENT".toList = true
  · rw [scanLine_begin tza st line hb]
    simp
  · have hb2 : startsWith line "BEGIN:VEVENT".toList = false := by simpa using hb
    by_cases he : startsWith line "END:VEVENT".toList = true
    · rw [scanLine_end tza st line hb2 he, if_pos he]
      cases st.current <;> simp
    · rw [scanLine_events tza st line (by simpa using he), if_neg he]
      simp

theorem scanFrom_events_length (tza : Int) (ls : List Str) (st : ScanState) :
    (scanFrom tza st ls).events.length ≤
      st.events.length + ls.countP (fun l => startsWith l "END:VEVENT".toList) := by
  induction ls generalizing st with
  | nil => simp [scanFrom]
  | cons l ls ih =>
    rw [scanFrom_cons]
    have h1 := ih (scanLine tza st l)
    have h2 := scanLine_events_length tza st l
    rw [List.countP_cons]
    omega

/-- Claim C30: a line that starts with `BEGIN:VEVENT` restarts the record
whatever was open: after it, lines that start with neither marker, and then
a line that starts with `END:VEVENT`, exactly one event is emitted, and it
is the record built from a fresh one by the lines after that `BEGIN` line
alone, whatever record was open before; the number of scanned events, and so
of returned events, is at most the number of lines that start with
`END:VEVENT`. -/
theorem begin_restarts_record (tza : Int) (b e : Str) (body : List Str)
    (hb : startsWith b "BEGIN:VEVENT".toList = true)
    (he : startsWith e "END:VEVENT".toList = true)
    (hbody : ∀ l ∈ body, startsWith l "BEGIN:VEVENT".toList = false ∧
      startsWith l "END:VEVENT".toList = false) :
    (∃ ev, (scanFrom tza ⟨[], some Event.fresh⟩ body).current = some ev ∧
      ∀ st, scanFrom tza st (b :: body ++ [e]) = ⟨st.events ++ [ev], none⟩) ∧
    (∀ text, (scanEvents tza text).length ≤
      (linesOf text).countP (fun l => startsWith l "END:VEVENT".toList)) ∧
    (∀ now text evs, parseICS tza now text = .ok evs →
      evs.length ≤ (linesOf text).countP (fun l => startsWith l "END:VEVENT".toList)) := by
  have hcount : ∀ text, (scanEvents tza text).length ≤
      (linesOf text).countP (fun l => startsWith l "END:VEVENT".toList) := by
    intro text
    have := scanFrom_events_length tza (linesOf text) ⟨[], none⟩
    simpa [scanEvents_eq] using this
  refine ⟨?_, hcount, ?_⟩
  · obtain ⟨c2, hc2⟩ := scanFrom_body tza body hbody Event.fresh
    refine ⟨c2, by rw [hc2], fun st => ?_⟩
    rw [List.cons_append, scanFrom_cons, scanLine_begin tza st b hb, scanFrom_append, hc2]
    show scanLine tza ⟨st.events, some c2⟩ e = _
    rw [scanLine_end tza _ e (startsWith_end_not_begin e he) he]
    rfl
  · intro now text evs h
    obtain ⟨kept, hs, rfl⟩ := parseICS_kept tza now text evs h
    rw [List.length_map]
    exact le_trans hs.length_le (hcount text)

theorem begin_restarts_record_witness :
    scanEvents 0 ("BEGIN:VEVENT\nSUMMARY:old\nDTSTART:20250101\nRRULE:FREQ=DAILY\n" ++
        "BEGIN:VEVENT\nSUMMARY:new\nEND:VEVENT").toList =
      [⟨some "new".toList, none, none, false, none, none⟩] ∧
    (∃ ev, (scanFrom 0 ⟨[], some Event.fresh⟩ ["SUMMARY:new".toList]).current = some ev ∧
      ∀ st, scanFrom 0 st ("BEGIN:VEVENT".toList :: ["SUMMARY:new".toList] ++
        ["END:VEVENT".toList]) = ⟨st.events ++ [ev], none⟩) :=
  ⟨by decide, (begin_restarts_record 0 "BEGIN:VEVENT".toList "END:VEVENT".toList
    ["SUMMARY:new".toList] (by decide) (by decide) (by decide)).1⟩

/-! ## Claim on the monthly recurrence -/

theorem MakeDay_norm (y m d : Int) : MakeDay y m d = MakeDay (y + m / 12) (m % 12) d := by
  unfold MakeDay
  simp only []
  have e1 : m % 12 / 12 = 0 := by omega
  have e2 : m % 12 % 12 = m % 12 := by omega
  rw [e1, e2, add_zero]

theorem MakeDay_shift (y m i d : Int) :
    MakeDay (y + m / 12) (m % 12 + i) d = MakeDay y (m + i) d := by
  unfold MakeDay
  simp only []
  have e1 : y + m / 12 + (m % 12 + i) / 12 = y + (m + i) / 12 := by omega
  have e2 : (m % 12 + i) % 12 = (m + i) % 12 := by omega
  rw [e1, e2]

theorem daysInMonth_ge (y m : Int) : 28 ≤ daysInMonth y m := by
  unfold daysInMonth
  split_ifs <;> omega

theorem MakeDay_succ_month_le (y k d : Int) : MakeDay y (k + 1) d ≤ MakeDay y k d + 31 := by
  unfold MakeDay
  simp only []
  by_cases h : k % 12 = 11
  · have e1 : (k + 1) / 12 = k / 12 + 1 := by omega
    have e2 : (k + 1) % 12 = 0 := by omega
    rw [e1, e2, h, ← add_assoc, DayFromYear_succ]
    rcases DaysInYear_cases (y + k / 12) with ⟨hl, hd⟩ | ⟨hl, hd⟩ <;>
      rw [hd, hl] <;> simp [daysBeforeMonth] <;> omega
  · have e1 : (k + 1) / 12 = k / 12 := by omega
    have e2 : (k + 1) % 12 = k % 12 + 1 := by omega
    rw [e1, e2]
    have hr : 0 ≤ k % 12 ∧ k % 12 < 11 := by omega
    generalize k % 12 = r at *
    have hl : (if isLeapYear (y + k / 12) = true then (1 : Int) else 0) = 0 ∨
        (if isLeapYear (y + k / 12) = true then (1 : Int) else 0) = 1 := by
      cases isLeapYear (y + k / 12) <;> simp
    generalize (if isLeapYear (y + k / 12) = true then (1 : Int) else 0) = l at *
    unfold daysBeforeMonth
    omega

theorem MakeDay_add_month_le (y m d : Int) (n : Nat) :
    MakeDay y (m + n) d ≤ MakeDay y m d + 31 * n := by
  induction n with
  | zero => simp
  | succ n ih =>
    have := MakeDay_succ_month_le y (m + n) d
    have e : m + ((n + 1 : Nat) : Int) = m + n + 1 := by push_cast; ring
    rw [e]
    push_cast
    omega

/-- The calendar fields of the instant `i` months after `t`, for a day of
the month that every month has. -/
theorem addMonths_fields (t i : Int) (h : DateFromTime t ≤ 28) :
    YearFromTime (addMonths t i) = YearFromTime t + (MonthFromTime t + i) / 12 ∧
    MonthFromTime (addMonths t i) = (MonthFromTime t + i) % 12 ∧
    DateFromTime (addMonths t i) = DateFromTime t ∧
    TimeWithinDay (addMonths t i) = TimeWithinDay t := by
  have hd := DateFromTime_bounds t
  have hday : Day (addMonths t i) =
      MakeDay (YearFromTime t + (MonthFromTime t + i) / 12) ((MonthFromTime t + i) % 12)
        (DateFromTime t) := by
    rw [← MakeDay_norm]
    unfold addMonths
    generalize MakeDay (YearFromTime t) (MonthFromTime t + i) (DateFromTime t) = day
    unfold MakeDate Day TimeWithinDay msPerDay
    omega
  have hf := fields_of_MakeDay _ _ _ (addMonths t i) ⟨by omega, by omega⟩
    ⟨hd.1, le_trans h (daysInMonth_ge _ _)⟩ hday
  refine ⟨hf.1, hf.2.1, hf.2.2, ?_⟩
  unfold addMonths
  generalize MakeDay (YearFromTime t) (MonthFromTime t + i) (DateFromTime t) = day
  unfold MakeDate TimeWithinDay msPerDay
  omega

theorem addMonths_zero (t : Int) : addMonths t 0 = t := by
  unfold addMonths
  rw [add_zero, MakeDay_fields]
  unfold MakeDate Day TimeWithinDay msPerDay
  omega

theorem addMonths_add (t i j : Int) (h : DateFromTime t ≤ 28) :
    addMonths (addMonths t i) j = addMonths t (i + j) := by
  obtain ⟨h1, h2, h3, h4⟩ := addMonths_fields t i h
  have e : addMonths (addMonths t i) j =
      MakeDate (MakeDay (YearFromTime (addMonths t i)) (MonthFromTime (addMonths t i) + j)
        (DateFromTime (addMonths t i))) (TimeWithinDay (addMonths t i)) := rfl
  rw [e, h1, h2, h3, h4, MakeDay_shift, add_assoc]
  rfl

theorem monthIndex_addMonths (t i : Int) (h : DateFromTime t ≤ 28) :
    monthIndex (addMonths t i) = monthIndex t + i := by
  obtain ⟨h1, h2, -, -⟩ := addMonths_fields t i h
  unfold monthIndex
  rw [h1, h2]
  omega

theorem addMonths_step (t i : Int) (n : Nat) :
    addMonths t i + 28 * n * msPerDay ≤ addMonths t (i + n) ∧
    addMonths t (i + n) ≤ addMonths t i + 31 * n * msPerDay := by
  have h1 := MakeDay_add_month (YearFromTime t) (MonthFromTime t + i) (DateFromTime t) n
  have h2 := MakeDay_add_month_le (YearFromTime t) (MonthFromTime t + i) (DateFromTime t) n
  unfold addMonths
  rw [← add_assoc]
  generalize MakeDay (YearFromTime t) (MonthFromTime t + i + n) (DateFromTime t) = a at *
  generalize MakeDay (YearFromTime t) (MonthFromTime t + i) (DateFromTime t) = b at *
  unfold MakeDate msPerDay
  constructor <;> omega

/-- The loop follows a sequence `f` of time values: when each advance from
`f j` below `now` gives `f (j + 1)` and `f k` is the first value not below
`now`, the loop ends with `f k` after `k` advances. -/
theorem advanceLoop_seq (now : Int) (add : JSDate → JSDate) :
    ∀ (k : Nat) (f : Nat → Int),
      (∀ j, j < k → f j < now ∧ add ⟨some (f j)⟩ = ⟨some (f (j + 1))⟩) → now ≤ f k →
      ∀ fuel, k ≤ fuel → advanceLoop ⟨some now⟩ add fuel ⟨some (f 0)⟩ = some ⟨some (f k)⟩ := by
  intro k
  induction k with
  | zero =>
    intro f _ h0 fuel _
    exact advanceLoop_done _ _ _ _ (by simp [dateLT]; omega)
  | succ k ih =>
    intro f hstep hk fuel hf
    obtain ⟨fuel2, rfl⟩ : ∃ f2, fuel = f2 + 1 := ⟨fuel - 1, by omega⟩
    obtain ⟨h0, ha⟩ := hstep 0 (by omega)
    have hlt : dateLT ⟨some (f 0)⟩ ⟨some now⟩ = true := by simp [dateLT]; exact h0
    simp only [advanceLoop, hlt, if_true]
    rw [ha]
    exact ih (fun j => f (j + 1)) (fun j hj => hstep (j + 1) (by omega)) hk fuel2 (by omega)

/-- Claim C29, as stated, fails: with unit month, the positive interval
4000000 and a start on the 10th of a month before `now`, the first advance
leaves the range of time values and `getNextOccurrence` returns an Invalid
Date. -/
theorem getNextOccurrence_month_huge_interval :
    DateFromTime 1741597200000 = 10 ∧
    getNextOccurrence 1 1743465600000 (some ⟨some 1741597200000⟩) (some (some 4000000))
      "month".toList = some (some ⟨none⟩) := by
  decide

/-- Claim C29, amended: for unit month, a positive interval `n`, a valid
start whose UTC day of the month is at most 28 and a `now` such that
`n * 31` days past `now` is still a valid time value, `getNextOccurrence`
returns the instant `k * n` calendar months after the start, where `k` is
the least natural number for which that instant is not earlier than `now`;
`k` advances of the loop suffice. The instant `i` months after the start has
the UTC day of the month and the UTC time of day of the start, and its month
count is that of the start plus `i`. -/
theorem getNextOccurrence_month (now start n : Int) (hd : DateFromTime start ≤ 28)
    (hn : 0 < n) (hs : -8640000000000000 ≤ start)
    (hrange : now + n * 31 * 86400000 ≤ 8640000000000000) :
    ∃ k : Nat,
      (∀ fuel, k ≤ fuel →
        getNextOccurrence fuel now (some ⟨some start⟩) (some (some n)) "month".toList =
          some (some ⟨some (addMonths start (k * n))⟩)) ∧
      now ≤ addMonths start (k * n) ∧
      (∀ j : Nat, j < k → addMonths start (j * n) < now) ∧
      addMonths start 0 = start ∧
      ∀ i : Int, monthIndex (addMonths start i) = monthIndex start + i ∧
        DateFromTime (addMonths start i) = DateFromTime start ∧
        TimeWithinDay (addMonths start i) = TimeWithinDay start := by
  obtain ⟨m, rfl⟩ : ∃ m : Nat, n = m := ⟨n.toNat, by omega⟩
  have hlow : ∀ j : Nat, start + 28 * (j * m : Nat) * msPerDay ≤ addMonths start ((j : Int) * m) := by
    intro j
    have := (addMonths_step start 0 (j * m)).1
    rw [addMonths_zero, zero_add] at this
    push_cast at this ⊢
    exact this
  have hex : ∃ k : Nat, now ≤ addMonths start ((k : Int) * m) := by
    refine ⟨(now - start).toNat, ?_⟩
    have h1 := hlow (now - start).toNat
    have h2 : ((now - start).toNat : Int) ≤ (((now - start).toNat * m : Nat) : Int) := by
      have : 1 ≤ m := by omega
      exact_mod_cast Nat.le_mul_of_pos_right _ this
    have h3 : now - start ≤ ((now - start).toNat : Int) := Int.self_le_toNat _
    unfold msPerDay at h1
    omega
  refine ⟨Nat.find hex, ?_, Nat.find_spec hex, fun j hj => ?_, addMonths_zero start, fun i => ?_⟩
  · intro fuel hf
    have hn0 : intervalOrOne (some (some (m : Int))) = m := by
      simp only [intervalOrOne]
      rw [if_neg (by omega)]
    have hadd : addStep (m : Int) "month".toList =
        some (fun next => setUTCMonth next ((getUTCMonth next).map (· + (m : Int)))) := rfl
    simp only [getNextOccurrence, hn0, hadd]
    have hseq := advanceLoop_seq now
      (fun next => setUTCMonth next ((getUTCMonth next).map (· + (m : Int)))) (Nat.find hex)
      (fun j => addMonths start ((j : Int) * m)) ?_ (Nat.find_spec hex) fuel hf
    · simp only [Nat.cast_zero, zero_mul, addMonths_zero] at hseq
      rw [hseq]
      rfl
    · intro j hj
      have hjlt : addMonths start ((j : Int) * m) < now := by
        have := Nat.find_min hex hj
        omega
      refine ⟨hjlt, ?_⟩
      have e1 : setUTCMonth ⟨some (addMonths start ((j : Int) * m))⟩
          ((getUTCMonth ⟨some (addMonths start ((j : Int) * m))⟩).map (· + (m : Int))) =
          ⟨TimeClip (addMonths (addMonths start ((j : Int) * m)) m)⟩ := rfl
      have e2 : ((j + 1 : Nat) : Int) * m = (j : Int) * m + m := by push_cast; ring
      show setUTCMonth _ _ = (⟨some (addMonths start (((j + 1 : Nat) : Int) * m))⟩ : JSDate)
      rw [e1, addMonths_add _ _ _ hd, e2]
      have hst := addMonths_step start ((j : Int) * m) m
      have hl := hlow j
      have hp : (0 : Int) ≤ 28 * ((j * m : Nat) : Int) * msPerDay := by
        unfold msPerDay
        positivity
      unfold msPerDay at hst
      unfold TimeClip
      rw [if_neg (by omega)]
  · have := Nat.find_min hex hj
    omega
  · obtain ⟨-, -, h3, h4⟩ := addMonths_fields start i hd
    exact ⟨monthIndex_addMonths start i hd, h3, h4⟩

theorem getNextOccurrence_month_witness :
    ∃ k : Nat,
      (∀ fuel, k ≤ fuel →
        getNextOccurrence fuel 1743465600000 (some ⟨some 1741597200000⟩) (some (some 1))
          "month".toList = some (some ⟨some (addMonths 1741597200000 (k * 1))⟩)) ∧
      1743465600000 ≤ addMonths 1741597200000 (k * 1) ∧
      (∀ j : Nat, j < k → addMonths 1741597200000 (j * 1) < 1743465600000) ∧
      addMonths 1741597200000 0 = 1741597200000 ∧
      ∀ i : Int, monthIndex (addMonths 1741597200000 i) = monthIndex 1741597200000 + i ∧
        DateFromTime (addMonths 1741597200000 i) = DateFromTime 1741597200000 ∧
        TimeWithinDay (addMonths 1741597200000 i) = TimeWithinDay 1741597200000 :=
  getNextOccurrence_month 1743465600000 1741597200000 1 (by decide) (by decide) (by decide)
    (by decide)

/-! ## Claim on the due date of an imported event -/

theorem setUTCMonth_sub (t : Int) (n : Nat) :
    ∃ u, setUTCMonth ⟨some t⟩ ((getUTCMonth ⟨some t⟩).map (· + -(n : Int))) = ⟨TimeClip u⟩ ∧
      u + (n : Int) * 28 * msPerDay ≤ t := by
  refine ⟨MakeDate (MakeDay (YearFromTime t) (MonthFromTime t + -(n : Int)) (DateFromTime t))
    (TimeWithinDay t), rfl, ?_⟩
  have h1 := MakeDay_add_month (YearFromTime t) (MonthFromTime t + -(n : Int)) (DateFromTime t) n
  have e : MonthFromTime t + -(n : Int) + n = MonthFromTime t := by ring
  rw [e, MakeDay_fields] at h1
  generalize MakeDay (YearFromTime t) (MonthFromTime t + -(n : Int)) (DateFromTime t) = day at *
  unfold MakeDate Day TimeWithinDay msPerDay at *
  omega

theorem setUTCFullYear_sub (t : Int) (n : Nat) :
    ∃ u, setUTCFullYear ⟨some t⟩ ((getUTCFullYear ⟨some t⟩).map (· + -(n : Int))) =
        ⟨TimeClip u⟩ ∧
      u + (n : Int) * 365 * msPerDay ≤ t := by
  refine ⟨MakeDate (MakeDay (YearFromTime t + -(n : Int)) (MonthFromTime t) (DateFromTime t))
    (TimeWithinDay t), rfl, ?_⟩
  have h1 := MakeDay_add_year (YearFromTime t + -(n : Int)) (MonthFromTime t) (DateFromTime t)
    (month_bounds _ _) n
  have e : YearFromTime t + -(n : Int) + n = YearFromTime t := by ring
  rw [e, MakeDay_fields] at h1
  generalize MakeDay (YearFromTime t + -(n : Int)) (MonthFromTime t) (DateFromTime t) = day at *
  unfold MakeDate Day TimeWithinDay msPerDay at *
  omega

/-- One advance by a negative interval moves a time value back by at least
one day, before `TimeClip`. -/
theorem addStep_regress (n : Int) (hn : n < 0) (unit : Str)
    (hu : unit = "day".toList ∨ unit = "week".toList ∨ unit = "month".toList ∨
      unit = "year".toList) :
    ∃ add, addStep n unit = some add ∧
      ∀ t, ∃ u, add ⟨some t⟩ = ⟨TimeClip u⟩ ∧ u + msPerDay ≤ t := by
  obtain ⟨k, rfl, hk⟩ : ∃ k : Nat, n = -(k : Int) ∧ 1 ≤ k := ⟨(-n).toNat, by omega, by omega⟩
  have hk2 : (1 : Int) ≤ k := by exact_mod_cast hk
  rcases hu with rfl | rfl | rfl | rfl
  · refine ⟨_, rfl, fun t => ⟨t + -(k : Int) * msPerDay, setUTCDate_add t (-(k : Int)), ?_⟩⟩
    unfold msPerDay
    omega
  · refine ⟨_, rfl, fun t => ⟨t + -(k : Int) * 7 * msPerDay, setUTCDate_add t (-(k : Int) * 7), ?_⟩⟩
    unfold msPerDay
    omega
  · refine ⟨_, rfl, fun t => ?_⟩
    obtain ⟨u, h1, h2⟩ := setUTCMonth_sub t k
    refine ⟨u, h1, ?_⟩
    unfold msPerDay at *
    omega
  · refine ⟨_, rfl, fun t => ?_⟩
    obtain ⟨u, h1, h2⟩ := setUTCFullYear_sub t k
    refine ⟨u, h1, ?_⟩
    unfold msPerDay at *
    omega

/-- The loop ends when each advance moves the time value back by at least
`δ`: after at most `k + 1` advances the value has left the range of time
values and is an Invalid Date, which is not before `now`. -/
theorem advanceLoop_terminates_back (now δ : Int) (hδ : 0 < δ) (add : JSDate → JSDate)
    (hp : ∀ t, ∃ u, add ⟨some t⟩ = ⟨TimeClip u⟩ ∧ u + δ ≤ t) :
    ∀ (k : Nat) (s : JSDate), (∀ t, s.time = some t → t + 8640000000000000 < k * δ) →
      ∃ r, dateLT r ⟨some now⟩ = false ∧
        ∀ fuel, k + 1 ≤ fuel → advanceLoop ⟨some now⟩ add fuel s = some r := by
  intro k
  induction k with
  | zero =>
    intro s hs
    by_cases hlt : dateLT s ⟨some now⟩ = false
    · exact ⟨s, hlt, fun fuel _ => advanceLoop_done _ _ _ _ hlt⟩
    · have hlt2 : dateLT s ⟨some now⟩ = true := by simpa using hlt
      rcases s with ⟨_ | t⟩
      · exact absurd rfl hlt
      · obtain ⟨u, hu, hle⟩ := hp t
        have hk := hs t rfl
        simp only [Nat.cast_zero, zero_mul] at hk
        have hnone : TimeClip u = none := by
          unfold TimeClip
          rw [if_pos (Or.inl (by omega))]
        refine ⟨⟨none⟩, rfl, fun fuel hf => ?_⟩
        obtain ⟨f, rfl⟩ : ∃ f, fuel = f + 1 := ⟨fuel - 1, by omega⟩
        simp only [advanceLoop, hlt2, if_true]
        rw [hu, hnone]
        exact advanceLoop_done _ _ _ _ rfl
  | succ k ih =>
    intro s hs
    by_cases hlt : dateLT s ⟨some now⟩ = false
    · exact ⟨s, hlt, fun fuel _ => advanceLoop_done _ _ _ _ hlt⟩
    · have hlt2 : dateLT s ⟨some now⟩ = true := by simpa using hlt
      rcases s with ⟨_ | t⟩
      · exact absurd rfl hlt
      · obtain ⟨u, hu, hle⟩ := hp t
        have hk := hs t rfl
        have hnext : ∀ v, (add ⟨some t⟩).time = some v → v + 8640000000000000 < k * δ := by
          intro v hv
          rw [hu] at hv
          have huv : u = v := by
            unfold TimeClip at hv
            split_ifs at hv
            exact Option.some.inj hv
          subst huv
          push_cast at hk
          nlinarith
        obtain ⟨r, hr, hfuel⟩ := ih (add ⟨some t⟩) hnext
        refine ⟨r, hr, fun fuel hf => ?_⟩
        obtain ⟨f, rfl⟩ : ∃ f, fuel = f + 1 := ⟨fuel - 1, by omega⟩
        simp only [advanceLoop, hlt2, if_true]
        exact hfuel f (by omega)

theorem intervalOrOne_ne_zero (interval : Option (Option Int)) : intervalOrOne interval ≠ 0 := by
  unfold intervalOrOne
  rcases interval with _ | _ | n
  · decide
  · decide
  · simp only []
    split_ifs with h
    · decide
    · exact h

/-- For each of the four units and every interval (missing, `NaN`, zero,
negative or positive) `getNextOccurrence` returns a `Date` once the fuel is
large enough. -/
theorem getNextOccurrence_total (now : Int) (start : JSDate) (interval : Option (Option Int))
    (unit : Str)
    (hu : unit = "day".toList ∨ unit = "week".toList ∨ unit = "month".toList ∨
      unit = "year".toList) :
    ∃ (K : Nat) (r : JSDate), ∀ fuel, K ≤ fuel →
      getNextOccurrence fuel now (some start) interval unit = some (some r) := by
  have h0 := intervalOrOne_ne_zero interval
  rcases lt_or_gt_of_ne h0 with hneg | hpos
  · obtain ⟨add, hadd, hp⟩ := addStep_regress _ hneg unit hu
    have hδ : (0 : Int) < msPerDay := by decide
    obtain ⟨r, -, hfuel⟩ := advanceLoop_terminates_back now msPerDay hδ add hp
      ((start.time.getD 0 + 8640000000000000).toNat + 1) start (by
        intro t ht
        rw [ht]
        simp only [Option.getD_some]
        have := Int.self_le_toNat (t + 8640000000000000)
        push_cast
        unfold msPerDay
        omega)
    refine ⟨(start.time.getD 0 + 8640000000000000).toNat + 1 + 1, r, fun fuel hf => ?_⟩
    simp only [getNextOccurrence, hadd]
    rw [hfuel fuel hf]
    rfl
  · obtain ⟨add, hadd, hp⟩ := addStep_progress _ hpos unit hu
    have hmin : 0 < minStepDays unit := by
      rcases hu with rfl | rfl | rfl | rfl <;> decide
    have hδ : 0 < intervalOrOne interval * minStepDays unit * msPerDay := by
      have : (0 : Int) < msPerDay := by decide
      positivity
    obtain ⟨r, -, hfuel⟩ := advanceLoop_terminates now _ add hp
      (advanceBound now start (intervalOrOne interval) unit) start (by
        intro t ht
        simp only [advanceBound, ht]
        exact ceil_bound _ _ hδ)
    refine ⟨advanceBound now start (intervalOrOne interval) unit, r, fun fuel hf => ?_⟩
    simp only [getNextOccurrence, hadd]
    rw [hfuel fuel hf]
    rfl

/-- The scanning loop never sets the recurrence fields of a record. -/
theorem scanLine_no_recurrence (tza : Int) (st : ScanState) (line : Str)
    (h1 : ∀ ev ∈ st.events, ev.recurrenceInterval = none ∧ ev.recurrenceUnit = none)
    (h2 : ∀ c, st.current = some c → c.recurrenceInterval = none ∧ c.recurrenceUnit = none) :
    (∀ ev ∈ (scanLine tza st line).events,
      ev.recurrenceInterval = none ∧ ev.recurrenceUnit = none) ∧
    (∀ c, (scanLine tza st line).current = some c →
      c.recurrenceInterval = none ∧ c.recurrenceUnit = none) := by
  rcases st with ⟨evs, cur⟩
  simp only at h1 h2
  unfold scanLine
  by_cases hb : startsWith line "BEGIN:VEVENT".toList = true
  · rw [if_pos hb]
    refine ⟨h1, fun c hc => ?_⟩
    simp only [Option.some.injEq] at hc
    subst hc
    exact ⟨rfl, rfl⟩
  · rw [if_neg hb]
    by_cases he : startsWith line "END:VEVENT".toList = true
    · rw [if_pos he]
      cases cur with
      | none => exact ⟨h1, fun c hc => by simp at hc⟩
      | some c0 =>
        refine ⟨fun ev hev => ?_, fun c hc => by simp at hc⟩
        simp only [List.mem_append, List.mem_singleton] at hev
        rcases hev with hev | rfl
        · exact h1 ev hev
        · exact h2 _ rfl
    · rw [if_neg he]
      cases cur with
      | none => exact ⟨h1, fun c hc => by simp at hc⟩
      | some c0 =>
        have hc0 := h2 c0 rfl
        simp only []
        split_ifs
        · refine ⟨h1, fun c hc => ?_⟩
          simp only [Option.some.injEq] at hc
          subst hc
          exact hc0
        · refine ⟨h1, fun c hc => ?_⟩
          simp only [Option.some.injEq] at hc
          subst hc
          unfold scanDtstart
          split
          · exact hc0
          · split_ifs
            · exact hc0
            · exact hc0
        · refine ⟨h1, fun c hc => ?_⟩
          simp only [Option.some.injEq] at hc
          subst hc
          exact hc0
        · exact ⟨h1, fun c hc => by
            simp only [Option.some.injEq] at hc
            subst hc
            exact hc0⟩

theorem scanFrom_no_recurrence (tza : Int) (ls : List Str) :
    ∀ st : ScanState,
      (∀ ev ∈ st.events, ev.recurrenceInterval = none ∧ ev.recurrenceUnit = none) →
      (∀ c, st.current = some c → c.recurrenceInterval = none ∧ c.recurrenceUnit = none) →
      ∀ ev ∈ (scanFrom tza st ls).events,
        ev.recurrenceInterval = none ∧ ev.recurrenceUnit = none := by
  induction ls with
  | nil => exact fun st h1 _ => h1
  | cons l ls ih =>
    intro st h1 h2
    rw [scanFrom_cons]
    obtain ⟨a, b⟩ := scanLine_no_recurrence tza st l h1 h2
    exact ih _ a b

/-- The mapping step leaves the date as it is, and on a record without
recurrence fields it sets no unit or one of the four units. -/
theorem mapEvent_unit (ev : Event) (h : ev.recurrenceUnit = none) :
    (mapEvent ev).date = ev.date ∧
    ((mapEvent ev).recurrenceUnit = none ∨
      ∃ u, (mapEvent ev).recurrenceUnit = some u ∧
        (u = "day".toList ∨ u = "week".toList ∨ u = "month".toList ∨ u = "year".toList)) := by
  cases hr : ev.rrule with
  | none =>
    have : mapEvent ev = ev := by
      unfold mapEvent
      rw [hr]
    rw [this]
    exact ⟨rfl, Or.inl h⟩
  | some r =>
    rw [mapEvent_eq ev r hr, ruleOf_eq]
    generalize toUpperCase (freqValue r) = f
    rcases unitOfFreq_cases f with ⟨-, e⟩ | ⟨-, e⟩ | ⟨-, e⟩ | ⟨-, e⟩ | ⟨-, -, -, -, e⟩ <;>
      rw [e]
    · exact ⟨rfl, Or.inr ⟨_, rfl, Or.inl rfl⟩⟩
    · exact ⟨rfl, Or.inr ⟨_, rfl, Or.inr (Or.inl rfl)⟩⟩
    · exact ⟨rfl, Or.inr ⟨_, rfl, Or.inr (Or.inr (Or.inl rfl))⟩⟩
    · exact ⟨rfl, Or.inr ⟨_, rfl, Or.inr (Or.inr (Or.inr rfl))⟩⟩
    · exact ⟨rfl, Or.inl h⟩

/-- Every event that `parseICS` returns has no recurrence unit or one of
the four units. -/
theorem parseICS_units (tza now : Int) (text : Str) (evs : List Event)
    (h : parseICS tza now text = .ok evs) (ev : Event) (hev : ev ∈ evs) :
    ev.recurrenceUnit = none ∨
      ∃ u, ev.recurrenceUnit = some u ∧
        (u = "day".toList ∨ u = "week".toList ∨ u = "month".toList ∨ u = "year".toList) := by
  obtain ⟨kept, hs, rfl⟩ := parseICS_kept tza now text evs h
  obtain ⟨e0, he0, rfl⟩ := List.mem_map.mp hev
  have hmem : e0 ∈ scanEvents tza text := hs.subset he0
  rw [scanEvents_eq] at hmem
  have := scanFrom_no_recurrence tza (linesOf text) ⟨[], none⟩ (by simp) (by simp) e0 hmem
  exact (mapEvent_unit e0 this.2).2

theorem isDigit_digitChar (n : Nat) (h : n < 10) : isDigit (Nat.digitChar n) = true := by
  interval_cases n <;> decide

theorem isStrictForm_format (t : Int) (h0 : 1000 ≤ YearFromTime t) (h1 : YearFromTime t ≤ 9999) :
    isStrictForm (toRFC3339NoMillis ⟨some t⟩) = true := by
  have hm := month_bounds (DayWithinYear t) (InLeapYear t)
  have hm2 : 0 ≤ MonthFromTime t ∧ MonthFromTime t ≤ 11 := hm
  have hd := DateFromTime_bounds t
  have hH : 0 ≤ HourFromTime t ∧ HourFromTime t ≤ 23 := by unfold HourFromTime; omega
  have hM : 0 ≤ MinFromTime t ∧ MinFromTime t ≤ 59 := by unfold MinFromTime; omega
  have hS : 0 ≤ SecFromTime t ∧ SecFromTime t ≤ 59 := by unfold SecFromTime; omega
  rw [toRFC3339NoMillis_valid t h0 h1]
  simp only [fourDigits, twoDigits, List.cons_append, List.nil_append, isStrictForm,
    Bool.and_eq_true, decide_eq_true_eq, and_true]
  refine ⟨⟨⟨⟨⟨⟨⟨⟨⟨⟨⟨⟨⟨?_, ?_⟩, ?_⟩, ?_⟩, ?_⟩, ?_⟩, ?_⟩, ?_⟩, ?_⟩, ?_⟩, ?_⟩, ?_⟩, ?_⟩, ?_⟩ <;>
    apply isDigit_digitChar <;> omega


/-- Claim C24, as stated, fails: in a zone five hours behind UTC the event
`DTSTART:99991231T230000` is returned by `parseICS`, and the due date sent
for it is `10000-01-01T04:00:00Z`, which is not in the strict form. -/
theorem dueDate_five_digit_year :
    parseICS (-18000000) 1741597200000
        "BEGIN:VEVENT\nSUMMARY:Party\nDTSTART:99991231T230000\nEND:VEVENT".toList =
      .ok [⟨some "Party".toList, some ⟨some 253402315200000⟩, none, false, none, none⟩] ∧
    dueDate 0 1741597200000
        ⟨some "Party".toList, some ⟨some 253402315200000⟩, none, false, none, none⟩ =
      some (some "10000-01-01T04:00:00Z".toList) ∧
    isStrictForm "10000-01-01T04:00:00Z".toList = false :=
  ⟨rfl, by decide, by decide⟩

/-- Claim C24, amended: for every event returned by `parseICS`, the due
date that the calendar import sends is `null` exactly when the event has no
date; otherwise, once the fuel is large enough, it is the formatter's output
for a `Date` `r`, which is the event's date when no rule was parsed and the
result of `getNextOccurrence` when one was; the output is in the strict form
whenever `r` is a valid instant whose UTC year has four digits. -/
theorem dueDate_of_parsed (tza now nowUTC : Int) (text : Str) (evs : List Event) (ev : Event)
    (h : parseICS tza now text = .ok evs) (hev : ev ∈ evs) :
    (ev.date = none → ∀ fuel, dueDate fuel nowUTC ev = some none) ∧
    (∀ d, ev.date = some d →
      ∃ (K : Nat) (r : JSDate),
        (∀ fuel, K ≤ fuel → dueDate fuel nowUTC ev = some (some (toRFC3339NoMillis r))) ∧
        (ev.recurrenceUnit = none → r = d) ∧
        (∀ u, ev.recurrenceUnit = some u → ∀ fuel, K ≤ fuel →
          getNextOccurrence fuel nowUTC (some d) ev.recurrenceInterval u = some (some r)) ∧
        (∀ t, r.time = some t → 1000 ≤ YearFromTime t → YearFromTime t ≤ 9999 →
          isStrictForm (toRFC3339NoMillis r) = true)) := by
  have hstrict : ∀ (r : JSDate) (t : Int), r.time = some t → 1000 ≤ YearFromTime t →
      YearFromTime t ≤ 9999 → isStrictForm (toRFC3339NoMillis r) = true := by
    intro r t hr h0 h1
    rcases r with ⟨x⟩
    simp only at hr
    subst hr
    exact isStrictForm_format t h0 h1
  constructor
  · intro hd fuel
    unfold dueDate
    rw [hd]
  · intro d hd
    rcases parseICS_units tza now text evs h ev hev with hu | ⟨u, hu, hfour⟩
    · refine ⟨0, d, fun fuel _ => ?_, fun _ => rfl, fun u hu2 => ?_, hstrict d⟩
      · unfold dueDate
        rw [hd, hu]
        rfl
      · rw [hu] at hu2
        exact absurd hu2 (by simp)
    · obtain ⟨K, r, hK⟩ := getNextOccurrence_total nowUTC d ev.recurrenceInterval u hfour
      have htruthy : truthyStr (some u) = true := by
        rcases hfour with rfl | rfl | rfl | rfl <;> decide
      refine ⟨K, r, fun fuel hf => ?_, fun hn => ?_, fun u2 hu2 fuel hf => ?_, hstrict r⟩
      · unfold dueDate
        rw [hd, hu]
        simp only [htruthy, if_true, Option.getD_some]
        rw [hK fuel hf]
      · rw [hu] at hn
        exact absurd hn (by simp)
      · rw [hu] at hu2
        simp only [Option.some.injEq] at hu2
        subst hu2
        exact hK fuel hf

theorem dueDate_of_parsed_witness :
    dueDate 2 1743465600000
        ⟨some "Standup".toList, some ⟨some 1741597200000⟩, some "FREQ=WEEKLY;INTERVAL=2".toList,
          false, some (some 2), some "week".toList⟩ =
      some (some "2025-04-07T09:00:00Z".toList) ∧
    ((⟨some "Standup".toList, some ⟨some 1741597200000⟩, some "FREQ=WEEKLY;INTERVAL=2".toList,
        false, some (some 2), some "week".toList⟩ : Event).date = none →
      ∀ fuel, dueDate fuel 1743465600000
        ⟨some "Standup".toList, some ⟨some 1741597200000⟩, some "FREQ=WEEKLY;INTERVAL=2".toList,
          false, some (some 2), some "week".toList⟩ = some none) ∧
    (∀ d, (⟨some "Standup".toList, some ⟨some 1741597200000⟩,
        some "FREQ=WEEKLY;INTERVAL=2".toList, false, some (some 2),
        some "week".toList⟩ : Event).date = some d →
      ∃ (K : Nat) (r : JSDate),
        (∀ fuel, K ≤ fuel → dueDate fuel 1743465600000
          ⟨some "Standup".toList, some ⟨some 1741597200000⟩,
            some "FREQ=WEEKLY;INTERVAL=2".toList, false, some (some 2), some "week".toList⟩ =
          some (some (toRFC3339NoMillis r))) ∧
        ((⟨some "Standup".toList, some ⟨some 1741597200000⟩,
          some "FREQ=WEEKLY;INTERVAL=2".toList, false, some (some 2),
          some "week".toList⟩ : Event).recurrenceUnit = none → r = d) ∧
        (∀ u, (⟨some "Standup".toList, some ⟨some 1741597200000⟩,
          some "FREQ=WEEKLY;INTERVAL=2".toList, false, some (some 2),
          some "week".toList⟩ : Event).recurrenceUnit = some u → ∀ fuel, K ≤ fuel →
          getNextOccurrence fuel 1743465600000 (some d) (some (some 2)) u = some (some r)) ∧
        (∀ t, r.time = some t → 1000 ≤ YearFromTime t → YearFromTime t ≤ 9999 →
          isStrictForm (toRFC3339NoMillis r) = true)) :=
  ⟨by decide, dueDate_of_parsed 0 1741597200000 1743465600000
    ("BEGIN:VEVENT\nSUMMARY:Standup\nDTSTART:20250310T090000\n" ++
      "RRULE:FREQ=WEEKLY;INTERVAL=2\nEND:VEVENT").toList
    [⟨some "Standup".toList, some ⟨some 1741597200000⟩, some "FREQ=WEEKLY;INTERVAL=2".toList,
      false, some (some 2), some "week".toList⟩]
    ⟨some "Standup".toList, some ⟨some 1741597200000⟩, some "FREQ=WEEKLY;INTERVAL=2".toList,
      false, some (some 2), some "week".toList⟩
    rfl (List.mem_singleton.mpr rfl)⟩

/-! ## Claims on the operations that send a due date -/

/-- With one clock reading for `today` and `thisWeek`, the bound of the
group "This Week" is the reading plus six days, clipped to the range of time
values. -/
theorem thisWeekOf_eq (tza now : Int) :
    thisWeekOf tza now now = ⟨TimeClip (now + 6 * msPerDay)⟩ := by
  have h : thisWeekOf tza now now =
      ⟨TimeClip (UTC tza (MakeDate
        (MakeDay (YearFromTime (LocalTime tza now)) (MonthFromTime (LocalTime tza now))
          (DateFromTime (LocalTime tza now) + 6))
        (TimeWithinDay (LocalTime tza now))))⟩ := rfl
  rw [h, MakeDay_add_date, MakeDay_fields]
  have e : UTC tza (MakeDate (Day (LocalTime tza now) + 6) (TimeWithinDay (LocalTime tza now))) =
      now + 6 * msPerDay := by
    unfold UTC MakeDate Day TimeWithinDay LocalTime msPerDay
    omega
  rw [e]

/-- Claim C27: the filter of the group "This Week" has an upper bound only.
With the clock at 2025-03-10T09:00:00Z the bound is 2025-03-16T09:00:00Z; a
todo due on 2020-01-01, more than five years before now, is included, as is
one due at the bound; one due a second after the bound and one without a due
date are left out. -/
theorem isUpcoming_keeps_overdue (tza : Int) :
    thisWeekOf tza 1741597200000 1741597200000 = ⟨some 1742115600000⟩ ∧
    isUpcoming tza 1741597200000 1741597200000 (some "2020-01-01T00:00:00Z".toList) = true ∧
    isUpcoming tza 1741597200000 1741597200000 (some "2025-03-16T09:00:00Z".toList) = true ∧
    isUpcoming tza 1741597200000 1741597200000 (some "2025-03-16T09:00:01Z".toList) = false ∧
    isUpcoming tza 1741597200000 1741597200000 none = false := by
  have hw : thisWeekOf tza 1741597200000 1741597200000 = ⟨some 1742115600000⟩ := by
    rw [thisWeekOf_eq]
    rfl
  have p1 : newDateString tza "2020-01-01T00:00:00Z".toList = ⟨some 1577836800000⟩ := rfl
  have p2 : newDateString tza "2025-03-16T09:00:00Z".toList = ⟨some 1742115600000⟩ := rfl
  have p3 : newDateString tza "2025-03-16T09:00:01Z".toList = ⟨some 1742115601000⟩ := rfl
  refine ⟨hw, ?_, ?_, ?_, rfl⟩
  · unfold isUpcoming
    rw [hw]
    simp only [Option.getD_some, p1]
    rfl
  · unfold isUpcoming
    rw [hw]
    simp only [Option.getD_some, p2]
    rfl
  · unfold isUpcoming
    rw [hw]
    simp only [Option.getD_some, p3]
    rfl

/-- Claim C26: `toggleTodo` sends a stored due date as it is. With the date
control empty and no time, every non-empty stored string comes back
unchanged, whatever the zone and the clock; for the stored string
`2025-03-10T09:00:00+01:00`, which does not end in `Z` and parses as a valid
date, the `drop` handler sends `2025-03-10T08:00:00Z` and `toggleTodo` sends
the stored string. -/
theorem toggleTodo_sends_stored (tza now : Int) (c : Char) (rest : Str) (timeInput : Option Str) :
    toggleDueDate tza now (some ⟨[], some (c :: rest)⟩) none = .ok (some (c :: rest)) ∧
    toggleDueDate tza now (some ⟨[], some (c :: rest)⟩) (some []) = .ok (some (c :: rest)) ∧
    endsWithZ "2025-03-10T09:00:00+01:00".toList = false ∧
    newDateString tza "2025-03-10T09:00:00+01:00".toList = ⟨some 1741593600000⟩ ∧
    toggleDueDate tza now (some ⟨[], some "2025-03-10T09:00:00+01:00".toList⟩) (some []) =
      .ok (some "2025-03-10T09:00:00+01:00".toList) ∧
    dropDueDate tza now (some ⟨[], some "2025-03-10T09:00:00+01:00".toList⟩) (some []) =
      some "2025-03-10T08:00:00Z".toList ∧
    menuSaveDueDate tza now (some ⟨[], some "2025-03-10T09:00:00+01:00".toList⟩) timeInput =
      some [] ∧
    saveEditDueDate tza now (some ⟨[], some "2025-03-10T09:00:00+01:00".toList⟩) timeInput =
      some [] := by
  have p : newDateString tza "2025-03-10T09:00:00+01:00".toList = ⟨some 1741593600000⟩ := rfl
  refine ⟨rfl, rfl, by decide, p, rfl, ?_, rfl, rfl⟩
  unfold dropDueDate
  simp only [Option.map_some', Option.bind_some, truthyStr, List.isEmpty_nil, Bool.not_true,
    Bool.false_eq_true, if_false, Option.getD_some, p]
  rfl

/-- Claim C25, as stated, fails: for a task due `2025-03-10T00:00:00.000Z`
the Google Tasks import sends the date-only string `2025-03-10`. -/
theorem googleDueDate_date_only :
    googleDueDate 0 (some "2025-03-10T00:00:00.000Z".toList) =
      .ok (some "2025-03-10".toList) ∧
    isStrictForm "2025-03-10".toList = false := by
  have p : newDateString 0 "2025-03-10T00:00:00.000Z".toList = ⟨some 1741564800000⟩ := rfl
  refine ⟨?_, by decide⟩
  unfold googleDueDate
  simp only [truthyStr, Option.getD_some, p]
  rfl

theorem reuse_branch_dead (dateInput : Option DateInput)
    (h1 : ¬ dateInput.map (fun di => di.value) = some [])
    (h3 : ¬ truthyStr (dateInput.map (fun di => di.value)) = true) :
    ¬ (truthyStr (dateInput.bind (fun di => di.due)) = true ∧
      ¬ truthyStr (dateInput.map (fun di => di.value)) = true) := by
  rcases dateInput with _ | ⟨v, due⟩
  · simp [truthyStr]
  · rcases v with _ | ⟨c, cs⟩
    · exact absurd rfl h1
    · exact absurd rfl h3

theorem menuSaveDueDate_cases (tza now : Int) (dateInput : Option DateInput)
    (timeInput : Option Str) :
    menuSaveDueDate tza now dateInput timeInput = none ∨
    menuSaveDueDate tza now dateInput timeInput = some [] ∨
    ∃ d, menuSaveDueDate tza now dateInput timeInput = some (toRFC3339NoMillis d) := by
  unfold menuSaveDueDate
  simp only []
  by_cases h1 : dateInput.map (fun di => di.value) = some []
  · rw [if_pos h1]
    exact Or.inr (Or.inl rfl)
  rw [if_neg h1]
  by_cases h2 : truthyStr timeInput = true ∧
      ¬ truthyStr (dateInput.map (fun di => di.value)) = true
  · rw [if_pos h2]
    exact Or.inr (Or.inr ⟨_, rfl⟩)
  rw [if_neg h2]
  by_cases h3 : truthyStr (dateInput.map (fun di => di.value)) = true
  · rw [if_pos h3]
    exact Or.inr (Or.inr ⟨_, rfl⟩)
  rw [if_neg h3, if_neg (reuse_branch_dead dateInput h1 h3)]
  exact Or.inl rfl

theorem saveEditDueDate_cases (tza now : Int) (dueInput : Option DateInput)
    (timeInput : Option Str) :
    saveEditDueDate tza now dueInput timeInput = none ∨
    saveEditDueDate tza now dueInput timeInput = some [] ∨
    ∃ d, saveEditDueDate tza now dueInput timeInput = some (toRFC3339NoMillis d) := by
  unfold saveEditDueDate
  simp only []
  by_cases h1 : dueInput.map (fun di => di.value) = some []
  · rw [if_pos h1]
    exact Or.inr (Or.inl rfl)
  rw [if_neg h1]
  by_cases h2 : truthyStr timeInput = true ∧
      ¬ truthyStr (dueInput.map (fun di => di.value)) = true
  · rw [if_pos h2]
    exact Or.inr (Or.inr ⟨_, rfl⟩)
  rw [if_neg h2]
  by_cases h3 : truthyStr (dueInput.map (fun di => di.value)) = true
  · rw [if_pos h3]
    exact Or.inr (Or.inr ⟨_, rfl⟩)
  rw [if_neg h3, if_neg (reuse_branch_dead dueInput h1 h3)]
  exact Or.inl rfl

theorem dropDueDate_cases (tza now : Int) (dateInput : Option DateInput)
    (timeInput : Option Str) :
    dropDueDate tza now dateInput timeInput = none ∨
    (∃ d, dropDueDate tza now dateInput timeInput = some (toRFC3339NoMillis d)) ∨
    ∃ s, dateInput.bind (fun di => di.due) = some s ∧ (newDateString tza s).time = none ∧
      dropDueDate tza now dateInput timeInput = some s := by
  unfold dropDueDate
  simp only []
  by_cases h1 : truthyStr (dateInput.map (fun di => di.value)) = true
  · rw [if_pos h1]
    exact Or.inr (Or.inl ⟨_, rfl⟩)
  rw [if_neg h1]
  by_cases h2 : truthyStr (dateInput.bind (fun di => di.due)) = true
  · rw [if_pos h2]
    cases hs : dateInput.bind (fun di => di.due) with
    | none => rw [hs] at h2; simp [truthyStr] at h2
    | some s =>
      simp only [Option.getD_some]
      cases ht : (newDateString tza s).time with
      | none =>
        right; right
        exact ⟨s, rfl, ht, by simp⟩
      | some t =>
        right; left
        exact ⟨newDateString tza s, by simp⟩
  · rw [if_neg h2]
    exact Or.inl rfl

theorem dueDate_cases (fuel : Nat) (nowUTC : Int) (ev : Event) (s : Str)
    (h : dueDate fuel nowUTC ev = some (some s)) : ∃ d, s = toRFC3339NoMillis d := by
  unfold dueDate at h
  cases hd : ev.date with
  | none => rw [hd] at h; simp at h
  | some d =>
    rw [hd] at h
    simp only [] at h
    split_ifs at h with hu
    · cases hg : getNextOccurrence fuel nowUTC (some d) ev.recurrenceInterval
          (ev.recurrenceUnit.getD []) with
      | none => rw [hg] at h; simp at h
      | some r =>
        rw [hg] at h
        cases r with
        | none => simp at h
        | some nd =>
          simp only [Option.some.injEq] at h
          exact ⟨nd, h.symm⟩
    · simp only [Option.some.injEq] at h
      exact ⟨d, h.symm⟩

/-- Claim C25, amended: the due date that the menu save and the title edit
send is `null`, the empty string that clears the date, or an output of
`toRFC3339NoMillis`; the `drop` handler sends `null`, an output of the
formatter, or a stored string that does not parse, as it is; the
calendar import sends `null` or an output of the formatter; and the formatter's
output is in the strict form for every valid instant whose UTC year has four
digits. -/
theorem due_dates_use_formatter (tza now : Int) (dateInput : Option DateInput)
    (timeInput : Option Str) :
    (menuSaveDueDate tza now dateInput timeInput = none ∨
      menuSaveDueDate tza now dateInput timeInput = some [] ∨
      ∃ d, menuSaveDueDate tza now dateInput timeInput = some (toRFC3339NoMillis d)) ∧
    (saveEditDueDate tza now dateInput timeInput = none ∨
      saveEditDueDate tza now dateInput timeInput = some [] ∨
      ∃ d, saveEditDueDate tza now dateInput timeInput = some (toRFC3339NoMillis d)) ∧
    (dropDueDate tza now dateInput timeInput = none ∨
      (∃ d, dropDueDate tza now dateInput timeInput = some (toRFC3339NoMillis d)) ∨
      ∃ s, dateInput.bind (fun di => di.due) = some s ∧ (newDateString tza s).time = none ∧
        dropDueDate tza now dateInput timeInput = some s) ∧
    (∀ fuel ev s, dueDate fuel now ev = some (some s) → ∃ d, s = toRFC3339NoMillis d) ∧
    (∀ t, 1000 ≤ YearFromTime t → YearFromTime t ≤ 9999 →
      isStrictForm (toRFC3339NoMillis ⟨some t⟩) = true) :=
  ⟨menuSaveDueDate_cases tza now dateInput timeInput,
    saveEditDueDate_cases tza now dateInput timeInput,
    dropDueDate_cases tza now dateInput timeInput,
    fun fuel ev s h => dueDate_cases fuel now ev s h,
    fun t h0 h1 => isStrictForm_format t h0 h1⟩

theorem due_dates_use_formatter_witness :
    menuSaveDueDate 0 1741597200000
        (some ⟨"2025-03-10".toList, some "2025-03-10T09:00:00Z".toList⟩) (some "09:00".toList) =
      some "2025-03-10T09:00:00Z".toList ∧
    (∀ t, 1000 ≤ YearFromTime t → YearFromTime t ≤ 9999 →
      isStrictForm (toRFC3339NoMillis ⟨some t⟩) = true) :=
  ⟨by decide,
    (due_dates_use_formatter 0 1741597200000
      (some ⟨"2025-03-10".toList, some "2025-03-10T09:00:00Z".toList⟩)
      (some "09:00".toList)).2.2.2.2⟩

/-! ## Claim on the round trip through the date and time controls -/

theorem digitChar_facts (k : Nat) (h : k < 10) :
    isDigit (Nat.digitChar k) = true ∧ digitVal (Nat.digitChar k) = k := by
  interval_cases k <;> exact ⟨by decide, by decide⟩

theorem isDigit_ne (c : Char) (h : isDigit c = true) :
    c ≠ '-' ∧ c ≠ '+' ∧ c ≠ '.' ∧ c ≠ 'x' ∧ c ≠ 'X' ∧ c ≠ 'Z' := by
  refine ⟨?_, ?_, ?_, ?_, ?_, ?_⟩ <;> rintro rfl <;> revert h <;> decide

theorem twoDigits_facts (n : Int) (h0 : 0 ≤ n) (h1 : n ≤ 99) :
    ∃ a b, twoDigits n = [a, b] ∧ isDigit a = true ∧ isDigit b = true ∧
      numberOfDigits [a, b] = n := by
  obtain ⟨k, rfl⟩ : ∃ k : Nat, n = k := ⟨n.toNat, by omega⟩
  have hk : k < 100 := by omega
  obtain ⟨a1, a2⟩ := digitChar_facts (k / 10) (by omega)
  obtain ⟨b1, b2⟩ := digitChar_facts (k % 10) (by omega)
  refine ⟨_, _, rfl, ?_, ?_, ?_⟩
  · simpa using a1
  · simpa using b1
  · rw [numberOfDigits_two]
    simp only [Int.toNat_ofNat, a2, b2]
    omega

theorem fourDigits_facts (n : Int) (h0 : 0 ≤ n) (h1 : n ≤ 9999) :
    ∃ a b c d, fourDigits n = [a, b, c, d] ∧ isDigit a = true ∧ isDigit b = true ∧
      isDigit c = true ∧ isDigit d = true ∧ numberOfDigits [a, b, c, d] = n := by
  obtain ⟨k, rfl⟩ : ∃ k : Nat, n = k := ⟨n.toNat, by omega⟩
  have hk : k < 10000 := by omega
  obtain ⟨a1, a2⟩ := digitChar_facts (k / 1000) (by omega)
  obtain ⟨b1, b2⟩ := digitChar_facts (k / 100 % 10) (by omega)
  obtain ⟨c1, c2⟩ := digitChar_facts (k / 10 % 10) (by omega)
  obtain ⟨d1, d2⟩ := digitChar_facts (k % 10) (by omega)
  refine ⟨_, _, _, _, rfl, ?_, ?_, ?_, ?_, ?_⟩
  · simpa using a1
  · simpa using b1
  · simpa using c1
  · simpa using d1
  · rw [numberOfDigits_four]
    simp only [Int.toNat_ofNat, a2, b2, c2, d2]
    omega

/-- `Date.parse` on a string in the strict form that names a valid date and
time: the time value of that date and time in UTC. -/
theorem dateParse_strict (tza : Int) (y1 y2 y3 y4 m1 m2 d1 d2 h1 h2 i1 i2 s1 s2 : Char)
    (hy : isDigit y1 = true ∧ isDigit y2 = true ∧ isDigit y3 = true ∧ isDigit y4 = true)
    (hm : isDigit m1 = true ∧ isDigit m2 = true) (hd : isDigit d1 = true ∧ isDigit d2 = true)
    (hh : isDigit h1 = true ∧ isDigit h2 = true) (hi : isDigit i1 = true ∧ isDigit i2 = true)
    (hs : isDigit s1 = true ∧ isDigit s2 = true)
    (hdate : validDate (numberOfDigits [y1, y2, y3, y4]) (numberOfDigits [m1, m2])
      (numberOfDigits [d1, d2]))
    (htime : numberOfDigits [h1, h2] ≤ 23 ∧ numberOfDigits [i1, i2] ≤ 59 ∧
      numberOfDigits [s1, s2] ≤ 59) :
    dateParse tza [y1, y2, y3, y4, '-', m1, m2, '-', d1, d2, 'T', h1, h2, ':', i1, i2, ':',
        s1, s2, 'Z'] =
      TimeClip (MakeDate
        (MakeDay (numberOfDigits [y1, y2, y3, y4]) (numberOfDigits [m1, m2] - 1)
          (numberOfDigits [d1, d2]))
        (MakeTime (numberOfDigits [h1, h2]) (numberOfDigits [i1, i2])
          (numberOfDigits [s1, s2]) 0)) := by
  obtain ⟨hy1, hy2, hy3, hy4⟩ := hy
  obtain ⟨hm1, hm2⟩ := hm
  obtain ⟨hd1, hd2⟩ := hd
  obtain ⟨hh1, hh2⟩ := hh
  obtain ⟨hi1, hi2⟩ := hi
  obtain ⟨hs1, hs2⟩ := hs
  obtain ⟨n1, n2, -, -, -, -⟩ := isDigit_ne y1 hy1
  unfold validDate at hdate
  generalize hY : numberOfDigits [y1, y2, y3, y4] = Y at *
  generalize hM : numberOfDigits [m1, m2] = M at *
  generalize hD : numberOfDigits [d1, d2] = D at *
  generalize hH : numberOfDigits [h1, h2] = H at *
  generalize hI : numberOfDigits [i1, i2] = I at *
  generalize hS : numberOfDigits [s1, s2] = S at *
  have hc : 1 ≤ M ∧ M ≤ 12 ∧ 1 ≤ D ∧ D ≤ daysInMonth Y (M - 1) := hdate
  have ht : (H ≤ 23 ∧ I ≤ 59 ∧ S ≤ 59) ∨ (H = 24 ∧ I = 0 ∧ S = 0 ∧ (0 : Int) = 0) :=
    Or.inl htime
  simp [dateParse, parseYear, takeDigits, optField, parseTimePart, parseMillis, parseOffset,
    n1, n2, hy1, hy2, hy3, hy4, hm1, hm2, hd1, hd2, hh1, hh2, hi1, hi2, hs1, hs2,
    hY, hM, hD, hH, hI, hS, hc, ht, htime]


theorem DateFromTime_le_daysInMonth (t : Int) :
    DateFromTime t ≤ daysInMonth (YearFromTime t) (MonthFromTime t) := by
  have hb := DayWithinYear_bounds t
  have hl : InLeapYear t = 0 ∨ InLeapYear t = 1 := by
    unfold InLeapYear; cases isLeapYear (YearFromTime t) <;> simp
  have hd : DaysInYear (YearFromTime t) = 365 + InLeapYear t := by
    unfold DaysInYear InLeapYear; cases isLeapYear (YearFromTime t) <;> simp
  have hi : (if isLeapYear (YearFromTime t) = true then (1 : Int) else 0) = InLeapYear t := rfl
  rw [daysInMonth_leap, hi]
  unfold DateFromTime MonthFromTime
  rw [hd] at hb
  generalize DayWithinYear t = w at *
  generalize InLeapYear t = l at *
  unfold monthOfDayInYear daysBeforeMonth
  omega

theorem time_bounds_of_year (t : Int) (h0 : 1000 ≤ YearFromTime t) (h1 : YearFromTime t ≤ 9999) :
    -8640000000000000 + 86400000 ≤ t ∧ t + 86400000 ≤ 8640000000000000 := by
  have hs := yearFromDay_spec (Day t)
  have hlo : DayFromYear 1000 ≤ DayFromYear (YearFromTime t) :=
    DayFromYear_strictMono.monotone h0
  have hhi : DayFromYear (YearFromTime t + 1) ≤ DayFromYear 10000 :=
    DayFromYear_strictMono.monotone (by omega)
  have e1 : DayFromYear 1000 = -354285 := by decide
  have e2 : DayFromYear 10000 = 2932897 := by decide
  rw [e1] at hlo
  rw [e2] at hhi
  have h3 : DayFromYear (YearFromTime t) ≤ Day t := hs.1
  have h4 : Day t < DayFromYear (YearFromTime t + 1) := hs.2
  unfold Day msPerDay at h3 h4
  omega

/-- Parsing the formatter's output gives the instant back, for an instant
of whole seconds whose UTC year has four digits. -/
theorem dateParse_format (tza t : Int) (h0 : 1000 ≤ YearFromTime t) (h1 : YearFromTime t ≤ 9999)
    (hms : t % 1000 = 0) : dateParse tza (toRFC3339NoMillis ⟨some t⟩) = some t := by
  have hm := month_bounds (DayWithinYear t) (InLeapYear t)
  have hm2 : 0 ≤ MonthFromTime t ∧ MonthFromTime t ≤ 11 := hm
  have hd := DateFromTime_bounds t
  have hdm := DateFromTime_le_daysInMonth t
  have hH : 0 ≤ HourFromTime t ∧ HourFromTime t ≤ 23 := by unfold HourFromTime; omega
  have hM : 0 ≤ MinFromTime t ∧ MinFromTime t ≤ 59 := by unfold MinFromTime; omega
  have hS : 0 ≤ SecFromTime t ∧ SecFromTime t ≤ 59 := by unfold SecFromTime; omega
  obtain ⟨y1, y2, y3, y4, ey, hy1, hy2, hy3, hy4, ny⟩ :=
    fourDigits_facts (YearFromTime t) (by omega) h1
  obtain ⟨m1, m2, em, hm1, hm2', nm⟩ := twoDigits_facts (MonthFromTime t + 1) (by omega) (by omega)
  obtain ⟨d1, d2, ed, hd1, hd2, nd⟩ := twoDigits_facts (DateFromTime t) (by omega) (by omega)
  obtain ⟨a1, a2, ea, ha1, ha2, na⟩ := twoDigits_facts (HourFromTime t) hH.1 (by omega)
  obtain ⟨i1, i2, ei, hi1, hi2, ni⟩ := twoDigits_facts (MinFromTime t) hM.1 (by omega)
  obtain ⟨s1, s2, es, hs1, hs2, ns⟩ := twoDigits_facts (SecFromTime t) hS.1 (by omega)
  rw [toRFC3339NoMillis_valid t h0 h1, ey, em, ed, ea, ei, es]
  simp only [List.cons_append, List.nil_append]
  rw [dateParse_strict tza y1 y2 y3 y4 m1 m2 d1 d2 a1 a2 i1 i2 s1 s2 ⟨hy1, hy2, hy3, hy4⟩
    ⟨hm1, hm2'⟩ ⟨hd1, hd2⟩ ⟨ha1, ha2⟩ ⟨hi1, hi2⟩ ⟨hs1, hs2⟩
    (by
      rw [ny, nm, nd]
      unfold validDate
      rw [add_sub_cancel_right]
      exact ⟨by omega, by omega, hd.1, hdm⟩)
    (by rw [na, ni, ns]; exact ⟨hH.2, hM.2, hS.2⟩)]
  rw [ny, nm, nd, na, ni, ns, add_sub_cancel_right, MakeDay_fields]
  have hb := time_bounds_of_year t h0 h1
  have e : MakeDate (Day t) (MakeTime (HourFromTime t) (MinFromTime t) (SecFromTime t) 0) = t := by
    unfold MakeDate MakeTime Day HourFromTime MinFromTime SecFromTime msPerDay msPerHour
      msPerMinute msPerSecond
    omega
  rw [e]
  unfold TimeClip
  rw [if_neg (by omega)]


theorem parseIntAuto_digits (a b : Char) (rest : Str) (ha : isDigit a = true)
    (hb : isDigit b = true) (hr : rest.all isDigit = true) :
    parseIntAuto (a :: b :: rest) = some (numberOfDigits (a :: b :: rest)) := by
  obtain ⟨-, -, ta, -, -⟩ := isDigit_facts a ha
  obtain ⟨n1, n2, -, -, -, -⟩ := isDigit_ne a ha
  obtain ⟨-, -, -, x1, x2, -⟩ := isDigit_ne b hb
  have s1 : List.dropWhile isTrimChar (a :: b :: rest) = a :: b :: rest := by
    simp [List.dropWhile, ta]
  have hhead : ¬ ((a :: b :: rest).head? = some '-' ∨ (a :: b :: rest).head? = some '+') := by
    simp [n1, n2]
  have hx : ¬ (startsWith (a :: b :: rest) "0x".toList = true ∨
      startsWith (a :: b :: rest) "0X".toList = true) := by
    simp only [startsWith, String.toList, List.isPrefixOf, Bool.and_eq_true, beq_iff_eq,
      Bool.and_true]
    rintro (⟨-, h⟩ | ⟨-, h⟩)
    · exact x1 h.symm
    · exact x2 h.symm
  have tw : List.takeWhile isDigit (a :: b :: rest) = a :: b :: rest := by
    rw [List.takeWhile_eq_self_iff]
    intro c hc
    rcases List.mem_cons.mp hc with rfl | hc
    · exact ha
    rcases List.mem_cons.mp hc with rfl | hc
    · exact hb
    · exact List.all_eq_true.mp hr c hc
  unfold parseIntAuto
  simp only [s1, if_neg hhead, if_neg hx, tw]
  simp [n1]

theorem parseIntAuto_four (a b c d : Char) (ha : isDigit a = true) (hb : isDigit b = true)
    (hc : isDigit c = true) (hd : isDigit d = true) :
    parseIntAuto [a, b, c, d] = some (numberOfDigits [a, b, c, d]) :=
  parseIntAuto_digits a b [c, d] ha hb (by simp [hc, hd])

theorem parseIntAuto_two (a b : Char) (ha : isDigit a = true) (hb : isDigit b = true) :
    parseIntAuto [a, b] = some (numberOfDigits [a, b]) :=
  parseIntAuto_digits a b [] ha hb rfl

theorem toNumber_two (a b : Char) (ha : isDigit a = true) (hb : isDigit b = true) :
    toNumber [a, b] = some (numberOfDigits [a, b]) := by
  obtain ⟨-, -, ta, -, -⟩ := isDigit_facts a ha
  obtain ⟨-, -, tb, -, -⟩ := isDigit_facts b hb
  obtain ⟨n1, n2, -, -, -, -⟩ := isDigit_ne a ha
  have ht : trim [a, b] = [a, b] := by
    simp [trim, List.dropWhile, ta, tb]
  unfold toNumber
  rw [ht]
  simp [n1, n2, ha, hb]

theorem splitOn_date (y1 y2 y3 y4 m1 m2 d1 d2 : Char)
    (hy : isDigit y1 = true ∧ isDigit y2 = true ∧ isDigit y3 = true ∧ isDigit y4 = true)
    (hm : isDigit m1 = true ∧ isDigit m2 = true) (hd : isDigit d1 = true ∧ isDigit d2 = true) :
    splitOn '-' [y1, y2, y3, y4, '-', m1, m2, '-', d1, d2] =
      [[y1, y2, y3, y4], [m1, m2], [d1, d2]] := by
  obtain ⟨hy1, hy2, hy3, hy4⟩ := hy
  obtain ⟨hm1, hm2⟩ := hm
  obtain ⟨hd1, hd2⟩ := hd
  simp [splitOn, consHead, (isDigit_ne y1 hy1).1, (isDigit_ne y2 hy2).1, (isDigit_ne y3 hy3).1,
    (isDigit_ne y4 hy4).1, (isDigit_ne m1 hm1).1, (isDigit_ne m2 hm2).1, (isDigit_ne d1 hd1).1,
    (isDigit_ne d2 hd2).1]

theorem splitOn_time (h1 h2 i1 i2 : Char) (hh : isDigit h1 = true ∧ isDigit h2 = true)
    (hi : isDigit i1 = true ∧ isDigit i2 = true) :
    splitOn ':' [h1, h2, ':', i1, i2] = [[h1, h2], [i1, i2]] := by
  obtain ⟨hh1, hh2⟩ := hh
  obtain ⟨hi1, hi2⟩ := hi
  simp [splitOn, consHead, (isDigit_facts h1 hh1).1, (isDigit_facts h2 hh2).1,
    (isDigit_facts i1 hi1).1, (isDigit_facts i2 hi2).1]

/-- The branch "date is set" on a date `YYYY-MM-DD` and a time `hh:mm`: the
digits go into `new Date(y, m - 1, d)` and `setHours(h, mi, 0, 0)`. -/
theorem dateFromInputs_digits (tza : Int) (y1 y2 y3 y4 m1 m2 d1 d2 h1 h2 i1 i2 : Char)
    (hy : isDigit y1 = true ∧ isDigit y2 = true ∧ isDigit y3 = true ∧ isDigit y4 = true)
    (hm : isDigit m1 = true ∧ isDigit m2 = true) (hd : isDigit d1 = true ∧ isDigit d2 = true)
    (hh : isDigit h1 = true ∧ isDigit h2 = true) (hi : isDigit i1 = true ∧ isDigit i2 = true) :
    dateFromInputs tza [y1, y2, y3, y4, '-', m1, m2, '-', d1, d2] (some [h1, h2, ':', i1, i2]) =
      setHours tza
        (newDateFields tza (numberOfDigits [y1, y2, y3, y4]) (numberOfDigits [m1, m2] - 1)
          (numberOfDigits [d1, d2]) 0 0 0)
        (some (numberOfDigits [h1, h2])) (some (numberOfDigits [i1, i2])) := by
  unfold dateFromInputs hoursMinutes
  simp only [Option.getD_some]
  rw [splitOn_date y1 y2 y3 y4 m1 m2 d1 d2 hy hm hd, splitOn_time h1 h2 i1 i2 hh hi]
  simp only [List.get?, Option.bind, List.map, parseIntAuto_four y1 y2 y3 y4 hy.1 hy.2.1 hy.2.2.1
    hy.2.2.2, parseIntAuto_two m1 m2 hm.1 hm.2, parseIntAuto_two d1 d2 hd.1 hd.2,
    toNumber_two h1 h2 hh.1 hh.2, toNumber_two i1 i2 hi.1 hi.2, Option.map, newDateOpt,
    truthyStr, Option.getD, id]
  rfl

/-- Local midnight of the local date of `t`, then `setHours` with the local
hours and minutes of `t`: the instant `t` again, when its local time has no
seconds and milliseconds. -/
theorem setHours_local_fields (tza t : Int)
    (hy : 1000 ≤ YearFromTime t ∧ YearFromTime t ≤ 9999)
    (hly : 1000 ≤ YearFromTime (LocalTime tza t) ∧ YearFromTime (LocalTime tza t) ≤ 9999)
    (hmin : LocalTime tza t % 60000 = 0) :
    setHours tza
        (newDateFields tza (YearFromTime (LocalTime tza t)) (MonthFromTime (LocalTime tza t))
          (DateFromTime (LocalTime tza t)) 0 0 0)
        (some (HourFromTime (LocalTime tza t))) (some (MinFromTime (LocalTime tza t))) =
      ⟨some t⟩ := by
  have hb := time_bounds_of_year t hy.1 hy.2
  unfold newDateFields
  rw [if_neg (by omega)]
  simp only []
  rw [MakeDay_fields]
  have e1 : UTC tza (MakeDate (Day (LocalTime tza t)) (MakeTime 0 0 0 0)) =
      Day (LocalTime tza t) * msPerDay - tza := by
    unfold UTC MakeDate MakeTime
    ring
  rw [e1]
  have hfl : Day (LocalTime tza t) * msPerDay ≤ t + tza ∧
      t + tza < Day (LocalTime tza t) * msPerDay + msPerDay := by
    unfold Day LocalTime msPerDay
    omega
  have hc1 : TimeClip (Day (LocalTime tza t) * msPerDay - tza) =
      some (Day (LocalTime tza t) * msPerDay - tza) := by
    unfold TimeClip
    unfold msPerDay at hfl
    rw [if_neg (by unfold msPerDay; omega)]
  rw [hc1]
  unfold setHours
  simp only []
  have e2 : UTC tza (MakeDate (Day (LocalTime tza (Day (LocalTime tza t) * msPerDay - tza)))
      (MakeTime (HourFromTime (LocalTime tza t)) (MinFromTime (LocalTime tza t)) 0 0)) = t := by
    have e3 : LocalTime tza (Day (LocalTime tza t) * msPerDay - tza) =
        Day (LocalTime tza t) * msPerDay := by
      unfold LocalTime
      ring
    rw [e3]
    generalize hl : LocalTime tza t = lt at *
    have hlt : lt = t + tza := by rw [← hl]; rfl
    unfold UTC MakeDate MakeTime Day HourFromTime MinFromTime msPerDay msPerHour msPerMinute
      msPerSecond
    omega
  rw [e2]
  unfold TimeClip
  rw [if_neg (by omega)]


/-- With a date in the date control, the menu save and `saveEdit` send the
formatter's output for the date built from the two controls. -/
theorem save_with_date (tza now : Int) (c : Char) (cs : Str) (due : Option Str)
    (timeInput : Option Str) :
    saveEditDueDate tza now (some ⟨c :: cs, due⟩) timeInput =
      some (toRFC3339NoMillis (dateFromInputs tza (c :: cs) timeInput)) ∧
    menuSaveDueDate tza now (some ⟨c :: cs, due⟩) timeInput =
      some (toRFC3339NoMillis (dateFromInputs tza (c :: cs) timeInput)) := by
  have h1 : ¬ (some (c :: cs) : Option Str) = some [] := by simp
  have h3 : truthyStr (some (c :: cs)) = true := rfl
  have h2 : ¬ (truthyStr timeInput = true ∧ ¬ truthyStr (some (c :: cs)) = true) :=
    fun h => h.2 h3
  constructor
  · unfold saveEditDueDate
    simp only [Option.map_some']
    rw [if_neg h1, if_neg h2, if_pos h3]
    rfl
  · unfold menuSaveDueDate
    simp only [Option.map_some']
    rw [if_neg h1, if_neg h2, if_pos h3]
    rfl

/-- Claim C28, as stated, fails: the stored due date `2025-03-10T09:00:30Z`
is rendered as the date `2025-03-10` and the time `09:00`, and a title edit
or a menu save sends `2025-03-10T09:00:00Z`: the seconds are lost. -/
theorem edit_drops_seconds :
    isStrictForm "2025-03-10T09:00:30Z".toList = true ∧
    dateInputValue 0 (some "2025-03-10T09:00:30Z".toList) = "2025-03-10".toList ∧
    timeInputValue 0 (some "2025-03-10T09:00:30Z".toList) = "09:00".toList ∧
    saveEditDueDate 0 1741597200000
      (some ⟨"2025-03-10".toList, some "2025-03-10T09:00:30Z".toList⟩)
      (some "09:00".toList) = some "2025-03-10T09:00:00Z".toList ∧
    menuSaveDueDate 0 1741597200000
      (some ⟨"2025-03-10".toList, some "2025-03-10T09:00:30Z".toList⟩)
      (some "09:00".toList) = some "2025-03-10T09:00:00Z".toList := by
  refine ⟨by decide, by decide, by decide, ?_, ?_⟩
  · exact (save_with_date 0 1741597200000 '2' "025-03-10".toList _ _).1.trans (by decide)
  · exact (save_with_date 0 1741597200000 '2' "025-03-10".toList _ _).2.trans (by decide)

theorem render_format (tza t : Int)
    (hy : 1000 ≤ YearFromTime t ∧ YearFromTime t ≤ 9999)
    (hly : 1000 ≤ YearFromTime (LocalTime tza t) ∧ YearFromTime (LocalTime tza t) ≤ 9999)
    (hms : t % 1000 = 0) :
    dateInputValue tza (some (toRFC3339NoMillis ⟨some t⟩)) =
      fourDigits (YearFromTime (LocalTime tza t)) ++
        '-' :: twoDigits (MonthFromTime (LocalTime tza t) + 1) ++
        '-' :: twoDigits (DateFromTime (LocalTime tza t)) ∧
    timeInputValue tza (some (toRFC3339NoMillis ⟨some t⟩)) =
      twoDigits (HourFromTime (LocalTime tza t)) ++
        ':' :: twoDigits (MinFromTime (LocalTime tza t)) := by
  have htr : truthyStr (some (toRFC3339NoMillis ⟨some t⟩)) = true := by
    rw [toRFC3339NoMillis_valid t hy.1 hy.2]
    rfl
  have hp : newDateString tza (toRFC3339NoMillis ⟨some t⟩) = ⟨some t⟩ := by
    unfold newDateString
    rw [dateParse_format tza t hy.1 hy.2 hms]
  have hm := month_bounds (DayWithinYear (LocalTime tza t)) (InLeapYear (LocalTime tza t))
  have hm2 : 0 ≤ MonthFromTime (LocalTime tza t) ∧ MonthFromTime (LocalTime tza t) ≤ 11 := hm
  have hd := DateFromTime_bounds (LocalTime tza t)
  have hH : 0 ≤ HourFromTime (LocalTime tza t) ∧ HourFromTime (LocalTime tza t) ≤ 23 := by
    unfold HourFromTime; omega
  have hM : 0 ≤ MinFromTime (LocalTime tza t) ∧ MinFromTime (LocalTime tza t) ≤ 59 := by
    unfold MinFromTime; omega
  have p1 := pad_eq (MonthFromTime (LocalTime tza t) + 1) (by omega) (by omega)
  have p2 := pad_eq (DateFromTime (LocalTime tza t)) (by omega) (by omega)
  have p3 := pad_eq (HourFromTime (LocalTime tza t)) hH.1 (by omega)
  have p4 := pad_eq (MinFromTime (LocalTime tza t)) hM.1 (by omega)
  unfold pad at p1 p2 p3 p4
  constructor
  · unfold dateInputValue
    rw [if_pos htr]
    simp only [Option.getD_some, hp, getFullYear, getMonth, getDate, Option.map_some',
      numberToString_four _ hly.1 hly.2, p1, p2]
    simp
  · unfold timeInputValue
    rw [if_pos htr]
    simp only [Option.getD_some, hp, getHours, getMinutes, Option.map_some', p3, p4]
    simp

/-- Claim C28, amended: for every stored due date that is the strict form of
an instant `t` of whole seconds whose UTC year and local year have four
digits and whose local time has zero seconds, the date control is rendered
as the local date `YYYY-MM-DD`, the time control as the local time `hh:mm`,
and a title edit or a menu save with those two values sends back exactly the
stored string. -/
theorem edit_round_trip (tza now t : Int)
    (hy : 1000 ≤ YearFromTime t ∧ YearFromTime t ≤ 9999)
    (hly : 1000 ≤ YearFromTime (LocalTime tza t) ∧ YearFromTime (LocalTime tza t) ≤ 9999)
    (hms : t % 1000 = 0) (hmin : LocalTime tza t % 60000 = 0) :
    isStrictForm (toRFC3339NoMillis ⟨some t⟩) = true ∧
    dateInputValue tza (some (toRFC3339NoMillis ⟨some t⟩)) =
      fourDigits (YearFromTime (LocalTime tza t)) ++
        '-' :: twoDigits (MonthFromTime (LocalTime tza t) + 1) ++
        '-' :: twoDigits (DateFromTime (LocalTime tza t)) ∧
    timeInputValue tza (some (toRFC3339NoMillis ⟨some t⟩)) =
      twoDigits (HourFromTime (LocalTime tza t)) ++
        ':' :: twoDigits (MinFromTime (LocalTime tza t)) ∧
    saveEditDueDate tza now
        (some ⟨dateInputValue tza (some (toRFC3339NoMillis ⟨some t⟩)),
          some (dataDue (some (toRFC3339NoMillis ⟨some t⟩)))⟩)
        (some (timeInputValue tza (some (toRFC3339NoMillis ⟨some t⟩)))) =
      some (toRFC3339NoMillis ⟨some t⟩) ∧
    menuSaveDueDate tza now
        (some ⟨dateInputValue tza (some (toRFC3339NoMillis ⟨some t⟩)),
          some (dataDue (some (toRFC3339NoMillis ⟨some t⟩)))⟩)
        (some (timeInputValue tza (some (toRFC3339NoMillis ⟨some t⟩)))) =
      some (toRFC3339NoMillis ⟨some t⟩) := by
  obtain ⟨r1, r2⟩ := render_format tza t hy hly hms
  refine ⟨isStrictForm_format t hy.1 hy.2, r1, r2, ?_⟩
  have hm := month_bounds (DayWithinYear (LocalTime tza t)) (InLeapYear (LocalTime tza t))
  have hm2 : 0 ≤ MonthFromTime (LocalTime tza t) ∧ MonthFromTime (LocalTime tza t) ≤ 11 := hm
  have hd := DateFromTime_bounds (LocalTime tza t)
  have hH : 0 ≤ HourFromTime (LocalTime tza t) ∧ HourFromTime (LocalTime tza t) ≤ 23 := by
    unfold HourFromTime; omega
  have hM : 0 ≤ MinFromTime (LocalTime tza t) ∧ MinFromTime (LocalTime tza t) ≤ 59 := by
    unfold MinFromTime; omega
  obtain ⟨y1, y2, y3, y4, ey, hy1, hy2, hy3, hy4, ny⟩ :=
    fourDigits_facts (YearFromTime (LocalTime tza t)) (by omega) hly.2
  obtain ⟨m1, m2, em, hm1, hm2', nm⟩ :=
    twoDigits_facts (MonthFromTime (LocalTime tza t) + 1) (by omega) (by omega)
  obtain ⟨d1, d2, ed, hd1, hd2, nd⟩ :=
    twoDigits_facts (DateFromTime (LocalTime tza t)) (by omega) (by omega)
  obtain ⟨a1, a2, ea, ha1, ha2, na⟩ :=
    twoDigits_facts (HourFromTime (LocalTime tza t)) hH.1 (by omega)
  obtain ⟨i1, i2, ei, hi1, hi2, ni⟩ :=
    twoDigits_facts (MinFromTime (LocalTime tza t)) hM.1 (by omega)
  have hdv : dateInputValue tza (some (toRFC3339NoMillis ⟨some t⟩)) =
      [y1, y2, y3, y4, '-', m1, m2, '-', d1, d2] := by
    rw [r1, ey, em, ed]
    rfl
  have htv : timeInputValue tza (some (toRFC3339NoMillis ⟨some t⟩)) = [a1, a2, ':', i1, i2] := by
    rw [r2, ea, ei]
    rfl
  have hres : dateFromInputs tza [y1, y2, y3, y4, '-', m1, m2, '-', d1, d2]
      (some [a1, a2, ':', i1, i2]) = ⟨some t⟩ := by
    rw [dateFromInputs_digits tza y1 y2 y3 y4 m1 m2 d1 d2 a1 a2 i1 i2 ⟨hy1, hy2, hy3, hy4⟩
      ⟨hm1, hm2'⟩ ⟨hd1, hd2⟩ ⟨ha1, ha2⟩ ⟨hi1, hi2⟩, ny, nm, nd, na, ni, add_sub_cancel_right]
    exact setHours_local_fields tza t hy hly hmin
  rw [hdv, htv]
  obtain ⟨s1, s2⟩ := save_with_date tza now y1 [y2, y3, y4, '-', m1, m2, '-', d1, d2]
    (some (dataDue (some (toRFC3339NoMillis ⟨some t⟩)))) (some [a1, a2, ':', i1, i2])
  rw [s1, s2, hres]
  exact ⟨rfl, rfl⟩

theorem edit_round_trip_witness :
    saveEditDueDate 3600000 0
        (some ⟨"2025-03-11".toList, some "2025-03-10T23:30:00Z".toList⟩)
        (some "00:30".toList) = some "2025-03-10T23:30:00Z".toList ∧
    isStrictForm (toRFC3339NoMillis ⟨some 1741649400000⟩) = true ∧
    dateInputValue 3600000 (some (toRFC3339NoMillis ⟨some 1741649400000⟩)) =
      fourDigits (YearFromTime (LocalTime 3600000 1741649400000)) ++
        '-' :: twoDigits (MonthFromTime (LocalTime 3600000 1741649400000) + 1) ++
        '-' :: twoDigits (DateFromTime (LocalTime 3600000 1741649400000)) ∧
    timeInputValue 3600000 (some (toRFC3339NoMillis ⟨some 1741649400000⟩)) =
      twoDigits (HourFromTime (LocalTime 3600000 1741649400000)) ++
        ':' :: twoDigits (MinFromTime (LocalTime 3600000 1741649400000)) ∧
    saveEditDueDate 3600000 0
        (some ⟨dateInputValue 3600000 (some (toRFC3339NoMillis ⟨some 1741649400000⟩)),
          some (dataDue (some (toRFC3339NoMillis ⟨some 1741649400000⟩)))⟩)
        (some (timeInputValue 3600000 (some (toRFC3339NoMillis ⟨some 1741649400000⟩)))) =
      some (toRFC3339NoMillis ⟨some 1741649400000⟩) ∧
    menuSaveDueDate 3600000 0
        (some ⟨dateInputValue 3600000 (some (toRFC3339NoMillis ⟨some 1741649400000⟩)),
          some (dataDue (some (toRFC3339NoMillis ⟨some 1741649400000⟩)))⟩)
        (some (timeInputValue 3600000 (some (toRFC3339NoMillis ⟨some 1741649400000⟩)))) =
      some (toRFC3339NoMillis ⟨some 1741649400000⟩) :=
  ⟨by decide, edit_round_trip 3600000 0 1741649400000 (by decide) (by decide) (by decide)
    (by decide)⟩

end TodoApp
